import Mathlib

/-!
Verification of mcp-app-deployer: a shallow embedding of deploy, destroy, update and status.

The Go program drives external collaborators (the local disk, a Git remote through go-git,
a Kubernetes cluster, an HTTP endpoint).  The embedding keeps the control flow of each Go
function as it is written and makes the collaborators explicit:

* `World` is the state the collaborators hold (remote repository, entries of the local disk,
  cluster objects) together with the trace of external calls attempted so far;
* `Env` is what one invocation cannot control: which external call fails and with which
  message, the random suffix of the temporary directory, the clock, the HTTP answers;
* `Templates` stands for the embedded `templates/*` files, which are not part of the sources.

Paths are slash separated strings; `filepath.Clean` and `filepath.Join` follow the Go
standard library on Unix.  A Git tree is the content at each path; `.gitignore` rules, file
modes and empty directories are not modelled.  A call on the local disk acts on the path the
source builds, also when that path leaves the temporary directory.  A deferred Go call is
applied to what the body returned.
-/

set_option autoImplicit false

namespace McpAppDeployer

/-! ## Paths (`path/filepath` on Unix) -/

namespace filepath

/-- The components of a path between its slashes: `a//b` has the components `a`, the empty
component and `b`. -/
def splitSlash : List Char → List (List Char)
  | [] => [[]]
  | c :: cs =>
    if c = '/' then [] :: splitSlash cs
    else
      match splitSlash cs with
      | [] => [[c]]
      | h :: t => (c :: h) :: t

/-- The components joined again with one slash between two neighbours. -/
def joinSlash : List (List Char) → List Char
  | [] => []
  | [c] => c
  | c :: d :: rest => c ++ '/' :: joinSlash (d :: rest)

/-- One step of the lexical clean-up, on the components kept so far (innermost first):
empty components and `.` are dropped, `..` removes the component before it, is dropped at
the root of a rooted path, and is kept at the start of a relative one. -/
def cleanStep (rooted : Bool) (st : List (List Char)) (c : List Char) : List (List Char) :=
  if c = [] ∨ c = ['.'] then st
  else if c = ['.', '.'] then
    match st with
    | [] => if rooted then [] else [c]
    | top :: rest => if top = ['.', '.'] then c :: st else rest
  else c :: st

/-- The components a path keeps after the clean-up, outermost first. -/
def cleanComps (rooted : Bool) (p : List Char) : List (List Char) :=
  ((splitSlash p).foldl (cleanStep rooted) []).reverse

/-- The path starts with a slash. -/
def rooted : List Char → Bool
  | [] => false
  | c :: _ => decide (c = '/')

/-- The characters of `filepath.Clean`. -/
def cleanChars (p : List Char) : List Char :=
  if p = [] then ['.']
  else if rooted p then '/' :: joinSlash (cleanComps true p)
  else if joinSlash (cleanComps false p) = [] then ['.']
  else joinSlash (cleanComps false p)

/-- Go `filepath.Clean`: the shortest path name equivalent to `path` by purely lexical
processing. -/
def Clean (path : String) : String := ⟨cleanChars path.data⟩

/-- Go `filepath.Join` on Unix: the elements from the first non-empty one on are joined with
a slash (`strings.Join`) and the result is cleaned; the result is the empty string when every
element is empty. -/
def Join (elem : List String) : String :=
  match elem.dropWhile (fun e => e.data = []) with
  | [] => ""
  | rest => ⟨cleanChars (joinSlash (rest.map String.data))⟩

end filepath

/-! ## Tool results and configuration -/

/-- The `mcp.CallToolResult` of a tool call: its text and its error flag. -/
structure CallToolResult where
  text : String
  isError : Bool
deriving DecidableEq, Repr

/-- Go `mcp.NewToolResultText`. -/
def NewToolResultText (text : String) : CallToolResult := ⟨text, false⟩

/-- Go `mcp.NewToolResultError`. -/
def NewToolResultError (text : String) : CallToolResult := ⟨text, true⟩

/-- What an operation returns in Go: `(*mcp.CallToolResult, error)`; `none` is the `nil`
error. -/
abbrev ToolReturn := CallToolResult × Option String

/-- The process-wide configuration of `main.go` (the package variables set from the flags). -/
structure Config where
  kubeconfigPath : String
  kubeNamespace : String
  domain : String
  githubURL : String
  githubToken : String
  argocdAppPath : String
  manifestPath : String

/-- The flag defaults of `main.go`, with the three required flags given. -/
def Config.defaults (kubeconfig url token : String) : Config :=
  { kubeconfigPath := kubeconfig, kubeNamespace := "applications", domain := "tykus.net",
    githubURL := url, githubToken := token, argocdAppPath := "argocd-apps",
    manifestPath := "manifests" }

/-! ## File trees -/

/-- The files of a Git tree or of a checkout: the content at each path.  The first binding
of a path is the one that counts. -/
abbrev Tree := List (String × String)

namespace Tree

/-- The content at a path. -/
def get : Tree → String → Option String
  | [], _ => none
  | (k, v) :: t, p => if k = p then some v else get t p

/-- Path `k` is `d` itself or lies in directory `d`; the workspace root (`.`, or the empty
path) holds every path. -/
def under (d k : String) : Bool :=
  d = "." || d = "" || k = d || (d.data ++ ['/']).isPrefixOf k.data

/-- Write `content` at `path`. -/
def set (t : Tree) (path content : String) : Tree :=
  (path, content) :: t.filter (fun e => e.1 ≠ path)

/-- Remove `d` and everything in it. -/
def removeUnder (t : Tree) (d : String) : Tree :=
  t.filter (fun e => !under d e.1)

/-- Something exists at `d`: a file, or a directory holding a file. -/
def existsAt (t : Tree) (d : String) : Bool :=
  t.any (fun e => under d e.1) || d = "." || d = ""

/-- The tree that has the files of `src` at `d` and in it, and those of `dst` elsewhere. -/
def stage (dst src : Tree) (d : String) : Tree :=
  src.filter (fun e => under d e.1) ++ dst.filter (fun e => !under d e.1)

/-- Two trees hold the same content at every path. -/
def same (a b : Tree) : Bool :=
  (a ++ b).all (fun e => decide (get a e.1 = get b e.1))

end Tree

/-! ## JSON values and the cluster -/

/-- The `interface{}` values of decoded JSON (`map[string]interface{}` is `obj`). -/
inductive JVal where
  | null
  | bool (b : Bool)
  | num (n : Int)
  | str (s : String)
  | arr (xs : List JVal)
  | obj (kvs : List (String × JVal))

/-- Go map indexing `m[field]`. -/
def JVal.field : List (String × JVal) → String → Option JVal
  | [], _ => none
  | (k, v) :: t, f => if k = f then some v else JVal.field t f

/-- A `Deployment` as far as `update` touches it: the pod template annotations
(`none` is the nil map) and everything else. -/
structure Deployment where
  annotations : Option (List (String × String))
  rest : JVal

/-! ## The world and the environment of one invocation -/

/-- The external calls, in the order they are attempted. -/
inductive Event where
  | mkdirTemp (dir : String)
  | removeAllTemp (dir : String)
  | plainClone (dir url : String)
  | worktree
  | mkdirAll (path : String)
  | create (path : String)
  | execute (template path : String)
  | add (path : String)
  | stat (path : String)
  | gitRemove (path : String)
  | removeAll (path : String)
  | remove (path : String)
  | status
  | commit (message : String)
  | push
  | cloneMemory (url : String)
  | head
  | commitObject
  | tree
  | file (path : String)
  | buildConfig (kubeconfig : String)
  | newClient
  | getApplication (ns name : String)
  | getDeployment (ns name : String)
  | updateDeployment (ns name : String)
  | httpGet (url : String)
deriving DecidableEq, Repr

/-- The state held outside the process. -/
structure World where
  /-- The tree of the HEAD commit of the remote repository. -/
  remote : Tree
  /-- The messages of the commits on the remote branch, newest first. -/
  commits : List String
  /-- The entries of the local disk, directories and files, by absolute path.  What a clone
  checks out into its temporary directory is held by the `Workspace`, not here. -/
  disk : List String
  /-- The ArgoCD `Application` resources (their `Object` maps), by namespace and name. -/
  applications : List ((String × String) × List (String × JVal))
  /-- The `Deployment` resources, by namespace and name. -/
  deployments : List ((String × String) × Deployment)
  /-- The external calls attempted so far, oldest first. -/
  trace : List Event

/-- Record an external call. -/
def World.emit (w : World) (e : Event) : World := { w with trace := w.trace ++ [e] }

/-- Which external call fails, and with which error message (`none`: the call succeeds). -/
structure Faults where
  mkdirTemp : Option String
  removeAllTemp : Option String
  plainClone : Option String
  worktree : Option String
  mkdirAll : String → Option String
  create : String → Option String
  write : String → Option String
  add : String → Option String
  gitRemove : String → Option String
  removeAll : String → Option String
  remove : String → Option String
  status : Option String
  commit : Option String
  push : Option String
  cloneMemory : Option String
  head : Option String
  commitObject : Option String
  tree : Option String
  file : String → Option String
  buildConfig : Option String
  newClient : Option String
  getApplication : Option String
  getDeployment : Option String
  updateDeployment : Option String

/-- No external call fails. -/
def Faults.none : Faults :=
  { mkdirTemp := .none, removeAllTemp := .none, plainClone := .none, worktree := .none,
    mkdirAll := fun _ => .none, create := fun _ => .none, write := fun _ => .none, add := fun _ => .none,
    gitRemove := fun _ => .none, removeAll := fun _ => .none, remove := fun _ => .none,
    status := .none, commit := .none, push := .none, cloneMemory := .none, head := .none,
    commitObject := .none, tree := .none, file := fun _ => .none, buildConfig := .none,
    newClient := .none, getApplication := .none, getDeployment := .none,
    updateDeployment := .none }

/-- What one invocation meets: the failures, the directory `os.TempDir()`, the random suffix
`os.MkdirTemp` picks, the clock (`time.Now().Format(time.RFC3339)`), and for each URL what
`http.Client.Get` yields: a transport error or the status code of the response. -/
structure Env where
  faults : Faults
  osTempDir : String
  suffix : String
  now : String
  httpGet : String → Except String Int

/-- The data the templates are executed with (the anonymous struct of `deploy`). -/
structure TemplateData where
  Name : String
  Image : String
  Namespace : String
  Domain : String
  RepoURL : String
  ManifestPath : String

/-- A parsed template: what executing it on the data writes, or the execution error. -/
abbrev Template := TemplateData → Except String String

/-- The embedded `templates/*` files, which are not among the sources: what
`template.ParseFS(templatesFS, file)` yields for each file name. -/
structure Templates where
  parseFS : String → Except String Template


/-! ## The local disk

The entries of the disk are named by their absolute path.  Whether an entry is a directory
or a file is not recorded, nor is the content of a file outside a clone. -/

/-- Entry `p` is the directory `d` itself or lies in it. -/
def inDir (d p : String) : Bool :=
  p = d || (d.data ++ ['/']).isPrefixOf p.data

namespace Disk

/-- The directories on the way to `p`, and `p` itself: for `/tmp/a/b` these are `/tmp`,
`/tmp/a` and `/tmp/a/b`.  The root is left out. -/
def ancestors (p : String) : List String :=
  (p.data.inits.filter (fun q => q ≠ [] && (q ++ ['/']).isPrefixOf p.data)).map String.mk
    ++ [p]

/-- The entries after `os.MkdirAll(p)`: `p` and the directories on the way to it that were
missing exist. -/
def mkdirAll (disk : List String) (p : String) : List String :=
  disk ++ (ancestors p).filter (fun a => decide (a ∉ disk))

/-- The entries after `os.Create(p)`: the file `p` exists. -/
def create (disk : List String) (p : String) : List String :=
  if p ∈ disk then disk else disk ++ [p]

/-- The entries after `os.RemoveAll(p)`: `p` and everything in it are gone. -/
def removeAll (disk : List String) (p : String) : List String :=
  disk.filter (fun e => !inDir p e)

/-- The entries after `os.Remove(p)`: `p` is gone. -/
def remove (disk : List String) (p : String) : List String :=
  disk.filter (fun e => e ≠ p)

end Disk

/-- The world with the entries of the local disk replaced. -/
def World.onDisk (w : World) (disk : List String) : World := { w with disk := disk }

/-! ## The local clone and the external calls

The files of the clone are addressed by their path relative to the temporary directory.
Where the source builds a disk path with `filepath.Join(tempDir, ...)`, a call on the disk
is given two paths: the disk path as the source builds it, which names the entry on the
disk, and the same `filepath.Join` without its leading `tempDir` element, which names the
file as the clone sees it and is the path recorded in the trace.  A path in the index or in
a commit tree is such a relative path.  The files of a `Workspace` are those the clone
checked out and those this invocation wrote, the latter also when their path leaves the
temporary directory. -/

/-- The clone in the temporary directory: the tree of its HEAD commit, the index, the
files of the working directory, and the messages of the commits made locally and not yet
pushed (newest first). -/
structure Workspace where
  head : Tree
  index : Tree
  files : Tree
  commits : List String

/-- Go `os.MkdirTemp("", pattern)`. -/
def osMkdirTemp (env : Env) (w : World) (pattern : String) : Except String String × World :=
  let dir := env.osTempDir ++ "/" ++ pattern ++ env.suffix
  match env.faults.mkdirTemp with
  | some err => (.error err, w.emit (.mkdirTemp dir))
  | none => (.ok dir, { w.emit (.mkdirTemp dir) with disk := dir :: w.disk })

/-- The deferred `os.RemoveAll(tempDir)`: the directory and everything in it are gone, unless
the call fails; the source drops its error.  What a failing call had removed by then is not
modelled: the entries stay. -/
def osRemoveAllTemp (env : Env) (w : World) (dir : String) : World :=
  match env.faults.removeAllTemp with
  | some _ => w.emit (.removeAllTemp dir)
  | none => (w.emit (.removeAllTemp dir)).onDisk (Disk.removeAll w.disk dir)

/-- Go `git.PlainClone(tempDir, false, ...)`: a full clone, checked out. -/
def gitPlainClone (cfg : Config) (env : Env) (w : World) (dir : String) :
    Except String Workspace × World :=
  match env.faults.plainClone with
  | some err => (.error err, w.emit (.plainClone dir cfg.githubURL))
  | none =>
    (.ok { head := w.remote, index := w.remote, files := w.remote, commits := [] },
      w.emit (.plainClone dir cfg.githubURL))

/-- Go `repo.Worktree()`. -/
def repoWorktree (env : Env) (w : World) : Option String × World :=
  (env.faults.worktree, w.emit .worktree)

/-- Go `os.MkdirAll(diskPath, 0755)`: the directory exists on the disk afterwards, with the
directories on the way to it; for the clone a directory holds no content of its own. -/
def osMkdirAll (env : Env) (w : World) (diskPath path : String) : Option String × World :=
  match env.faults.mkdirAll path with
  | some err => (some err, w.emit (.mkdirAll path))
  | none => (none, (w.emit (.mkdirAll path)).onDisk (Disk.mkdirAll w.disk diskPath))

/-- Go `os.Create(diskPath)`: the file exists afterwards and is empty. -/
def osCreate (env : Env) (ws : Workspace) (w : World) (diskPath path : String) :
    Except String Workspace × World :=
  match env.faults.create path with
  | some err => (.error err, w.emit (.create path))
  | none =>
    (.ok { ws with files := ws.files.set path "" },
      (w.emit (.create path)).onDisk (Disk.create w.disk diskPath))

/-- Go `tmpl.Execute(f, data)` on the file created at `path`: the rendered text is written,
unless the template fails on the data or the write fails. -/
def templateExecute (env : Env) (tmpl : Template) (name : String) (ws : Workspace) (w : World)
    (path : String) (data : TemplateData) : Except String Workspace × World :=
  match tmpl data with
  | .error err => (.error err, w.emit (.execute name path))
  | .ok text =>
    match env.faults.write path with
    | some err => (.error err, w.emit (.execute name path))
    | none => (.ok { ws with files := ws.files.set path text }, w.emit (.execute name path))

/-- Go `w.Add(path)`: the index takes the state of the working directory at `path` and, when
`path` is a directory, in it (deletions included). -/
def worktreeAdd (env : Env) (ws : Workspace) (w : World) (path : String) :
    Except String Workspace × World :=
  match env.faults.add path with
  | some err => (.error err, w.emit (.add path))
  | none => (.ok { ws with index := Tree.stage ws.index ws.files path }, w.emit (.add path))

/-- Go `w.Filesystem.Stat(path)`: whether something exists at `path`. -/
def worktreeStat (ws : Workspace) (w : World) (path : String) : Bool × World :=
  (ws.files.existsAt path, w.emit (.stat path))

/-- Go `w.Remove(path)`: the files at `path` leave the working directory and the index. -/
def worktreeRemove (env : Env) (ws : Workspace) (w : World) (path : String) :
    Except String Workspace × World :=
  match env.faults.gitRemove path with
  | some err => (.error err, w.emit (.gitRemove path))
  | none =>
    (.ok { ws with index := ws.index.removeUnder path, files := ws.files.removeUnder path },
      w.emit (.gitRemove path))

/-- Go `os.RemoveAll(diskPath)`: the entry and everything in it are gone, from the disk and
from what the clone sees; no error when nothing is there.  What a failing call had removed
by then is not modelled. -/
def osRemoveAll (env : Env) (ws : Workspace) (w : World) (diskPath path : String) :
    Except String Workspace × World :=
  match env.faults.removeAll path with
  | some err => (.error err, w.emit (.removeAll path))
  | none =>
    (.ok { ws with files := ws.files.removeUnder path },
      (w.emit (.removeAll path)).onDisk (Disk.removeAll w.disk diskPath))

/-- The error of `os.Remove`: the file does not exist, or another failure. -/
inductive RemoveError where
  | notExist
  | other (msg : String)

/-- Go `os.IsNotExist`. -/
def RemoveError.isNotExist : RemoveError → Bool
  | .notExist => true
  | .other _ => false

/-- The text of the error (`%v`). -/
def RemoveError.text (path : String) : RemoveError → String
  | .notExist => "remove " ++ path ++ ": no such file or directory"
  | .other msg => msg

/-- Go `os.Remove(diskPath)`: removes one file, of the clone or elsewhere on the disk, or an
empty directory.  A directory of the disk that is not empty is among the failures
`env.faults.remove` stands for. -/
def osRemove (env : Env) (ws : Workspace) (w : World) (diskPath path : String) :
    Except RemoveError Workspace × World :=
  match env.faults.remove path with
  | some err => (.error (.other err), w.emit (.remove path))
  | none =>
    match ws.files.get path with
    | some _ =>
      (.ok { ws with files := ws.files.filter (fun e => e.1 ≠ path) },
        (w.emit (.remove path)).onDisk (Disk.remove w.disk diskPath))
    | none =>
      if ws.files.existsAt path then
        (.error (.other ("remove " ++ path ++ ": directory not empty")), w.emit (.remove path))
      else if diskPath ∈ w.disk then
        (.ok ws, (w.emit (.remove path)).onDisk (Disk.remove w.disk diskPath))
      else (.error .notExist, w.emit (.remove path))

/-- Go `w.Status()` followed by `status.IsClean()`: the index equals HEAD and the working
directory equals the index. -/
def worktreeStatus (env : Env) (ws : Workspace) (w : World) : Except String Bool × World :=
  match env.faults.status with
  | some err => (.error err, w.emit .status)
  | none => (.ok (Tree.same ws.index ws.head && Tree.same ws.files ws.index), w.emit .status)

/-- Go `w.Commit(message, ...)`: the index becomes the tree of the new HEAD commit. -/
def worktreeCommit (env : Env) (ws : Workspace) (w : World) (message : String) :
    Except String Workspace × World :=
  match env.faults.commit with
  | some err => (.error err, w.emit (.commit message))
  | none =>
    (.ok { ws with head := ws.index, commits := message :: ws.commits },
      w.emit (.commit message))

/-- Go `repo.Push(...)`: the remote branch takes the local commits. -/
def repoPush (env : Env) (ws : Workspace) (w : World) : Option String × World :=
  match env.faults.push with
  | some err => (some err, w.emit .push)
  | none =>
    (none, { w.emit .push with remote := ws.head, commits := ws.commits ++ w.commits })

/-! ## deploy.go -/

/-- The loop of `deploy` over the manifest templates: parse, create the file, execute the
template into it, stage it; the first failure ends the operation with its error result. -/
def renderManifests (cfg : Config) (tpl : Templates) (env : Env)
    (appManifestPath relManifestPath : String) (data : TemplateData) (appName : String) :
    List String → Workspace → World → Except CallToolResult Workspace × World
  | [], ws, w => (.ok ws, w)
  | tmplName :: rest, ws, w =>
    match tpl.parseFS ("templates/" ++ tmplName) with
    | .error err =>
      (.error (NewToolResultError ("Failed to parse template " ++ tmplName ++ ": " ++ err)), w)
    | .ok tmpl =>
      match osCreate env ws w (filepath.Join [appManifestPath, tmplName])
          (filepath.Join [relManifestPath, tmplName]) with
      | (.error err, w) =>
        (.error (NewToolResultError ("Failed to create file " ++ tmplName ++ ": " ++ err)), w)
      | (.ok ws, w) =>
        match templateExecute env tmpl tmplName ws w (filepath.Join [relManifestPath, tmplName])
            data with
        | (.error err, w) =>
          (.error (NewToolResultError
            ("Failed to execute template " ++ tmplName ++ ": " ++ err)), w)
        | (.ok ws, w) =>
          match worktreeAdd env ws w (filepath.Join [cfg.manifestPath, appName, tmplName]) with
          | (.error err, w) =>
            (.error (NewToolResultError ("Failed to git add " ++ tmplName ++ ": " ++ err)), w)
          | (.ok ws, w) =>
            renderManifests cfg tpl env appManifestPath relManifestPath data appName rest ws w

/-- The names of the manifest templates, in the order `deploy` renders them. -/
def manifests : List String := ["deployment.yaml", "service.yaml", "ingress.yaml"]

/-- The part of `deploy` from "Render ArgoCD Application" to the end. -/
def deployPublish (cfg : Config) (tpl : Templates) (env : Env)
    (argocdPath relArgocdPath : String) (data : TemplateData) (appName image : String)
    (ws : Workspace) (w : World) :
    ToolReturn × World :=
  -- Render ArgoCD Application
  match tpl.parseFS "templates/application.yaml" with
  | .error err =>
    ((NewToolResultError ("Failed to parse application template: " ++ err), none), w)
  | .ok tmpl =>
    let argoAppFile := filepath.Join [argocdPath, appName ++ ".yaml"]
    let relArgoAppFile := filepath.Join [relArgocdPath, appName ++ ".yaml"]
    match osCreate env ws w argoAppFile relArgoAppFile with
    | (.error err, w) =>
      ((NewToolResultError ("Failed to create argo app file: " ++ err), none), w)
    | (.ok ws, w) =>
      match templateExecute env tmpl "application.yaml" ws w relArgoAppFile data with
      | (.error err, w) =>
        ((NewToolResultError ("Failed to execute application template: " ++ err), none), w)
      | (.ok ws, w) =>
        match worktreeAdd env ws w (filepath.Join [cfg.argocdAppPath, appName ++ ".yaml"]) with
        | (.error err, w) =>
          ((NewToolResultError ("Failed to git add argo app: " ++ err), none), w)
        | (.ok ws, w) =>
          -- 4. Commit and Push
          match worktreeStatus env ws w with
          | (.error err, w) =>
            ((NewToolResultError ("Failed to get git status: " ++ err), none), w)
          | (.ok true, w) => ((NewToolResultText "No changes to deploy", none), w)
          | (.ok false, w) =>
            let commitMsg := "Deploy application " ++ appName ++ " with image " ++ image
            match worktreeCommit env ws w commitMsg with
            | (.error err, w) =>
              ((NewToolResultError ("Failed to commit changes: " ++ err), none), w)
            | (.ok ws, w) =>
              match repoPush env ws w with
              | (some err, w) =>
                ((NewToolResultError ("Failed to push changes: " ++ err), none), w)
              | (none, w) =>
                ((NewToolResultText ("Successfully deployed " ++ appName ++ ". Git updated."),
                  none), w)

/-- The data `deploy` executes the templates with. -/
def templateData (cfg : Config) (appName image : String) : TemplateData :=
  { Name := appName, Image := image, Namespace := cfg.kubeNamespace, Domain := cfg.domain,
    RepoURL := cfg.githubURL, ManifestPath := cfg.manifestPath }

/-- The body of `deploy` after the temporary directory was created (what runs before the
deferred `os.RemoveAll`). -/
def deployBody (cfg : Config) (tpl : Templates) (env : Env) (tempDir appName image : String)
    (w : World) : ToolReturn × World :=
  match gitPlainClone cfg env w tempDir with
  | (.error err, w) => ((NewToolResultError ("Failed to clone repo: " ++ err), none), w)
  | (.ok ws, w) =>
    match repoWorktree env w with
    | (some err, w) => ((NewToolResultError ("Failed to get worktree: " ++ err), none), w)
    | (none, w) =>
      -- 2. Prepare paths
      let appManifestPath := filepath.Join [tempDir, cfg.manifestPath, appName]
      let relManifestPath := filepath.Join [cfg.manifestPath, appName]
      match osMkdirAll env w appManifestPath relManifestPath with
      | (some err, w) =>
        ((NewToolResultError ("Failed to create manifest dir: " ++ err), none), w)
      | (none, w) =>
        let argocdPath := filepath.Join [tempDir, cfg.argocdAppPath]
        let relArgocdPath := filepath.Join [cfg.argocdAppPath]
        match osMkdirAll env w argocdPath relArgocdPath with
        | (some err, w) =>
          ((NewToolResultError ("Failed to create argocd app dir: " ++ err), none), w)
        | (none, w) =>
          -- 3. Render templates
          let data := templateData cfg appName image
          match renderManifests cfg tpl env appManifestPath relManifestPath data appName
              manifests ws w with
          | (.error res, w) => ((res, none), w)
          | (.ok ws, w) =>
            deployPublish cfg tpl env argocdPath relArgocdPath data appName image ws w

/-- Go `deploy(ctx, appName, image)`. -/
def deploy (cfg : Config) (tpl : Templates) (env : Env) (w : World) (appName image : String) :
    ToolReturn × World :=
  -- 1. Clone the repository
  match osMkdirTemp env w "mcp-deployer-" with
  | (.error err, w) => ((NewToolResultError ("Failed to create temp dir: " ++ err), none), w)
  | (.ok tempDir, w) =>
    let r := deployBody cfg tpl env tempDir appName image w
    (r.1, osRemoveAllTemp env r.2 tempDir)

/-! ## destroy.go -/

/-- The "2. Remove files" block of `destroy` up to the robust clean-up. -/
def destroyRemoveManifests (cfg : Config) (env : Env) (tempDir manifestDir : String)
    (ws : Workspace) (w : World) : Except CallToolResult Workspace × World :=
  match worktreeStat ws w manifestDir with
  | (true, w) =>
    match worktreeRemove env ws w manifestDir with
    | (.ok ws, w) => (.ok ws, w)
    | (.error _, w) =>
      -- Try recursive removal if directory
      match osRemoveAll env ws w (filepath.Join [tempDir, manifestDir])
          (filepath.Join [manifestDir]) with
      | (.error err, w) =>
        (.error (NewToolResultError ("Failed to remove manifest dir: " ++ err)), w)
      | (.ok ws, w) =>
        -- Add the removal to git index (its failure is dropped)
        match worktreeAdd env ws w cfg.manifestPath with
        | (.error _, w) => (.ok ws, w)
        | (.ok ws, w) => (.ok ws, w)
  | (false, w) => (.ok ws, w)

/-- The part of `destroy` from the robust clean-up to the end. -/
def destroyPublish (cfg : Config) (env : Env) (tempDir manifestDir appName : String)
    (ws : Workspace) (w : World) : ToolReturn × World :=
  -- Clean up robustly: delete from FS, then Add(all)
  match osRemoveAll env ws w (filepath.Join [tempDir, manifestDir])
      (filepath.Join [manifestDir]) with
  | (.error err, w) =>
    ((NewToolResultError ("Failed to remove manifest dir from FS: " ++ err), none), w)
  | (.ok ws, w) =>
    let argoAppFile := filepath.Join [cfg.argocdAppPath, appName ++ ".yaml"]
    let removed : Except CallToolResult Workspace × World :=
      match osRemove env ws w (filepath.Join [tempDir, argoAppFile])
          (filepath.Join [argoAppFile]) with
      | (.ok ws, w) => (.ok ws, w)
      | (.error err, w) =>
        if !err.isNotExist then
          (.error (NewToolResultError
            ("Failed to remove argo app file: " ++ err.text (filepath.Join [argoAppFile]))), w)
        else (.ok ws, w)
    match removed with
    | (.error res, w) => ((res, none), w)
    | (.ok ws, w) =>
      -- Add changes to index (including deletions)
      match worktreeAdd env ws w "." with
      | (.error err, w) => ((NewToolResultError ("Failed to stage changes: " ++ err), none), w)
      | (.ok ws, w) =>
        -- 3. Commit and Push
        match worktreeStatus env ws w with
        | (.error err, w) =>
          ((NewToolResultError ("Failed to get git status: " ++ err), none), w)
        | (.ok true, w) =>
          ((NewToolResultText ("App " ++ appName ++ " does not exist or already destroyed"),
            none), w)
        | (.ok false, w) =>
          let commitMsg := "Destroy application " ++ appName
          match worktreeCommit env ws w commitMsg with
          | (.error err, w) =>
            ((NewToolResultError ("Failed to commit changes: " ++ err), none), w)
          | (.ok ws, w) =>
            match repoPush env ws w with
            | (some err, w) =>
              ((NewToolResultError ("Failed to push changes: " ++ err), none), w)
            | (none, w) =>
              ((NewToolResultText
                ("Successfully destroyed " ++ appName ++ " (manifests removed)."), none), w)

/-- The body of `destroy` after the temporary directory was created. -/
def destroyBody (cfg : Config) (env : Env) (tempDir appName : String) (w : World) :
    ToolReturn × World :=
  match gitPlainClone cfg env w tempDir with
  | (.error err, w) => ((NewToolResultError ("Failed to clone repo: " ++ err), none), w)
  | (.ok ws, w) =>
    match repoWorktree env w with
    | (some err, w) => ((NewToolResultError ("Failed to get worktree: " ++ err), none), w)
    | (none, w) =>
      -- 2. Remove files
      let manifestDir := filepath.Join [cfg.manifestPath, appName]
      match destroyRemoveManifests cfg env tempDir manifestDir ws w with
      | (.error res, w) => ((res, none), w)
      | (.ok ws, w) => destroyPublish cfg env tempDir manifestDir appName ws w

/-- Go `destroy(ctx, appName)`. -/
def destroy (cfg : Config) (env : Env) (w : World) (appName : String) : ToolReturn × World :=
  -- 1. Clone the repository
  match osMkdirTemp env w "mcp-destroyer-" with
  | (.error err, w) => ((NewToolResultError ("Failed to create temp dir: " ++ err), none), w)
  | (.ok tempDir, w) =>
    let r := destroyBody cfg env tempDir appName w
    (r.1, osRemoveAllTemp env r.2 tempDir)

/-! ## status.go -/

/-- Go `git.Clone(memory.NewStorage(), nil, ...)` with depth 1: nothing but the answer. -/
def gitCloneMemory (cfg : Config) (env : Env) (w : World) : Option String × World :=
  (env.faults.cloneMemory, w.emit (.cloneMemory cfg.githubURL))

/-- Go `tree.File(path)` on the tree of the remote HEAD commit: the error is `none` when the
file is there, the not-found error when it is absent, and it can be another failure of the
lookup (the blob cannot be read). -/
def treeFile (env : Env) (w : World) (path : String) : Option String × World :=
  match env.faults.file path with
  | some err => (some err, w.emit (.file path))
  | none =>
    match w.remote.get path with
    | some _ => (none, w.emit (.file path))
    | none => (some "file not found", w.emit (.file path))

/-- Go `r.Head()`. -/
def repoHead (env : Env) (w : World) : Option String × World :=
  (env.faults.head, w.emit .head)

/-- Go `r.CommitObject(ref.Hash())`. -/
def repoCommitObject (env : Env) (w : World) : Option String × World :=
  (env.faults.commitObject, w.emit .commitObject)

/-- Go `commit.Tree()`. -/
def commitTree (env : Env) (w : World) : Option String × World :=
  (env.faults.tree, w.emit .tree)

/-- Go `checkGitStatus(appName)`: the pair `(bool, error)`. -/
def checkGitStatus (cfg : Config) (env : Env) (w : World) (appName : String) :
    (Bool × Option String) × World :=
  match gitCloneMemory cfg env w with
  | (some err, w) => ((false, some err), w)
  | (none, w) =>
    -- Check if manifest file exists in the HEAD
    match repoHead env w with
    | (some err, w) => ((false, some err), w)
    | (none, w) =>
      match repoCommitObject env w with
      | (some err, w) => ((false, some err), w)
      | (none, w) =>
        match commitTree env w with
        | (some err, w) => ((false, some err), w)
        | (none, w) =>
          -- Check for application.yaml in argo path
          let argoPath := cfg.argocdAppPath ++ "/" ++ appName ++ ".yaml"
          match treeFile env w argoPath with
          | (err, w) => ((err.isNone, none), w)

/-- Go `clientcmd.BuildConfigFromFlags("", kubeconfigPath)`. -/
def buildConfigFromFlags (cfg : Config) (env : Env) (w : World) : Option String × World :=
  (env.faults.buildConfig, w.emit (.buildConfig cfg.kubeconfigPath))

/-- Go `dynamic.NewForConfig` and `kubernetes.NewForConfig`. -/
def newForConfig (env : Env) (w : World) : Option String × World :=
  (env.faults.newClient, w.emit .newClient)

/-- The dynamic client's `Get` of an `applications.argoproj.io` resource: the call fails
(transport, authorisation), or the resource is absent, or its object is returned. -/
def getApplication (env : Env) (w : World) (ns name : String) :
    Except String (List (String × JVal)) × World :=
  match env.faults.getApplication with
  | some err => (.error err, w.emit (.getApplication ns name))
  | none =>
    match w.applications.lookup (ns, name) with
    | some app => (.ok app, w.emit (.getApplication ns name))
    | none =>
      (.error ("applications.argoproj.io \"" ++ name ++ "\" not found"),
        w.emit (.getApplication ns name))

/-- Kubernetes `unstructured.NestedFieldNoCopy`: the value at the nested field, whether it
was found, and the accessor error when an inner value is not a map. -/
def NestedFieldNoCopy : JVal → List String → JVal × Bool × Option String
  | val, [] => (val, true, none)
  | .null, _ :: _ => (.null, false, none)
  | .obj m, field :: rest =>
    match JVal.field m field with
    | some v => NestedFieldNoCopy v rest
    | none => (.null, false, none)
  | _, _ :: _ => (.null, false, some "accessor error: expected map[string]interface{}")

/-- Kubernetes `unstructured.NestedString`: the string at the nested field, whether it was
found, and the accessor error (also when the value found is not a string). -/
def NestedString (obj : JVal) (fields : List String) : String × Bool × Option String :=
  match NestedFieldNoCopy obj fields with
  | (val, found, err) =>
    if !found || err.isSome then ("", found, err)
    else
      match val with
      | .str s => (s, true, none)
      | _ => ("", false, some "accessor error: expected string")

/-- Go `checkArgoStatus(ctx, appName)`: the pair `(string, error)`. -/
def checkArgoStatus (cfg : Config) (env : Env) (w : World) (appName : String) :
    (String × Option String) × World :=
  match buildConfigFromFlags cfg env w with
  | (some err, w) => (("", some err), w)
  | (none, w) =>
    match newForConfig env w with
    | (some err, w) => (("", some err), w)
    | (none, w) =>
      -- Assuming ArgoCD is in 'argocd' namespace.
      match getApplication env w "argocd" appName with
      | (.error err, w) => (("❌ ArgoCD Application not found: " ++ err, none), w)
      | (.ok app, w) =>
        -- Parse status
        if (NestedString (.obj app) ["status", "health", "status"]).2.1 then
          (("✅ ArgoCD App found. Health: "
              ++ (NestedString (.obj app) ["status", "health", "status"]).1
              ++ ", Sync: " ++ (NestedString (.obj app) ["status", "sync", "status"]).1, none), w)
        else (("⚠️ ArgoCD App found but status unknown", none), w)

/-- Go `checkReachability(url)`. -/
def checkReachability (env : Env) (w : World) (url : String) : Bool × World :=
  match env.httpGet url with
  | .error _ => (false, w.emit (.httpGet url))
  | .ok statusCode =>
    (decide (statusCode ≥ 200) && decide (statusCode < 400), w.emit (.httpGet url))

/-- The Git line of the report, from what `checkGitStatus` returned. -/
def gitLine : Bool × Option String → String
  | (_, some err) => "Error checking git: " ++ err
  | (true, none) => "✅ Manifests present in Git"
  | (false, none) => "❌ Manifests NOT found in Git"

/-- The ArgoCD line of the report, from what `checkArgoStatus` returned. -/
def argoLine : String × Option String → String
  | (_, some err) => "Error checking ArgoCD: " ++ err
  | (argocdStatus, none) => argocdStatus

/-- The ingress line of the report, from what `checkReachability` returned. -/
def ingressLine (ingressURL : String) (reachable : Bool) : String :=
  if reachable then "✅ Ingress reachable: " ++ ingressURL
  else "❌ Ingress unreachable: " ++ ingressURL

/-- Go `status(ctx, appName)`. -/
def status (cfg : Config) (env : Env) (w : World) (appName : String) : ToolReturn × World :=
  let result := ["Status for application: " ++ appName]
  -- 1. Check Git Status
  let git := checkGitStatus cfg env w appName
  let result := result ++ [gitLine git.1]
  -- 2. Check ArgoCD App Status
  let argo := checkArgoStatus cfg env git.2 appName
  let result := result ++ [argoLine argo.1]
  -- 3. Check Ingress Reachability
  let ingressURL := "http://" ++ appName ++ "." ++ cfg.domain
  let reach := checkReachability env argo.2 ingressURL
  let result := result ++ [ingressLine ingressURL reach.1]
  ((NewToolResultText (String.intercalate "\n" result), none), reach.2)

/-! ## update.go -/

/-- Go map assignment `m[key] = value`. -/
def mapSet (m : List (String × String)) (key value : String) : List (String × String) :=
  (key, value) :: m.filter (fun e => e.1 ≠ key)

/-- The typed client's `Get` of a `Deployment`. -/
def getDeployment (env : Env) (w : World) (ns name : String) : Except String Deployment × World :=
  match env.faults.getDeployment with
  | some err => (.error err, w.emit (.getDeployment ns name))
  | none =>
    match w.deployments.lookup (ns, name) with
    | some d => (.ok d, w.emit (.getDeployment ns name))
    | none =>
      (.error ("deployments.apps \"" ++ name ++ "\" not found"),
        w.emit (.getDeployment ns name))

/-- The typed client's `Update` of a `Deployment`: the object submitted replaces the stored
one. -/
def updateDeployment (env : Env) (w : World) (ns name : String) (d : Deployment) :
    Option String × World :=
  match env.faults.updateDeployment with
  | some err => (some err, w.emit (.updateDeployment ns name))
  | none =>
    (none, { w.emit (.updateDeployment ns name) with
              deployments := ((ns, name), d) :: w.deployments.filter (fun e => e.1 ≠ (ns, name)) })

/-- Go `update(ctx, appName)`. -/
def update (cfg : Config) (env : Env) (w : World) (appName : String) : ToolReturn × World :=
  match buildConfigFromFlags cfg env w with
  | (some err, w) => ((NewToolResultError ("Failed to build kubeconfig: " ++ err), none), w)
  | (none, w) =>
    match newForConfig env w with
    | (some err, w) =>
      ((NewToolResultError ("Failed to create Kubernetes client: " ++ err), none), w)
    | (none, w) =>
      -- Get the current deployment
      match getDeployment env w cfg.kubeNamespace appName with
      | (.error err, w) =>
        ((NewToolResultError ("Failed to get deployment " ++ appName ++ ": " ++ err), none), w)
      | (.ok deploy, w) =>
        -- Patch the pod template annotation to trigger a rolling restart
        let annotations := match deploy.annotations with
          | none => []
          | some m => m
        let deploy := { deploy with
          annotations := some (mapSet annotations "kubectl.kubernetes.io/restartedAt" env.now) }
        match updateDeployment env w cfg.kubeNamespace appName deploy with
        | (some err, w) =>
          ((NewToolResultError ("Failed to update deployment " ++ appName ++ ": " ++ err),
            none), w)
        | (none, w) =>
          ((NewToolResultText ("Successfully triggered rolling restart for deployment "
            ++ appName ++ " in namespace " ++ cfg.kubeNamespace), none), w)

/-! ## main.go: the tool handlers -/

/-- The `mcp.CallToolRequest` as far as the handlers read it: `request.Params.Arguments`. -/
structure CallToolRequest where
  arguments : JVal

/-- Go `deployHandler`. -/
def deployHandler (cfg : Config) (tpl : Templates) (env : Env) (w : World)
    (request : CallToolRequest) : ToolReturn × World :=
  match request.arguments with
  | .obj args =>
    match JVal.field args "app_name" with
    | some (.str appName) =>
      match JVal.field args "image" with
      | some (.str image) => deploy cfg tpl env w appName image
      | _ => ((NewToolResultError "image must be a string", none), w)
    | _ => ((NewToolResultError "app_name must be a string", none), w)
  | _ => ((NewToolResultError "arguments must be a map", none), w)

/-- Go `destroyHandler`. -/
def destroyHandler (cfg : Config) (env : Env) (w : World) (request : CallToolRequest) :
    ToolReturn × World :=
  match request.arguments with
  | .obj args =>
    match JVal.field args "app_name" with
    | some (.str appName) => destroy cfg env w appName
    | _ => ((NewToolResultError "app_name must be a string", none), w)
  | _ => ((NewToolResultError "arguments must be a map", none), w)

/-- Go `statusHandler`. -/
def statusHandler (cfg : Config) (env : Env) (w : World) (request : CallToolRequest) :
    ToolReturn × World :=
  match request.arguments with
  | .obj args =>
    match JVal.field args "app_name" with
    | some (.str appName) => status cfg env w appName
    | _ => ((NewToolResultError "app_name must be a string", none), w)
  | _ => ((NewToolResultError "arguments must be a map", none), w)

/-- Go `updateHandler`. -/
def updateHandler (cfg : Config) (env : Env) (w : World) (request : CallToolRequest) :
    ToolReturn × World :=
  match request.arguments with
  | .obj args =>
    match JVal.field args "app_name" with
    | some (.str appName) => update cfg env w appName
    | _ => ((NewToolResultError "app_name must be a string", none), w)
  | _ => ((NewToolResultError "arguments must be a map", none), w)

/-! ## Definitions used to state the properties -/

namespace filepath

/-- A component the clean-up keeps as it is. -/
def PlainComp (c : List Char) : Prop := c ≠ [] ∧ c ≠ ['.'] ∧ '/' ∉ c

/-- The shape of the kept components (innermost first): plain components, with `..` only at
the start of a relative path. -/
def Norm (r : Bool) : List (List Char) → Prop
  | [] => True
  | c :: st =>
    PlainComp c ∧ (c = ['.', '.'] → r = false ∧ (st = [] ∨ ∃ t, st = ['.', '.'] :: t)) ∧ Norm r st

end filepath

/-- The files after the writes, applied in order. -/
def Tree.writeAll : List (String × String) → Tree → Tree
  | [], t => t
  | (p, c) :: rest, t => Tree.writeAll rest (t.set p c)

/-- The content at path `q` after the writes, from the content before. -/
def overlay : List (String × String) → String → Option String → Option String
  | [], _, b => b
  | (p, c) :: rest, q, b => overlay rest q (if p = q then some c else b)

/-- Record several external calls. -/
def World.emitAll (w : World) (evs : List Event) : World := { w with trace := w.trace ++ evs }

/-- What executing the template file yields on the data, when it parses and executes. -/
def renderFile (tpl : Templates) (data : TemplateData) (file : String) : Option String :=
  match tpl.parseFS ("templates/" ++ file) with
  | .error _ => none
  | .ok tmpl =>
    match tmpl data with
    | .error _ => none
    | .ok text => some text

/-- The rendered manifests with their paths in the repository, for the given template
names. -/
def desiredManifests (cfg : Config) (tpl : Templates) (appName image : String) :
    List String → Option (List (String × String))
  | [] => some []
  | t :: rest =>
    match renderFile tpl (templateData cfg appName image) t,
      desiredManifests cfg tpl appName image rest with
    | some text, some r => some ((filepath.Join [cfg.manifestPath, appName, t], text) :: r)
    | _, _ => none

/-- The desired-state artifact set of an application: the three manifests and the
Application descriptor, each with its path in the repository, in the order `deploy` writes
them; `none` when a template does not parse or execute. -/
def desiredState (cfg : Config) (tpl : Templates) (appName image : String) :
    Option (List (String × String)) :=
  match desiredManifests cfg tpl appName image manifests,
    renderFile tpl (templateData cfg appName image) "application.yaml" with
  | some ms, some text =>
    some (ms ++ [(filepath.Join [cfg.argocdAppPath, appName ++ ".yaml"], text)])
  | _, _ => none

/-- The value at a nested field of a JSON value, when every field on the way is there. -/
def JVal.fieldAt : JVal → List String → Option JVal
  | v, [] => some v
  | .obj m, f :: rest =>
    match JVal.field m f with
    | some v => JVal.fieldAt v rest
    | none => none
  | _, _ :: _ => none

/-- The external calls of the loop of `deploy` over the given template names, when none
fails. -/
def manifestCalls (cfg : Config) (appName : String) : List String → List Event
  | [] => []
  | t :: rest =>
    Event.create (filepath.Join [cfg.manifestPath, appName, t])
      :: Event.execute t (filepath.Join [cfg.manifestPath, appName, t])
      :: Event.add (filepath.Join [cfg.manifestPath, appName, t])
      :: manifestCalls cfg appName rest

/-- The working directory and the index of the clone hold the same files. -/
def Workspace.Synced (ws : Workspace) : Prop := ∀ q, ws.files.get q = ws.index.get q

/-- The external calls of the body of `deploy` up to the status computation, when none
fails. -/
def deployBodyCalls (cfg : Config) (dir appName : String) : List Event :=
  [Event.plainClone dir cfg.githubURL,
    Event.worktree,
    Event.mkdirAll (filepath.Join [cfg.manifestPath, appName]),
    Event.mkdirAll (filepath.Join [cfg.argocdAppPath])]
  ++ manifestCalls cfg appName manifests
  ++ [Event.create (filepath.Join [cfg.argocdAppPath, appName ++ ".yaml"]),
    Event.execute "application.yaml" (filepath.Join [cfg.argocdAppPath, appName ++ ".yaml"]),
    Event.add (filepath.Join [cfg.argocdAppPath, appName ++ ".yaml"]),
    Event.status]

/-- The external calls of `deploy` up to the status computation, when none fails. -/
def deployCalls (cfg : Config) (env : Env) (appName : String) : List Event :=
  Event.mkdirTemp (env.osTempDir ++ "/" ++ "mcp-deployer-" ++ env.suffix)
    :: deployBodyCalls cfg (env.osTempDir ++ "/" ++ "mcp-deployer-" ++ env.suffix) appName

/-- The paths of the persisted layout of an application, as `deploy` builds them. -/
def deployPaths (cfg : Config) (appName : String) : List String :=
  [filepath.Join [cfg.manifestPath, appName, "deployment.yaml"],
    filepath.Join [cfg.manifestPath, appName, "service.yaml"],
    filepath.Join [cfg.manifestPath, appName, "ingress.yaml"],
    filepath.Join [cfg.argocdAppPath, appName ++ ".yaml"]]

/-- The path of the file an `os.Create` call writes. -/
def Event.created : Event → Option String
  | .create p => some p
  | _ => none

/-- The path a `w.Add` call stages. -/
def Event.staged : Event → Option String
  | .add p => some p
  | _ => none

/-- The message of the commit a `w.Commit` call creates. -/
def Event.committed : Event → Option String
  | .commit m => some m
  | _ => none

/-- The call is a `repo.Push`. -/
def Event.isPush : Event → Bool
  | .push => true
  | _ => false

/-- A configuration with the default paths, for the examples. -/
def sampleConfig : Config :=
  Config.defaults "/home/bot/.kube/config" "https://git.example/ops.git" "token"

/-- An environment in which no external call fails and every URL answers 200. -/
def sampleEnv : Env :=
  { faults := Faults.none, osTempDir := "/tmp", suffix := "123", now := "2024-05-01T10:00:00Z",
    httpGet := fun _ => .ok 200 }

/-- Templates that render the file name, the application name and the image. -/
def sampleTemplates : Templates :=
  { parseFS := fun file => .ok (fun d => .ok (file ++ " " ++ d.Name ++ " " ++ d.Image)) }

/-- A world whose repository holds one unrelated file. -/
def sampleWorld : World :=
  { remote := [("README.md", "ops")], commits := ["init"], disk := [], applications := [],
    deployments := [], trace := [] }

/-- The string at a nested field of a JSON value; the empty string when the field is absent
or holds no string. -/
def JVal.stringAt (v : JVal) (fields : List String) : String :=
  match v.fieldAt fields with
  | some (.str s) => s
  | _ => ""

/-- An `Application` object whose health and sync status are reported. -/
def sampleApplication : List (String × JVal) :=
  [("kind", .str "Application"),
    ("status", .obj [("health", .obj [("status", .str "Healthy")]),
                     ("sync", .obj [("status", .str "Synced")])])]

/-- The sample world with the `Application` resource `x` in the namespace `argocd`. -/
def sampleCluster : World :=
  { sampleWorld with applications := [(("argocd", "x"), sampleApplication)] }

/-- The desired state of `checkout-svc` with image `registry/checkout:1.2` under the sample
configuration and templates. -/
def sampleDesired : List (String × String) :=
  [("manifests/checkout-svc/deployment.yaml",
      "templates/deployment.yaml checkout-svc registry/checkout:1.2"),
    ("manifests/checkout-svc/service.yaml",
      "templates/service.yaml checkout-svc registry/checkout:1.2"),
    ("manifests/checkout-svc/ingress.yaml",
      "templates/ingress.yaml checkout-svc registry/checkout:1.2"),
    ("argocd-apps/checkout-svc.yaml",
      "templates/application.yaml checkout-svc registry/checkout:1.2")]

/-- The sample environment with the cluster unreachable: the `Get` of the `Application`
fails with a transport error. -/
def unreachableEnv : Env :=
  { sampleEnv with
    faults := { Faults.none with
      getApplication := some "dial tcp 10.0.0.1:6443: connect: connection refused" } }

/-- The sample environment in which the lookup of a file in the HEAD tree fails because
its blob cannot be read. -/
def unreadableEnv : Env :=
  { sampleEnv with faults := { Faults.none with file := fun _ => some "unexpected EOF" } }

/-- A world whose repository holds the descriptor of `x`. -/
def deployedWorld : World :=
  { sampleWorld with remote := [("argocd-apps/x.yaml", "kind: Application"),
      ("README.md", "ops")] }

/-- The default configuration with the descriptor prefix written with a trailing slash
(`--argocd-path argocd-apps/`). -/
def slashConfig : Config := { sampleConfig with argocdAppPath := "argocd-apps/" }

/-- The string argument `key` of a request: `none` when the arguments are not a map or
hold no string at `key`. -/
def CallToolRequest.stringArg (request : CallToolRequest) (key : String) : Option String :=
  match request.arguments with
  | .obj args =>
    match JVal.field args key with
    | some (.str s) => some s
    | _ => none
  | _ => none

/-- A request for an application name that is no DNS label (upper case, a blank). -/
def badNameRequest : CallToolRequest :=
  { arguments := .obj [("app_name", .str "Bad Name"), ("image", .str "img:1")] }

/-- The restart annotation of `kubectl rollout restart`. -/
def restartedAtKey : String := "kubectl.kubernetes.io/restartedAt"

/-- A fetched `Deployment` with the restart annotation of its pod template set to `now`
(the annotation map is created when it was nil) and nothing else changed. -/
def Deployment.restarted (d : Deployment) (now : String) : Deployment :=
  { d with annotations := some (mapSet (d.annotations.getD []) restartedAtKey now) }

/-- A `Deployment` with one annotation on its pod template. -/
def sampleDeployment : Deployment :=
  { annotations := some [("team", "checkout")],
    rest := .obj [("kind", .str "Deployment"), ("replicas", .num 2)] }

/-- The sample world with the `Deployment` `checkout-svc` in the namespace `applications`. -/
def sampleDeployed : World :=
  { sampleWorld with deployments := [(("applications", "checkout-svc"), sampleDeployment)] }

/-- A step of an operation that can fail: the text its failure is reported with and, when
it fails, the cause. -/
abbrev Step := String × Option String

/-- The text reported for the first step of the list that fails; `none` when every step
succeeds. -/
def firstFailure : List Step → Option String
  | [] => none
  | (label, some cause) :: _ => some (label ++ cause)
  | (_, none) :: rest => firstFailure rest

/-- The cause for which parsing the template file fails. -/
def parseCause (tpl : Templates) (file : String) : Option String :=
  match tpl.parseFS ("templates/" ++ file) with
  | .error err => some err
  | .ok _ => none

/-- The cause for which executing the parsed template file into `path` fails: the template
fails on the data, or the write fails. -/
def executeCause (tpl : Templates) (env : Env) (data : TemplateData) (file path : String) :
    Option String :=
  match tpl.parseFS ("templates/" ++ file) with
  | .error _ => none
  | .ok tmpl =>
    match tmpl data with
    | .error err => some err
    | .ok _ => env.faults.write path

/-- The steps of the loop of `deploy` over the given template names, in order. -/
def manifestSteps (cfg : Config) (tpl : Templates) (env : Env) (appName image : String) :
    List String → List Step
  | [] => []
  | t :: rest =>
    ("Failed to parse template " ++ t ++ ": ", parseCause tpl t)
      :: ("Failed to create file " ++ t ++ ": ",
          env.faults.create (filepath.Join [cfg.manifestPath, appName, t]))
      :: ("Failed to execute template " ++ t ++ ": ",
          executeCause tpl env (templateData cfg appName image) t
            (filepath.Join [cfg.manifestPath, appName, t]))
      :: ("Failed to git add " ++ t ++ ": ",
          env.faults.add (filepath.Join [cfg.manifestPath, appName, t]))
      :: manifestSteps cfg tpl env appName image rest

/-- The steps of `deploy` from the Application template to the status computation. -/
def publishSteps (cfg : Config) (tpl : Templates) (env : Env) (appName image : String) :
    List Step :=
  [("Failed to parse application template: ", parseCause tpl "application.yaml"),
    ("Failed to create argo app file: ",
      env.faults.create (filepath.Join [cfg.argocdAppPath, appName ++ ".yaml"])),
    ("Failed to execute application template: ",
      executeCause tpl env (templateData cfg appName image) "application.yaml"
        (filepath.Join [cfg.argocdAppPath, appName ++ ".yaml"])),
    ("Failed to git add argo app: ",
      env.faults.add (filepath.Join [cfg.argocdAppPath, appName ++ ".yaml"])),
    ("Failed to get git status: ", env.faults.status)]

/-- The steps of the body of `deploy` up to the status computation, in order. -/
def deployBodySteps (cfg : Config) (tpl : Templates) (env : Env) (appName image : String) :
    List Step :=
  [("Failed to clone repo: ", env.faults.plainClone),
    ("Failed to get worktree: ", env.faults.worktree),
    ("Failed to create manifest dir: ",
      env.faults.mkdirAll (filepath.Join [cfg.manifestPath, appName])),
    ("Failed to create argocd app dir: ",
      env.faults.mkdirAll (filepath.Join [cfg.argocdAppPath]))]
  ++ manifestSteps cfg tpl env appName image manifests
  ++ publishSteps cfg tpl env appName image

/-- The steps of `deploy` up to the status computation, in order: the temporary directory,
the clone, the worktree, the directories, the four files (parse, create, execute, stage)
and the status. -/
def deploySteps (cfg : Config) (tpl : Templates) (env : Env) (appName image : String) :
    List Step :=
  ("Failed to create temp dir: ", env.faults.mkdirTemp)
    :: deployBodySteps cfg tpl env appName image

/-- The rendered files differ from the tree of the remote HEAD: the working tree of
`deploy` is not clean. -/
def deployDirty (cfg : Config) (tpl : Templates) (w : World) (appName image : String) : Bool :=
  match desiredState cfg tpl appName image with
  | some R => !Tree.same (Tree.writeAll R w.remote) w.remote
  | none => false

/-- The call is a `git.PlainClone`. -/
def Event.isClone : Event → Bool
  | .plainClone _ _ => true
  | _ => false

/-- The calls hold no clone, no commit and no push. -/
def quiet (evs : List Event) : Bool :=
  evs.all (fun e => !e.isPush && !e.isClone && e.committed.isNone)

/-- The external calls of `deploy` from the Application template to the status computation,
when none fails. -/
def publishCalls (cfg : Config) (appName : String) : List Event :=
  [Event.create (filepath.Join [cfg.argocdAppPath, appName ++ ".yaml"]),
    Event.execute "application.yaml" (filepath.Join [cfg.argocdAppPath, appName ++ ".yaml"]),
    Event.add (filepath.Join [cfg.argocdAppPath, appName ++ ".yaml"]),
    Event.status]

/-- The message of the commit `deploy` creates. -/
def deployMessage (appName image : String) : String :=
  "Deploy application " ++ appName ++ " with image " ++ image

/-- The manifest directory of an application, as `destroy` builds it. -/
def manifestDirOf (cfg : Config) (appName : String) : String :=
  filepath.Join [cfg.manifestPath, appName]

/-- The descriptor path of an application, as `deploy` and `destroy` build it. -/
def descriptorOf (cfg : Config) (appName : String) : String :=
  filepath.Join [cfg.argocdAppPath, appName ++ ".yaml"]

/-- The cause for which the `os.Remove` of the descriptor in `destroy` fails with an error
that is not "does not exist": the call fails, or a directory that is not empty stands at
the path. -/
def destroyRemoveCause (cfg : Config) (env : Env) (w : World) (appName : String) :
    Option String :=
  match env.faults.remove (descriptorOf cfg appName) with
  | some c => some c
  | none =>
    match (w.remote.removeUnder (manifestDirOf cfg appName)).get (descriptorOf cfg appName) with
    | some _ => none
    | none =>
      if (w.remote.removeUnder (manifestDirOf cfg appName)).existsAt (descriptorOf cfg appName)
      then some ("remove " ++ descriptorOf cfg appName ++ ": directory not empty")
      else none

/-- The steps of `destroy` from the robust clean-up to the status computation, in order.
A descriptor that does not exist is no failure. -/
def destroyPublishSteps (cfg : Config) (env : Env) (w : World) (appName : String) : List Step :=
  [("Failed to remove manifest dir from FS: ",
      env.faults.removeAll (manifestDirOf cfg appName)),
    ("Failed to remove argo app file: ", destroyRemoveCause cfg env w appName),
    ("Failed to stage changes: ", env.faults.add "."),
    ("Failed to get git status: ", env.faults.status)]

/-- The steps of the body of `destroy` up to the status computation whose failure ends the
operation, in order.  A failure of `w.Remove` is none of them: the removal from disk takes
its place and can fail; the `w.Add(manifestPath)` after it is none of them either. -/
def destroyBodySteps (cfg : Config) (env : Env) (w : World) (appName : String) : List Step :=
  [("Failed to clone repo: ", env.faults.plainClone),
    ("Failed to get worktree: ", env.faults.worktree),
    ("Failed to remove manifest dir: ",
      if w.remote.existsAt (manifestDirOf cfg appName)
          && (env.faults.gitRemove (manifestDirOf cfg appName)).isSome
      then env.faults.removeAll (manifestDirOf cfg appName) else none)]
  ++ destroyPublishSteps cfg env w appName

/-- The steps of `destroy` up to the status computation whose failure ends the operation. -/
def destroySteps (cfg : Config) (env : Env) (w : World) (appName : String) : List Step :=
  ("Failed to create temp dir: ", env.faults.mkdirTemp) :: destroyBodySteps cfg env w appName

/-- The files of the working directory of `destroy` after its removals. -/
def destroyFiles (cfg : Config) (w : World) (appName : String) : Tree :=
  (w.remote.removeUnder (manifestDirOf cfg appName)).filter
    (fun e => e.1 ≠ descriptorOf cfg appName)

/-- The removals changed something: the working tree of `destroy` is not clean. -/
def destroyDirty (cfg : Config) (w : World) (appName : String) : Bool :=
  !Tree.same (destroyFiles cfg w appName) w.remote

/-- The message of the commit `destroy` creates. -/
def destroyMessage (appName : String) : String := "Destroy application " ++ appName

/-- The external calls of `destroy` from the robust clean-up to the status computation,
when none fails. -/
def destroyPublishCalls (cfg : Config) (appName : String) : List Event :=
  [Event.removeAll (manifestDirOf cfg appName), Event.remove (descriptorOf cfg appName),
    Event.add ".", Event.status]

/-- The steps of an operation before its push: the temporary directory, the steps of the
body up to the status computation and, when the working tree is not clean, the commit. -/
def stepsBeforePush (bodySteps : List Step) (dirty : Bool) (env : Env) : List Step :=
  ("Failed to create temp dir: ", env.faults.mkdirTemp)
    :: bodySteps ++ [("Failed to commit changes: ", if dirty then env.faults.commit else none)]

/-- The external calls an operation made: what its run from world `w` added to the trace. -/
def callsOf (w : World) (r : ToolReturn × World) : List Event :=
  r.2.trace.drop w.trace.length

/-- The push discipline of an operation that ran from world `w` and ended in `r`, for the
steps `steps` that come before its push and `dirty` telling whether its working tree was not
clean:
* when a step before the push fails, the result is the error result with that step's text
  and cause, no push is attempted, and the remote tree and commits are unchanged;
* a push is attempted only when no step before it failed and the working tree was not clean;
* when the push itself fails, the result is the error result with the cause of the push
  and the remote is unchanged;
* an error-flagged result leaves the remote tree and commits unchanged;
* the push is attempted at most once, and so is the clone. -/
def PushDiscipline (steps : List Step) (dirty : Bool) (env : Env) (w : World)
    (r : ToolReturn × World) : Prop :=
  (∀ msg, firstFailure steps = some msg →
      r.1 = (NewToolResultError msg, none) ∧ Event.push ∉ callsOf w r
      ∧ r.2.remote = w.remote ∧ r.2.commits = w.commits)
    ∧ (Event.push ∈ callsOf w r → firstFailure steps = none ∧ dirty = true)
    ∧ (∀ c, Event.push ∈ callsOf w r → env.faults.push = some c →
        r.1 = (NewToolResultError ("Failed to push changes: " ++ c), none)
        ∧ r.2.remote = w.remote ∧ r.2.commits = w.commits)
    ∧ (r.1.1.isError = true → r.2.remote = w.remote ∧ r.2.commits = w.commits)
    ∧ ((callsOf w r).filter Event.isPush).length ≤ 1
    ∧ ((callsOf w r).filter Event.isClone).length ≤ 1

/-- How the body of `deploy` or `destroy` can end when run from world `w`, for its steps up
to the status computation and `dirty` telling whether its working tree is not clean: a step
failed; or the tree was clean; or the commit failed; or the push failed; or the push went
through.  In each case the calls are the clone, calls `evs` without clone, commit and push,
and then the commit and the push as far as they were attempted; the disk is what the body
left. -/
def BodyOutcome (steps : List Step) (dirty : Bool) (env : Env) (clone : Event) (w : World)
    (r : ToolReturn × World) : Prop :=
  ∃ evs, quiet evs = true ∧
    ((∃ msg d, firstFailure steps = some msg
        ∧ r = ((NewToolResultError msg, none), (w.emitAll (clone :: evs)).onDisk d))
    ∨ (firstFailure steps = none ∧ dirty = false ∧ r.1.1.isError = false ∧ r.1.2 = none
        ∧ ∃ d, r.2 = (w.emitAll (clone :: evs)).onDisk d)
    ∨ (firstFailure steps = none ∧ dirty = true ∧ ∃ message c d, env.faults.commit = some c
        ∧ r = ((NewToolResultError ("Failed to commit changes: " ++ c), none),
            (w.emitAll (clone :: evs ++ [Event.commit message])).onDisk d))
    ∨ (firstFailure steps = none ∧ dirty = true ∧ env.faults.commit = none
        ∧ ∃ message c d, env.faults.push = some c
        ∧ r = ((NewToolResultError ("Failed to push changes: " ++ c), none),
            (w.emitAll (clone :: evs ++ [Event.commit message, Event.push])).onDisk d))
    ∨ (firstFailure steps = none ∧ dirty = true ∧ env.faults.commit = none
        ∧ env.faults.push = none
        ∧ ∃ message tree log d, r.1.1.isError = false ∧ r.1.2 = none
        ∧ r.2 = World.onDisk
            { w.emitAll (clone :: evs ++ [Event.commit message, Event.push]) with
              remote := tree, commits := log } d))

/-- A world whose repository holds a deployed application `shop`: one manifest and the
descriptor. -/
def publishedWorld : World :=
  { sampleWorld with remote := [("manifests/shop/deployment.yaml", "kind: Deployment"),
      ("argocd-apps/shop.yaml", "kind: Application"), ("README.md", "ops")] }

/-- An environment in which `w.Remove` fails on every path (go-git has no index entry for a
directory) and no other call fails. -/
def noIndexRemovalEnv : Env :=
  { sampleEnv with
    faults := { Faults.none with gitRemove := fun _ => some "entry not found" } }

/-- An environment in which the push fails and no other call does. -/
def pushFailsEnv : Env :=
  { sampleEnv with faults := { Faults.none with push := some "remote hung up" } }

/-- A world holding a deployed application, with `/tmp` and a directory of something else on
the disk. -/
def crowdedWorld : World := { publishedWorld with disk := ["/tmp", "/tmp/other"] }

/-- An environment in which `w.Add` fails for the one path that leaves the worktree and no
other call fails. -/
def outsideAddFailsEnv : Env :=
  { sampleEnv with
    faults := { Faults.none with
      add := fun p => if p = "../v-escape/deployment.yaml"
        then some "path is outside the worktree" else none } }

/-- An environment in which the deferred `os.RemoveAll` fails and no other call does. -/
def removalFailsEnv : Env :=
  { sampleEnv with
    faults := { Faults.none with removeAllTemp := some "unlinkat: permission denied" } }

/-- The temporary directory `os.MkdirTemp("", pattern)` creates in the environment. -/
def tempDirOf (env : Env) (pattern : String) : String :=
  env.osTempDir ++ "/" ++ pattern ++ env.suffix

/-- The disk paths `deploy` builds when it works in the temporary directory `dir`: the two
directories it creates and the four files it writes. -/
def deployDiskPaths (cfg : Config) (dir appName : String) : List String :=
  [filepath.Join [dir, cfg.manifestPath, appName], filepath.Join [dir, cfg.argocdAppPath]]
    ++ manifests.map (fun t => filepath.Join [filepath.Join [dir, cfg.manifestPath, appName], t])
    ++ [filepath.Join [filepath.Join [dir, cfg.argocdAppPath], appName ++ ".yaml"]]

/-- The disk paths `destroy` builds when it works in the temporary directory `dir`: the
manifest directory and the descriptor it removes. -/
def destroyDiskPaths (cfg : Config) (dir appName : String) : List String :=
  [filepath.Join [dir, filepath.Join [cfg.manifestPath, appName]],
    filepath.Join [dir, filepath.Join [cfg.argocdAppPath, appName ++ ".yaml"]]]

/-- Disks `a` and `b` hold the same entries outside the directory `dir`, in the same
order. -/
def Disk.sameOutside (dir : String) (a b : List String) : Prop :=
  b.filter (fun p => !inDir dir p) = a.filter (fun p => !inDir dir p)

/-- The directories above `dir` exist on the disk. -/
def Disk.holdsAbove (dir : String) (disk : List String) : Prop :=
  ∀ a ∈ Disk.ancestors dir, inDir dir a = false → a ∈ disk

/-! ## Lemmas on paths -/

namespace filepath

theorem splitSlash_ne_nil (p : List Char) : splitSlash p ≠ [] := by
  cases p with
  | nil => simp [splitSlash]
  | cons c cs =>
    simp only [splitSlash]
    split
    · simp
    · split <;> simp

theorem splitSlash_append (a b : List Char) :
    splitSlash (a ++ '/' :: b) = splitSlash a ++ splitSlash b := by
  induction a with
  | nil => simp [splitSlash]
  | cons c cs ih =>
    rw [List.cons_append]
    simp only [splitSlash]
    by_cases hc : c = '/'
    · simp [hc, ih]
    · simp only [hc, if_false]
      rw [ih]
      cases h : splitSlash cs with
      | nil => exact absurd h (splitSlash_ne_nil cs)
      | cons x xs => simp

theorem splitSlash_plain (c : List Char) (h : '/' ∉ c) : splitSlash c = [c] := by
  induction c with
  | nil => simp [splitSlash]
  | cons x xs ih =>
    simp only [List.mem_cons, not_or] at h
    have hx : x ≠ '/' := fun e => h.1 e.symm
    simp [splitSlash, hx, ih h.2]

theorem splitSlash_joinSlash (cs : List (List Char)) (hne : cs ≠ [])
    (h : ∀ c ∈ cs, '/' ∉ c) : splitSlash (joinSlash cs) = cs := by
  induction cs with
  | nil => exact absurd rfl hne
  | cons c rest ih =>
    cases rest with
    | nil => simpa [joinSlash] using splitSlash_plain c (h c (by simp))
    | cons d rest =>
      simp only [joinSlash, splitSlash_append]
      rw [splitSlash_plain c (h c (by simp)), ih (by simp) (fun x hx => h x (by simp [hx]))]
      simp

theorem splitSlash_no_slash (p : List Char) : ∀ c ∈ splitSlash p, '/' ∉ c := by
  induction p with
  | nil => simp [splitSlash]
  | cons x xs ih =>
    simp only [splitSlash]
    by_cases hx : x = '/'
    · simpa [hx] using ih
    · simp only [hx, if_false]
      cases h : splitSlash xs with
      | nil => exact absurd h (splitSlash_ne_nil xs)
      | cons y ys =>
        rw [h] at ih
        intro c hc
        simp only [List.mem_cons] at hc
        rcases hc with rfl | hc
        · simp only [List.mem_cons, not_or]
          exact ⟨fun e => hx e.symm, ih y (by simp)⟩
        · exact ih c (by simp [hc])


theorem cleanStep_of_norm (r : Bool) (c : List Char) (st : List (List Char))
    (h : Norm r (c :: st)) : cleanStep r st c = c :: st := by
  obtain ⟨⟨h1, h2, _⟩, h3, _⟩ := h
  unfold cleanStep
  simp only [h1, h2, or_self, if_false]
  by_cases hc : c = ['.', '.']
  · obtain ⟨hr, hst⟩ := h3 hc
    rcases hst with rfl | ⟨t, rfl⟩
    · simp [hc, hr]
    · simp [hc]
  · simp [hc]

theorem cleanStep_norm (r : Bool) (c : List Char) (st : List (List Char))
    (h : Norm r st) (hc : '/' ∉ c) : Norm r (cleanStep r st c) := by
  unfold cleanStep
  by_cases h0 : c = [] ∨ c = ['.']
  · simp [h0, h]
  · simp only [h0, if_false]
    have h0' : c ≠ [] ∧ c ≠ ['.'] := by
      constructor
      · exact fun e => h0 (Or.inl e)
      · exact fun e => h0 (Or.inr e)
    by_cases h1 : c = ['.', '.']
    · simp only [h1, if_true]
      cases st with
      | nil =>
        cases r
        · simp [Norm, PlainComp]
        · simp [Norm]
      | cons top rest =>
        by_cases ht : top = ['.', '.']
        · subst ht
          simp only [if_true]
          refine ⟨by simp [PlainComp], fun _ => ⟨?_, Or.inr ⟨rest, rfl⟩⟩, h⟩
          exact (h.2.1 rfl).1
        · simp only [ht, if_false]
          exact h.2.2
    · simp only [h1, if_false]
      exact ⟨⟨h0'.1, h0'.2, hc⟩, fun e => absurd e h1, h⟩

theorem foldl_cleanStep_norm (r : Bool) (cs : List (List Char)) :
    ∀ st, Norm r st → (∀ c ∈ cs, '/' ∉ c) → Norm r (cs.foldl (cleanStep r) st) := by
  induction cs with
  | nil => intro st h _; simpa using h
  | cons c cs ih =>
    intro st h hc
    simp only [List.foldl_cons]
    exact ih _ (cleanStep_norm r c st h (hc c (by simp))) (fun x hx => hc x (by simp [hx]))

theorem foldl_cleanStep_reverse (r : Bool) (st : List (List Char)) (h : Norm r st) :
    st.reverse.foldl (cleanStep r) [] = st := by
  induction st with
  | nil => rfl
  | cons c st ih =>
    simp only [List.reverse_cons, List.foldl_append, List.foldl_cons, List.foldl_nil]
    rw [ih h.2.2]
    exact cleanStep_of_norm r c st h

theorem norm_no_slash (r : Bool) (st : List (List Char)) (h : Norm r st) :
    ∀ c ∈ st, '/' ∉ c := by
  induction st with
  | nil => simp
  | cons c st ih =>
    intro x hx
    simp only [List.mem_cons] at hx
    rcases hx with rfl | hx
    · exact h.1.2.2
    · exact ih h.2.2 x hx

theorem norm_ne_nil (r : Bool) (st : List (List Char)) (h : Norm r st) :
    ∀ c ∈ st, c ≠ [] := by
  induction st with
  | nil => simp
  | cons c st ih =>
    intro x hx
    simp only [List.mem_cons] at hx
    rcases hx with rfl | hx
    · exact h.1.1
    · exact ih h.2.2 x hx

/-- The kept components of a path, innermost first. -/
theorem cleanStack_norm (r : Bool) (p : List Char) :
    Norm r ((splitSlash p).foldl (cleanStep r) []) :=
  foldl_cleanStep_norm r _ [] trivial (splitSlash_no_slash p)


theorem joinSlash_eq_nil (cs : List (List Char)) (h : joinSlash cs = []) :
    cs = [] ∨ cs = [[]] := by
  match cs, h with
  | [], _ => exact Or.inl rfl
  | [c], h => right; simpa [joinSlash] using h
  | c :: d :: rest, h => simp [joinSlash] at h

theorem rooted_append (a b : List Char) (h : a ≠ []) : rooted (a ++ b) = rooted a := by
  cases a with
  | nil => exact absurd rfl h
  | cons c cs => rfl

theorem rooted_plain (c : List Char) (h : '/' ∉ c) : rooted c = false := by
  cases c with
  | nil => rfl
  | cons x xs =>
    simp only [List.mem_cons, not_or] at h
    simp only [rooted, decide_eq_false_iff_not]
    exact fun e => h.1 e.symm

theorem rooted_joinSlash (c : List Char) (rest : List (List Char)) (h : c ≠ []) :
    rooted (joinSlash (c :: rest)) = rooted c := by
  cases rest with
  | nil => rfl
  | cons d rest => simp only [joinSlash]; exact rooted_append _ _ h

theorem cleanChars_ne_nil (p : List Char) : cleanChars p ≠ [] := by
  unfold cleanChars
  split
  · simp
  · split
    · simp
    · split
      · simp
      · assumption

/-- Splitting the joined kept components and cleaning them again changes nothing. -/
theorem foldl_split_join_stack (r : Bool) (st : List (List Char)) (h : Norm r st)
    (hne : st ≠ []) :
    (splitSlash (joinSlash st.reverse)).foldl (cleanStep r) [] = st := by
  rw [splitSlash_joinSlash st.reverse (by simpa using hne)
    (fun c hc => norm_no_slash r st h c (by simpa using hc))]
  exact foldl_cleanStep_reverse r st h

theorem norm_joinSlash_ne_nil (r : Bool) (st : List (List Char)) (h : Norm r st)
    (hne : st ≠ []) : joinSlash st.reverse ≠ [] := by
  intro hj
  rcases joinSlash_eq_nil _ hj with h1 | h1
  · exact hne (by simpa using h1)
  · have : st = [[]] := by
      have := congrArg List.reverse h1
      simpa using this
    subst this
    exact h.1.1 rfl

/-- The components of a cleaned path clean to the kept components of the path. -/
theorem foldl_split_cleanChars (p : List Char) (hp : p ≠ []) :
    (splitSlash (cleanChars p)).foldl (cleanStep (rooted p)) []
      = (splitSlash p).foldl (cleanStep (rooted p)) [] := by
  unfold cleanChars cleanComps
  simp only [hp, if_false]
  cases hr : rooted p
  · simp only [Bool.false_eq_true, if_false]
    have hn := cleanStack_norm false p
    by_cases hst : (splitSlash p).foldl (cleanStep false) [] = []
    · simp [hst, joinSlash, splitSlash, cleanStep]
    · have hj := norm_joinSlash_ne_nil false _ hn hst
      simp only [hj, if_false]
      exact foldl_split_join_stack false _ hn hst
  · simp only [if_true]
    have hn := cleanStack_norm true p
    by_cases hst : (splitSlash p).foldl (cleanStep true) [] = []
    · simp [hst, joinSlash, splitSlash, cleanStep]
    · have h2 := foldl_split_join_stack true _ hn hst
      simp only [splitSlash, if_true, List.foldl_cons]
      simpa [cleanStep] using h2

theorem rooted_cleanChars (p : List Char) (hp : p ≠ []) : rooted (cleanChars p) = rooted p := by
  unfold cleanChars cleanComps
  simp only [hp, if_false]
  cases hr : rooted p
  · simp only [Bool.false_eq_true, if_false]
    split
    · rfl
    · rename_i hj
      have hn := cleanStack_norm false p
      cases hst : ((splitSlash p).foldl (cleanStep false) []).reverse with
      | nil => simp [hst, joinSlash] at hj
      | cons c rest =>
        have hc : c ∈ (splitSlash p).foldl (cleanStep false) [] := by
          have : c ∈ ((splitSlash p).foldl (cleanStep false) []).reverse := by simp [hst]
          simpa using this
        have hplain := norm_no_slash false _ hn c hc
        have hne : c ≠ [] := norm_ne_nil false _ hn c hc
        rw [rooted_joinSlash c rest hne]
        exact rooted_plain c hplain
  · simp [rooted]

theorem cleanChars_congr (p q : List Char) (hp : p ≠ []) (hq : q ≠ [])
    (hr : rooted p = rooted q)
    (h : (splitSlash p).foldl (cleanStep (rooted p)) []
      = (splitSlash q).foldl (cleanStep (rooted p)) []) : cleanChars p = cleanChars q := by
  unfold cleanChars cleanComps
  simp only [hp, hq, if_false, ← hr]
  cases hr' : rooted p <;> simp [hr'] at h ⊢ <;> rw [h]

/-- Cleaning a cleaned path changes nothing. -/
theorem cleanChars_idem (p : List Char) (hp : p ≠ []) : cleanChars (cleanChars p) = cleanChars p := by
  apply cleanChars_congr _ _ (cleanChars_ne_nil p) hp (rooted_cleanChars p hp)
  rw [rooted_cleanChars p hp]
  exact foldl_split_cleanChars p hp

/-- A cleaned path can stand for the path in front of further elements. -/
theorem cleanChars_append (p z : List Char) (hp : p ≠ []) :
    cleanChars (cleanChars p ++ '/' :: z) = cleanChars (p ++ '/' :: z) := by
  have h1 : rooted (cleanChars p ++ '/' :: z) = rooted (p ++ '/' :: z) := by
    rw [rooted_append _ _ (cleanChars_ne_nil p), rooted_append _ _ hp, rooted_cleanChars p hp]
  apply cleanChars_congr _ _ (by simp) (by simp) h1
  rw [h1, rooted_append _ _ hp, splitSlash_append, splitSlash_append, List.foldl_append,
    List.foldl_append, foldl_split_cleanChars p hp]


theorem joinSlash_cons_ne_nil (c : List Char) (rest : List (List Char)) (h : c ≠ []) :
    joinSlash (c :: rest) ≠ [] := by
  cases rest with
  | nil => simpa [joinSlash] using h
  | cons d rest => simp [joinSlash]

theorem joinSlash_append (a b : List (List Char)) (ha : a ≠ []) (hb : b ≠ []) :
    joinSlash (a ++ b) = joinSlash a ++ '/' :: joinSlash b := by
  induction a with
  | nil => exact absurd rfl ha
  | cons c rest ih =>
    cases rest with
    | nil =>
      cases b with
      | nil => exact absurd rfl hb
      | cons d b => simp [joinSlash]
    | cons d rest =>
      have := ih (by simp)
      show c ++ '/' :: joinSlash (d :: rest ++ b)
        = (c ++ '/' :: joinSlash (d :: rest)) ++ '/' :: joinSlash b
      rw [this]
      simp

theorem dropWhile_append_nil {α : Type} (p : α → Bool) (xs ys : List α)
    (h : xs.dropWhile p = []) : (xs ++ ys).dropWhile p = ys.dropWhile p := by
  induction xs with
  | nil => rfl
  | cons x xs ih =>
    simp only [List.dropWhile_cons] at h
    by_cases hx : p x = true
    · simp only [hx, if_true] at h
      simp [List.dropWhile_cons, hx, ih h]
    · simp [hx] at h

theorem dropWhile_append_cons {α : Type} (p : α → Bool) (xs ys : List α) (x : α) (r : List α)
    (h : xs.dropWhile p = x :: r) : (xs ++ ys).dropWhile p = x :: r ++ ys ∧ p x = false := by
  induction xs with
  | nil => simp at h
  | cons a xs ih =>
    simp only [List.dropWhile_cons] at h
    by_cases ha : p a = true
    · simp only [ha, if_true] at h
      simpa [List.dropWhile_cons, ha] using ih h
    · simp only [ha] at h
      simp only [Bool.false_eq_true, if_false, List.cons.injEq] at h
      obtain ⟨rfl, rfl⟩ := h
      simp [List.dropWhile_cons, ha]

theorem Join_of_dropWhile (elem : List String) (x : String) (r : List String)
    (h : elem.dropWhile (fun e => decide (e.data = [])) = x :: r) :
    Join elem = ⟨cleanChars (joinSlash ((x :: r).map String.data))⟩ := by
  simp [Join, h]

/-- Joining in two steps is joining at once: `Join(Join(xs...), ys...) = Join(xs..., ys...)`. -/
theorem Join_Join (xs ys : List String) : Join (Join xs :: ys) = Join (xs ++ ys) := by
  cases h : xs.dropWhile (fun e => decide (e.data = [])) with
  | nil =>
    have h1 : Join xs = "" := by simp [Join, h]
    rw [h1]
    simp only [Join]
    rw [dropWhile_append_nil _ xs ys h]
    simp [List.dropWhile_cons]
  | cons x r =>
    obtain ⟨h2, hx⟩ := dropWhile_append_cons _ xs ys x r h
    have hx' : x.data ≠ [] := by simpa using hx
    have hX : joinSlash ((x :: r).map String.data) ≠ [] := by
      simpa using joinSlash_cons_ne_nil x.data (r.map String.data) hx'
    have h1 : Join xs = ⟨cleanChars (joinSlash ((x :: r).map String.data))⟩ :=
      Join_of_dropWhile xs x r h
    have h3 : (Join xs :: ys).dropWhile (fun e => decide (e.data = [])) = Join xs :: ys := by
      simp [List.dropWhile_cons, h1, cleanChars_ne_nil]
    rw [Join_of_dropWhile _ _ _ h3, Join_of_dropWhile _ _ _ h2, h1]
    congr 1
    cases ys with
    | nil =>
      simpa [joinSlash] using cleanChars_idem _ hX
    | cons y ys =>
      have e1 : joinSlash (List.map String.data
          ((⟨cleanChars (joinSlash ((x :: r).map String.data))⟩ : String) :: y :: ys))
          = cleanChars (joinSlash ((x :: r).map String.data))
            ++ '/' :: joinSlash ((y :: ys).map String.data) := by
        simp [joinSlash]
      have e2 : joinSlash (List.map String.data (x :: r ++ y :: ys))
          = joinSlash ((x :: r).map String.data)
            ++ '/' :: joinSlash ((y :: ys).map String.data) := by
        rw [List.map_append]
        exact joinSlash_append _ _ (by simp) (by simp)
      rw [e1]
      have e3 := cleanChars_append _ (joinSlash ((y :: ys).map String.data)) hX
      rw [← e2] at e3
      exact e3

end filepath

/-! ## Lemmas on file trees -/

namespace Tree

theorem get_filter (t : Tree) (f : String → Bool) (q : String) :
    get (t.filter (fun e => f e.1)) q = if f q then get t q else none := by
  induction t with
  | nil => simp [get]
  | cons e t ih =>
    obtain ⟨k, v⟩ := e
    by_cases hk : f k = true
    · simp only [List.filter_cons, hk, if_true, get]
      by_cases hq : k = q
      · subst hq; simp [hk]
      · simp [hq, ih]
    · simp only [List.filter_cons, hk, get]
      by_cases hq : k = q
      · subst hq; simp [hk, ih]
      · simp [hq, ih]

theorem get_append (a b : Tree) (q : String) :
    get (a ++ b) q = match get a q with
      | some v => some v
      | none => get b q := by
  induction a with
  | nil => simp [get]
  | cons e a ih =>
    obtain ⟨k, v⟩ := e
    by_cases hq : k = q
    · simp [get, hq]
    · simp [get, hq, ih]

theorem get_set (t : Tree) (p c q : String) :
    get (t.set p c) q = if p = q then some c else get t q := by
  unfold set
  by_cases h : p = q
  · simp [get, h]
  · have := get_filter t (fun k => decide (k ≠ p)) q
    simp only [get, h, if_false]
    rw [this]
    have h' : q ≠ p := fun e => h e.symm
    simp [h']

theorem get_removeUnder (t : Tree) (d q : String) :
    get (t.removeUnder d) q = if under d q then none else get t q := by
  unfold removeUnder
  rw [get_filter t (fun k => !under d k) q]
  cases under d q <;> simp

theorem get_stage (dst src : Tree) (d q : String) :
    get (stage dst src d) q = if under d q then get src q else get dst q := by
  unfold stage
  rw [get_append, get_filter src (fun k => under d k) q, get_filter dst (fun k => !under d k) q]
  cases under d q <;> simp
  cases get src q <;> simp

theorem get_eq_none_of_not_mem (t : Tree) (q : String) (h : ∀ e ∈ t, e.1 ≠ q) :
    get t q = none := by
  induction t with
  | nil => rfl
  | cons e t ih =>
    obtain ⟨k, v⟩ := e
    have hk : k ≠ q := h (k, v) (by simp)
    simp only [get, hk, if_false]
    exact ih (fun e he => h e (by simp [he]))

theorem same_iff (a b : Tree) : same a b = true ↔ ∀ q, get a q = get b q := by
  unfold same
  simp only [List.all_eq_true, decide_eq_true_eq]
  constructor
  · intro h q
    by_cases hq : ∃ e ∈ a ++ b, e.1 = q
    · obtain ⟨e, he, rfl⟩ := hq
      exact h e he
    · have hq' : ∀ e ∈ a ++ b, e.1 ≠ q := fun e he heq => hq ⟨e, he, heq⟩
      rw [get_eq_none_of_not_mem a q (fun e he => hq' e (by simp [he])),
        get_eq_none_of_not_mem b q (fun e he => hq' e (by simp [he]))]
  · intro h e _
    exact h e.1

theorem same_refl (a : Tree) : same a a = true := (same_iff a a).2 (fun _ => rfl)

theorem get_writeAll (ws : List (String × String)) :
    ∀ (t : Tree) (q : String), get (writeAll ws t) q = overlay ws q (get t q) := by
  induction ws with
  | nil => intro t q; rfl
  | cons e ws ih =>
    intro t q
    obtain ⟨p, c⟩ := e
    simp only [writeAll, overlay]
    rw [ih, get_set]

theorem existsAt_false (t : Tree) (d : String) (h : existsAt t d = false) :
    ∀ q, under d q = true → get t q = none := by
  intro q hq
  unfold existsAt at h
  simp only [Bool.or_eq_false_iff, List.any_eq_false] at h
  apply get_eq_none_of_not_mem
  intro e he heq
  exact h.1.1 e he (heq ▸ hq)

end Tree

theorem overlay_cases (ws : List (String × String)) (q : String) :
    (∀ b, overlay ws q b = b) ∨ (∃ c, ∀ b, overlay ws q b = c) := by
  induction ws with
  | nil => exact Or.inl (fun _ => rfl)
  | cons e ws ih =>
    obtain ⟨p, c⟩ := e
    rcases ih with h | ⟨c', h⟩
    · by_cases hp : p = q
      · exact Or.inr ⟨some c, fun b => by simp [overlay, hp, h]⟩
      · exact Or.inl (fun b => by simp [overlay, hp, h])
    · exact Or.inr ⟨c', fun b => by simp [overlay, h]⟩

theorem overlay_idem (ws : List (String × String)) (q : String) (b : Option String) :
    overlay ws q (overlay ws q b) = overlay ws q b := by
  rcases overlay_cases ws q with h | ⟨c, h⟩
  · rw [h, h]
  · rw [h, h]

theorem overlay_append (a b : List (String × String)) (q : String) (x : Option String) :
    overlay (a ++ b) q x = overlay b q (overlay a q x) := by
  induction a generalizing x with
  | nil => rfl
  | cons e a ih =>
    obtain ⟨p, c⟩ := e
    simp only [List.cons_append, overlay]
    exact ih _

/-! ## Lemmas on the trace, and the status report -/

@[simp] theorem World.emit_eq (w : World) (e : Event) : w.emit e = w.emitAll [e] := rfl

@[simp] theorem World.emitAll_emitAll (w : World) (a b : List Event) :
    (w.emitAll a).emitAll b = w.emitAll (a ++ b) := by
  simp [World.emitAll, List.append_assoc]

@[simp] theorem World.emitAll_remote (w : World) (a : List Event) :
    (w.emitAll a).remote = w.remote := rfl

@[simp] theorem World.emitAll_commits (w : World) (a : List Event) :
    (w.emitAll a).commits = w.commits := rfl

@[simp] theorem World.emitAll_disk (w : World) (a : List Event) :
    (w.emitAll a).disk = w.disk := rfl

@[simp] theorem World.emitAll_applications (w : World) (a : List Event) :
    (w.emitAll a).applications = w.applications := rfl

@[simp] theorem World.emitAll_deployments (w : World) (a : List Event) :
    (w.emitAll a).deployments = w.deployments := rfl

@[simp] theorem World.emitAll_trace (w : World) (a : List Event) :
    (w.emitAll a).trace = w.trace ++ a := rfl

@[simp] theorem World.onDisk_emitAll (w : World) (d : List String) (a : List Event) :
    (w.onDisk d).emitAll a = (w.emitAll a).onDisk d := rfl

@[simp] theorem World.onDisk_onDisk (w : World) (d e : List String) :
    (w.onDisk d).onDisk e = w.onDisk e := rfl

@[simp] theorem World.onDisk_remote (w : World) (d : List String) :
    (w.onDisk d).remote = w.remote := rfl

@[simp] theorem World.onDisk_commits (w : World) (d : List String) :
    (w.onDisk d).commits = w.commits := rfl

@[simp] theorem World.onDisk_disk (w : World) (d : List String) :
    (w.onDisk d).disk = d := rfl

@[simp] theorem World.onDisk_applications (w : World) (d : List String) :
    (w.onDisk d).applications = w.applications := rfl

@[simp] theorem World.onDisk_deployments (w : World) (d : List String) :
    (w.onDisk d).deployments = w.deployments := rfl

@[simp] theorem World.onDisk_trace (w : World) (d : List String) :
    (w.onDisk d).trace = w.trace := rfl

theorem World.onDisk_self (w : World) : w.onDisk w.disk = w := rfl

@[simp] theorem World.emitAll_onDisk_self (w : World) (a : List Event) :
    (w.emitAll a).onDisk w.disk = w.emitAll a := rfl

@[simp] theorem osRemoveAllTemp_remote (env : Env) (w : World) (dir : String) :
    (osRemoveAllTemp env w dir).remote = w.remote := by
  unfold osRemoveAllTemp; split <;> rfl

@[simp] theorem osRemoveAllTemp_commits (env : Env) (w : World) (dir : String) :
    (osRemoveAllTemp env w dir).commits = w.commits := by
  unfold osRemoveAllTemp; split <;> rfl

@[simp] theorem osRemoveAllTemp_applications (env : Env) (w : World) (dir : String) :
    (osRemoveAllTemp env w dir).applications = w.applications := by
  unfold osRemoveAllTemp; split <;> rfl

@[simp] theorem osRemoveAllTemp_deployments (env : Env) (w : World) (dir : String) :
    (osRemoveAllTemp env w dir).deployments = w.deployments := by
  unfold osRemoveAllTemp; split <;> rfl

@[simp] theorem osRemoveAllTemp_trace (env : Env) (w : World) (dir : String) :
    (osRemoveAllTemp env w dir).trace = w.trace ++ [Event.removeAllTemp dir] := by
  unfold osRemoveAllTemp; split <;> rfl

/-- A result that is `res` with the world `x` on a disk is `res` with `y` on some disk, when
`x` and `y` differ by their disk only. -/
theorem exists_onDisk_of_eq {α : Type} (r : α × World) (res : α) (x y : World)
    (d : List String) (h : r = (res, x.onDisk d)) (hxy : ∀ e, x.onDisk e = y.onDisk e) :
    ∃ e, r = (res, y.onDisk e) :=
  ⟨d, by rw [h, hxy]⟩

/-- A result that is `res` with the world `x` on some disk is `res` with `x` on its own
disk. -/
theorem butDisk_of_exists {α : Type} (r : α × World) (res : α) (x : World)
    (h : ∃ d, r = (res, x.onDisk d)) : r = (res, x.onDisk r.2.disk) := by
  obtain ⟨d, rfl⟩ := h
  rfl

theorem checkGitStatus_world (cfg : Config) (env : Env) (w : World) (appName : String) :
    ∃ evs, (checkGitStatus cfg env w appName).2
      = w.emitAll (Event.cloneMemory cfg.githubURL :: evs) := by
  unfold checkGitStatus gitCloneMemory repoHead repoCommitObject commitTree treeFile
  cases env.faults.cloneMemory with
  | some e => exact ⟨[], by simp⟩
  | none =>
    cases env.faults.head with
    | some e => exact ⟨[.head], by simp⟩
    | none =>
      cases env.faults.commitObject with
      | some e => exact ⟨[.head, .commitObject], by simp⟩
      | none =>
        cases env.faults.tree with
        | some e => exact ⟨[.head, .commitObject, .tree], by simp⟩
        | none =>
          refine ⟨[.head, .commitObject, .tree,
            .file (cfg.argocdAppPath ++ "/" ++ appName ++ ".yaml")], ?_⟩
          simp only [World.emit_eq, World.emitAll_emitAll, World.emitAll_remote]
          cases env.faults.file (cfg.argocdAppPath ++ "/" ++ appName ++ ".yaml") with
          | some e => simp
          | none => cases w.remote.get (cfg.argocdAppPath ++ "/" ++ appName ++ ".yaml") <;> simp

theorem checkArgoStatus_world (cfg : Config) (env : Env) (w : World) (appName : String) :
    ∃ evs, (checkArgoStatus cfg env w appName).2
      = w.emitAll (Event.buildConfig cfg.kubeconfigPath :: evs) := by
  unfold checkArgoStatus buildConfigFromFlags newForConfig getApplication
  cases env.faults.buildConfig with
  | some e => exact ⟨[], by simp⟩
  | none =>
    cases env.faults.newClient with
    | some e => exact ⟨[.newClient], by simp⟩
    | none =>
      refine ⟨[.newClient, .getApplication "argocd" appName], ?_⟩
      simp only [World.emit_eq, World.emitAll_emitAll, World.emitAll_applications]
      cases env.faults.getApplication with
      | some e => simp
      | none =>
        cases w.applications.lookup ("argocd", appName) with
        | none => simp
        | some app => simp only []; split <;> simp

theorem checkArgoStatus_result (cfg : Config) (env : Env) (w : World) (appName : String)
    (evs : List Event) :
    (checkArgoStatus cfg env (w.emitAll evs) appName).1 = (checkArgoStatus cfg env w appName).1 := by
  unfold checkArgoStatus buildConfigFromFlags newForConfig getApplication
  cases env.faults.buildConfig with
  | some e => rfl
  | none =>
    cases env.faults.newClient with
    | some e => rfl
    | none =>
      simp only [World.emit_eq, World.emitAll_emitAll, World.emitAll_applications]
      cases env.faults.getApplication with
      | some e => rfl
      | none =>
        cases w.applications.lookup ("argocd", appName) with
        | none => rfl
        | some app => simp only []; split <;> rfl

theorem checkReachability_result (env : Env) (w w' : World) (url : String) :
    (checkReachability env w url).1 = (checkReachability env w' url).1 := by
  unfold checkReachability
  cases env.httpGet url <;> rfl

theorem checkReachability_world (env : Env) (w : World) (url : String) :
    (checkReachability env w url).2 = w.emitAll [Event.httpGet url] := by
  unfold checkReachability
  cases env.httpGet url <;> rfl

/-- C1. For every configuration, environment, world and app name, `status` returns a result
that is not error-flagged (and a nil error) whose text is the header
`Status for application: <name>` followed by the Git line, the ArgoCD line and the ingress
line in this order, each line computed from the outcome of its own check alone (the outcome
the check has on the world `status` was called in, whatever the other checks returned); and
the three checks are all invoked, in this order: the trace gains the in-memory clone of
`checkGitStatus`, then the kubeconfig load of `checkArgoStatus`, then the HTTP GET of
`checkReachability`. -/
theorem status_always_three_lines (cfg : Config) (env : Env) (w : World) (appName : String) :
    (status cfg env w appName).1
        = (NewToolResultText ("Status for application: " ++ appName
            ++ "\n" ++ gitLine (checkGitStatus cfg env w appName).1
            ++ "\n" ++ argoLine (checkArgoStatus cfg env w appName).1
            ++ "\n" ++ ingressLine ("http://" ++ appName ++ "." ++ cfg.domain)
                (checkReachability env w ("http://" ++ appName ++ "." ++ cfg.domain)).1), none)
      ∧ (status cfg env w appName).1.1.isError = false
      ∧ ∃ gitCalls argoCalls, (status cfg env w appName).2.trace
          = w.trace ++ (Event.cloneMemory cfg.githubURL :: gitCalls)
            ++ (Event.buildConfig cfg.kubeconfigPath :: argoCalls)
            ++ [Event.httpGet ("http://" ++ appName ++ "." ++ cfg.domain)] := by
  obtain ⟨tg, hg⟩ := checkGitStatus_world cfg env w appName
  obtain ⟨ta, ha⟩ := checkArgoStatus_world cfg env (checkGitStatus cfg env w appName).2 appName
  have hres : (status cfg env w appName).1
        = (NewToolResultText ("Status for application: " ++ appName
            ++ "\n" ++ gitLine (checkGitStatus cfg env w appName).1
            ++ "\n" ++ argoLine (checkArgoStatus cfg env w appName).1
            ++ "\n" ++ ingressLine ("http://" ++ appName ++ "." ++ cfg.domain)
                (checkReachability env w ("http://" ++ appName ++ "." ++ cfg.domain)).1), none) := by
    unfold status
    simp only []
    rw [hg, checkArgoStatus_result,
      checkReachability_result env _ w]
    rfl
  refine ⟨hres, by rw [hres]; rfl, tg, ta, ?_⟩
  unfold status
  simp only []
  rw [checkReachability_world, ha, hg]
  simp

/-! ## Lemmas on deploy -/

theorem under_self (d : String) : Tree.under d d = true := by
  simp [Tree.under]

/-- Writing a file and staging it keeps the index equal to the working directory. -/
theorem synced_write_add (files index : Tree) (p text : String)
    (h : ∀ q, files.get q = index.get q) (q : String) :
    ((files.set p "").set p text).get q
      = (Tree.stage index ((files.set p "").set p text) p).get q := by
  simp only [Tree.get_stage, Tree.get_set]
  by_cases hu : Tree.under p q = true
  · simp [hu]
  · have hq : p ≠ q := fun e => hu (e ▸ under_self p)
    simp [hu, hq, h q]

theorem renderManifests_error (cfg : Config) (tpl : Templates) (env : Env)
    (diskDir amp : String) (data : TemplateData) (appName : String) (names : List String) :
    ∀ (ws : Workspace) (w : World) (res : CallToolResult) (w' : World),
      renderManifests cfg tpl env diskDir amp data appName names ws w = (.error res, w') →
      res.isError = true := by
  induction names with
  | nil => intro ws w res w' h; simp [renderManifests] at h
  | cons t rest ih =>
    intro ws w res w' h
    unfold renderManifests at h
    unfold osCreate templateExecute worktreeAdd at h
    cases hp : tpl.parseFS ("templates/" ++ t) with
    | error e => simp [hp] at h; rw [← h.1]; rfl
    | ok tmpl =>
      simp only [hp] at h
      cases hc : env.faults.create (filepath.Join [amp, t]) with
      | some e => simp [hc] at h; rw [← h.1]; rfl
      | none =>
        simp only [hc] at h
        cases he : tmpl data with
        | error e => simp [he] at h; rw [← h.1]; rfl
        | ok text =>
          simp only [he] at h
          cases hw : env.faults.write (filepath.Join [amp, t]) with
          | some e => simp [hw] at h; rw [← h.1]; rfl
          | none =>
            simp only [hw] at h
            cases ha : env.faults.add (filepath.Join [cfg.manifestPath, appName, t]) with
            | some e => simp [ha] at h; rw [← h.1]; rfl
            | none =>
              simp only [ha] at h
              exact ih _ _ _ _ h

theorem renderManifests_ok (cfg : Config) (tpl : Templates) (env : Env)
    (diskDir appName image : String) (names : List String) :
    ∀ (ws : Workspace) (w : World) (ws' : Workspace) (w' : World),
      renderManifests cfg tpl env diskDir (filepath.Join [cfg.manifestPath, appName])
        (templateData cfg appName image) appName names ws w = (.ok ws', w') →
      ∃ R, desiredManifests cfg tpl appName image names = some R
        ∧ ws'.head = ws.head ∧ ws'.commits = ws.commits
        ∧ (ws.Synced → ws'.Synced)
        ∧ (∀ q, ws'.files.get q = overlay R q (ws.files.get q))
        ∧ ∃ evs d, w' = (w.emitAll evs).onDisk d := by
  induction names with
  | nil =>
    intro ws w ws' w' h
    simp only [renderManifests, Prod.mk.injEq, Except.ok.injEq] at h
    obtain ⟨rfl, rfl⟩ := h
    exact ⟨[], rfl, rfl, rfl, id, fun _ => rfl, [], w.disk, by simp [World.emitAll, World.onDisk]⟩
  | cons t rest ih =>
    intro ws w ws' w' h
    have hj : filepath.Join [filepath.Join [cfg.manifestPath, appName], t]
        = filepath.Join [cfg.manifestPath, appName, t] :=
      filepath.Join_Join [cfg.manifestPath, appName] [t]
    unfold renderManifests at h
    unfold osCreate templateExecute worktreeAdd at h
    rw [hj] at h
    cases hp : tpl.parseFS ("templates/" ++ t) with
    | error e => simp [hp] at h
    | ok tmpl =>
      simp only [hp] at h
      cases hc : env.faults.create (filepath.Join [cfg.manifestPath, appName, t]) with
      | some e => simp [hc] at h
      | none =>
        simp only [hc] at h
        cases he : tmpl (templateData cfg appName image) with
        | error e => simp [he] at h
        | ok text =>
          simp only [he] at h
          cases hw : env.faults.write (filepath.Join [cfg.manifestPath, appName, t]) with
          | some e => simp [hw] at h
          | none =>
            simp only [hw] at h
            cases ha : env.faults.add (filepath.Join [cfg.manifestPath, appName, t]) with
            | some e => simp [ha] at h
            | none =>
              simp only [ha] at h
              obtain ⟨R, hR, hhead, hcommits, hsync, hfiles, evs, d, hw'⟩ := ih _ _ _ _ h
              refine ⟨(filepath.Join [cfg.manifestPath, appName, t], text) :: R, ?_, ?_, ?_, ?_,
                ?_, ?_⟩
              · simp [desiredManifests, renderFile, hp, he, hR]
              · rw [hhead]
              · rw [hcommits]
              · intro hs
                exact hsync (fun q => synced_write_add ws.files ws.index _ text hs q)
              · intro q
                rw [hfiles q]
                simp only [overlay, Tree.get_set]
                by_cases hq : filepath.Join [cfg.manifestPath, appName, t] = q <;> simp [hq]
              · exact ⟨Event.create (filepath.Join [cfg.manifestPath, appName, t])
                  :: Event.execute t (filepath.Join [cfg.manifestPath, appName, t])
                  :: Event.add (filepath.Join [cfg.manifestPath, appName, t]) :: evs, d,
                  by rw [hw']; simp⟩

theorem renderManifests_noFaults (cfg : Config) (tpl : Templates) (env : Env)
    (diskDir appName image : String) (hf : env.faults = Faults.none) (names : List String) :
    ∀ (R : List (String × String)) (ws : Workspace) (w : World),
      desiredManifests cfg tpl appName image names = some R →
      ∃ ws' d, renderManifests cfg tpl env diskDir (filepath.Join [cfg.manifestPath, appName])
        (templateData cfg appName image) appName names ws w
          = (.ok ws', (w.emitAll (manifestCalls cfg appName names)).onDisk d) := by
  induction names with
  | nil =>
    intro R ws w _
    exact ⟨ws, w.disk, by simp [renderManifests, manifestCalls, World.emitAll, World.onDisk]⟩
  | cons t rest ih =>
    intro R ws w hR
    have hj : filepath.Join [filepath.Join [cfg.manifestPath, appName], t]
        = filepath.Join [cfg.manifestPath, appName, t] :=
      filepath.Join_Join [cfg.manifestPath, appName] [t]
    unfold renderManifests
    unfold osCreate templateExecute worktreeAdd
    rw [hj]
    simp only [desiredManifests, renderFile] at hR
    cases hp : tpl.parseFS ("templates/" ++ t) with
    | error e => simp [hp] at hR
    | ok tmpl =>
      simp only [hp] at hR ⊢
      cases he : tmpl (templateData cfg appName image) with
      | error e => simp [he] at hR
      | ok text =>
        simp only [he] at hR ⊢
        cases hrest : desiredManifests cfg tpl appName image rest with
        | none => simp [hrest] at hR
        | some R' =>
          simp only [hf, Faults.none]
          obtain ⟨ws', d, h'⟩ := ih R' _ ((w.emitAll
            [Event.create (filepath.Join [cfg.manifestPath, appName, t]),
             Event.execute t (filepath.Join [cfg.manifestPath, appName, t]),
             Event.add (filepath.Join [cfg.manifestPath, appName, t])]).onDisk
              (Disk.create w.disk (filepath.Join [diskDir, t]))) hrest
          refine ⟨ws', d, ?_⟩
          simp only [World.emit_eq, World.emitAll_emitAll, World.onDisk_emitAll,
            List.singleton_append, List.cons_append, List.nil_append]
          rw [h']
          simp [manifestCalls]
theorem deployPublish_ok (cfg : Config) (tpl : Templates) (env : Env)
    (diskDir appName image : String) (ws : Workspace) (w : World) (hs : ws.Synced)
    (h : (deployPublish cfg tpl env diskDir (filepath.Join [cfg.argocdAppPath])
      (templateData cfg appName image) appName image ws w).1.1.isError = false) :
    ∃ text, renderFile tpl (templateData cfg appName image) "application.yaml" = some text ∧
      (((deployPublish cfg tpl env diskDir (filepath.Join [cfg.argocdAppPath])
            (templateData cfg appName image) appName image ws w).1
          = (NewToolResultText "No changes to deploy", none)
        ∧ (deployPublish cfg tpl env diskDir (filepath.Join [cfg.argocdAppPath])
            (templateData cfg appName image) appName image ws w).2.remote = w.remote
        ∧ (deployPublish cfg tpl env diskDir (filepath.Join [cfg.argocdAppPath])
            (templateData cfg appName image) appName image ws w).2.commits = w.commits
        ∧ ∀ q, (if filepath.Join [cfg.argocdAppPath, appName ++ ".yaml"] = q then some text
            else ws.files.get q) = ws.head.get q)
      ∨ ((deployPublish cfg tpl env diskDir (filepath.Join [cfg.argocdAppPath])
            (templateData cfg appName image) appName image ws w).1
          = (NewToolResultText ("Successfully deployed " ++ appName ++ ". Git updated."), none)
        ∧ (∀ q, (deployPublish cfg tpl env diskDir (filepath.Join [cfg.argocdAppPath])
            (templateData cfg appName image) appName image ws w).2.remote.get q
            = if filepath.Join [cfg.argocdAppPath, appName ++ ".yaml"] = q then some text
              else ws.files.get q)
        ∧ (deployPublish cfg tpl env diskDir (filepath.Join [cfg.argocdAppPath])
            (templateData cfg appName image) appName image ws w).2.commits
          = ("Deploy application " ++ appName ++ " with image " ++ image) :: ws.commits
              ++ w.commits
        ∧ ¬ ∀ q, (if filepath.Join [cfg.argocdAppPath, appName ++ ".yaml"] = q then some text
            else ws.files.get q) = ws.head.get q)) := by
  have hj : filepath.Join [filepath.Join [cfg.argocdAppPath], appName ++ ".yaml"]
      = filepath.Join [cfg.argocdAppPath, appName ++ ".yaml"] :=
    filepath.Join_Join [cfg.argocdAppPath] [appName ++ ".yaml"]
  generalize hr : deployPublish cfg tpl env diskDir (filepath.Join [cfg.argocdAppPath])
      (templateData cfg appName image) appName image ws w = r at h ⊢
  unfold deployPublish at hr
  unfold osCreate templateExecute worktreeAdd worktreeStatus worktreeCommit repoPush at hr
  rw [hj] at hr
  simp only [renderFile]
  cases hp : tpl.parseFS "templates/application.yaml" with
  | error e => simp only [hp] at hr; subst hr; simp [NewToolResultError] at h
  | ok tmpl =>
    have hp' : tpl.parseFS ("templates/" ++ "application.yaml") = Except.ok tmpl := hp
    simp only [hp, hp'] at hr ⊢
    cases hc : env.faults.create (filepath.Join [cfg.argocdAppPath, appName ++ ".yaml"]) with
    | some e => simp only [hc] at hr; subst hr; simp [NewToolResultError] at h
    | none =>
      simp only [hc] at hr
      cases he : tmpl (templateData cfg appName image) with
      | error e => simp only [he] at hr; subst hr; simp [NewToolResultError] at h
      | ok text =>
        simp only [he] at hr ⊢
        cases hw : env.faults.write (filepath.Join [cfg.argocdAppPath, appName ++ ".yaml"]) with
        | some e => simp only [hw] at hr; subst hr; simp [NewToolResultError] at h
        | none =>
          simp only [hw] at hr
          cases ha : env.faults.add (filepath.Join [cfg.argocdAppPath, appName ++ ".yaml"]) with
          | some e => simp only [ha] at hr; subst hr; simp [NewToolResultError] at h
          | none =>
            simp only [ha] at hr
            cases hst : env.faults.status with
            | some e => simp only [hst] at hr; subst hr; simp [NewToolResultError] at h
            | none =>
              simp only [hst] at hr
              have hsync := synced_write_add ws.files ws.index
                (filepath.Join [cfg.argocdAppPath, appName ++ ".yaml"]) text hs
              have hfiles : ∀ q, ((ws.files.set (filepath.Join [cfg.argocdAppPath,
                  appName ++ ".yaml"]) "").set (filepath.Join [cfg.argocdAppPath,
                  appName ++ ".yaml"]) text).get q
                  = if filepath.Join [cfg.argocdAppPath, appName ++ ".yaml"] = q then some text
                    else ws.files.get q := by
                intro q
                simp only [Tree.get_set]
                by_cases hq : filepath.Join [cfg.argocdAppPath, appName ++ ".yaml"] = q <;>
                  simp [hq]
              have h2 : Tree.same ((ws.files.set (filepath.Join [cfg.argocdAppPath,
                  appName ++ ".yaml"]) "").set (filepath.Join [cfg.argocdAppPath,
                  appName ++ ".yaml"]) text)
                  (Tree.stage ws.index ((ws.files.set (filepath.Join [cfg.argocdAppPath,
                  appName ++ ".yaml"]) "").set (filepath.Join [cfg.argocdAppPath,
                  appName ++ ".yaml"]) text)
                  (filepath.Join [cfg.argocdAppPath, appName ++ ".yaml"])) = true :=
                (Tree.same_iff _ _).2 hsync
              simp only [h2, Bool.and_true] at hr
              refine ⟨text, rfl, ?_⟩
              cases hclean : Tree.same (Tree.stage ws.index ((ws.files.set
                  (filepath.Join [cfg.argocdAppPath, appName ++ ".yaml"]) "").set
                  (filepath.Join [cfg.argocdAppPath, appName ++ ".yaml"]) text)
                  (filepath.Join [cfg.argocdAppPath, appName ++ ".yaml"])) ws.head with
              | true =>
                simp only [hclean] at hr
                subst hr
                left
                refine ⟨rfl, rfl, rfl, ?_⟩
                intro q
                rw [← hfiles q, hsync q]
                exact (Tree.same_iff _ _).1 hclean q
              | false =>
                simp only [hclean] at hr
                have hdirty : ¬ ∀ q, (if filepath.Join [cfg.argocdAppPath, appName ++ ".yaml"] = q
                    then some text else ws.files.get q) = ws.head.get q := by
                  intro hall
                  have : Tree.same (Tree.stage ws.index ((ws.files.set
                      (filepath.Join [cfg.argocdAppPath, appName ++ ".yaml"]) "").set
                      (filepath.Join [cfg.argocdAppPath, appName ++ ".yaml"]) text)
                      (filepath.Join [cfg.argocdAppPath, appName ++ ".yaml"])) ws.head = true :=
                    (Tree.same_iff _ _).2 (fun q => by rw [← hsync q, hfiles q]; exact hall q)
                  rw [hclean] at this
                  exact Bool.noConfusion this
                cases hcm : env.faults.commit with
                | some e => simp only [hcm] at hr; subst hr; simp [NewToolResultError] at h
                | none =>
                  simp only [hcm] at hr
                  cases hpu : env.faults.push with
                  | some e => simp only [hpu] at hr; subst hr; simp [NewToolResultError] at h
                  | none =>
                    simp only [hpu] at hr
                    subst hr
                    right
                    refine ⟨rfl, ?_, rfl, hdirty⟩
                    intro q
                    show (Tree.stage ws.index _ _).get q = _
                    rw [← hsync q, hfiles q]

theorem deployPublish_noFaults (cfg : Config) (tpl : Templates) (env : Env)
    (diskDir appName image : String) (ws : Workspace) (w : World) (text : String)
    (hf : env.faults = Faults.none) (hs : ws.Synced)
    (ht : renderFile tpl (templateData cfg appName image) "application.yaml" = some text) :
    ((∀ q, (if filepath.Join [cfg.argocdAppPath, appName ++ ".yaml"] = q then some text
          else ws.files.get q) = ws.head.get q) →
      deployPublish cfg tpl env diskDir (filepath.Join [cfg.argocdAppPath])
          (templateData cfg appName image) appName image ws w
        = ((NewToolResultText "No changes to deploy", none),
            (w.emitAll
              [Event.create (filepath.Join [cfg.argocdAppPath, appName ++ ".yaml"]),
                Event.execute "application.yaml"
                  (filepath.Join [cfg.argocdAppPath, appName ++ ".yaml"]),
                Event.add (filepath.Join [cfg.argocdAppPath, appName ++ ".yaml"]),
                Event.status]).onDisk
              (Disk.create w.disk (filepath.Join [diskDir, appName ++ ".yaml"]))))
    ∧ ((¬ ∀ q, (if filepath.Join [cfg.argocdAppPath, appName ++ ".yaml"] = q then some text
          else ws.files.get q) = ws.head.get q) →
      ∃ t', (∀ q, Tree.get t' q
          = if filepath.Join [cfg.argocdAppPath, appName ++ ".yaml"] = q then some text
            else ws.files.get q)
        ∧ deployPublish cfg tpl env diskDir (filepath.Join [cfg.argocdAppPath])
          (templateData cfg appName image) appName image ws w
        = ((NewToolResultText ("Successfully deployed " ++ appName ++ ". Git updated."), none),
            World.onDisk { w.emitAll
              [Event.create (filepath.Join [cfg.argocdAppPath, appName ++ ".yaml"]),
                Event.execute "application.yaml"
                  (filepath.Join [cfg.argocdAppPath, appName ++ ".yaml"]),
                Event.add (filepath.Join [cfg.argocdAppPath, appName ++ ".yaml"]),
                Event.status,
                Event.commit ("Deploy application " ++ appName ++ " with image " ++ image),
                Event.push] with
              remote := t',
              commits := ("Deploy application " ++ appName ++ " with image " ++ image)
                :: ws.commits ++ w.commits }
              (Disk.create w.disk (filepath.Join [diskDir, appName ++ ".yaml"])))) := by
  have hj : filepath.Join [filepath.Join [cfg.argocdAppPath], appName ++ ".yaml"]
      = filepath.Join [cfg.argocdAppPath, appName ++ ".yaml"] :=
    filepath.Join_Join [cfg.argocdAppPath] [appName ++ ".yaml"]
  have hsync := synced_write_add ws.files ws.index
    (filepath.Join [cfg.argocdAppPath, appName ++ ".yaml"]) text hs
  have hfiles : ∀ q, ((ws.files.set (filepath.Join [cfg.argocdAppPath,
      appName ++ ".yaml"]) "").set (filepath.Join [cfg.argocdAppPath,
      appName ++ ".yaml"]) text).get q
      = if filepath.Join [cfg.argocdAppPath, appName ++ ".yaml"] = q then some text
        else ws.files.get q := by
    intro q
    simp only [Tree.get_set]
    by_cases hq : filepath.Join [cfg.argocdAppPath, appName ++ ".yaml"] = q <;> simp [hq]
  have h2 : Tree.same ((ws.files.set (filepath.Join [cfg.argocdAppPath,
      appName ++ ".yaml"]) "").set (filepath.Join [cfg.argocdAppPath,
      appName ++ ".yaml"]) text)
      (Tree.stage ws.index ((ws.files.set (filepath.Join [cfg.argocdAppPath,
      appName ++ ".yaml"]) "").set (filepath.Join [cfg.argocdAppPath,
      appName ++ ".yaml"]) text)
      (filepath.Join [cfg.argocdAppPath, appName ++ ".yaml"])) = true :=
    (Tree.same_iff _ _).2 hsync
  simp only [renderFile] at ht
  unfold deployPublish
  unfold osCreate templateExecute worktreeAdd worktreeStatus worktreeCommit repoPush
  rw [hj]
  cases hp : tpl.parseFS "templates/application.yaml" with
  | error e =>
    have hp' : tpl.parseFS ("templates/" ++ "application.yaml") = Except.error e := hp
    simp [hp, hp'] at ht
  | ok tmpl =>
    have hp' : tpl.parseFS ("templates/" ++ "application.yaml") = Except.ok tmpl := hp
    simp only [hp, hp'] at ht ⊢
    cases he : tmpl (templateData cfg appName image) with
    | error e => simp [he] at ht
    | ok text' =>
      simp only [he, Option.some.injEq] at ht
      subst ht
      simp only [hf, Faults.none, he, h2, Bool.and_true, World.emit_eq, World.emitAll_emitAll,
        World.onDisk_emitAll, List.singleton_append, List.cons_append, List.nil_append]
      constructor
      · intro hall
        have hc : Tree.same (Tree.stage ws.index ((ws.files.set
            (filepath.Join [cfg.argocdAppPath, appName ++ ".yaml"]) "").set
            (filepath.Join [cfg.argocdAppPath, appName ++ ".yaml"]) text')
            (filepath.Join [cfg.argocdAppPath, appName ++ ".yaml"])) ws.head = true :=
          (Tree.same_iff _ _).2 (fun q => by rw [← hsync q, hfiles q]; exact hall q)
        simp only [hc]
      · intro hdirty
        have hc : Tree.same (Tree.stage ws.index ((ws.files.set
            (filepath.Join [cfg.argocdAppPath, appName ++ ".yaml"]) "").set
            (filepath.Join [cfg.argocdAppPath, appName ++ ".yaml"]) text')
            (filepath.Join [cfg.argocdAppPath, appName ++ ".yaml"])) ws.head = false := by
          cases hcc : Tree.same (Tree.stage ws.index ((ws.files.set
            (filepath.Join [cfg.argocdAppPath, appName ++ ".yaml"]) "").set
            (filepath.Join [cfg.argocdAppPath, appName ++ ".yaml"]) text')
            (filepath.Join [cfg.argocdAppPath, appName ++ ".yaml"])) ws.head with
          | false => rfl
          | true =>
            exact absurd (fun q => by
              rw [← hfiles q, hsync q]; exact (Tree.same_iff _ _).1 hcc q) hdirty
        simp only [hc]
        refine ⟨_, fun q => by rw [← hsync q, hfiles q], ?_⟩
        simp [World.emitAll, World.onDisk]

theorem overlay_snoc (R : List (String × String)) (p text q : String) (b : Option String) :
    overlay (R ++ [(p, text)]) q b = if p = q then some text else overlay R q b := by
  rw [overlay_append]
  rfl

theorem deployBody_ok (cfg : Config) (tpl : Templates) (env : Env) (dir appName image : String)
    (w : World) (h : (deployBody cfg tpl env dir appName image w).1.1.isError = false) :
    ∃ R, desiredState cfg tpl appName image = some R ∧
      (((deployBody cfg tpl env dir appName image w).1
            = (NewToolResultText "No changes to deploy", none)
          ∧ (deployBody cfg tpl env dir appName image w).2.remote = w.remote
          ∧ (deployBody cfg tpl env dir appName image w).2.commits = w.commits
          ∧ ∀ q, overlay R q (w.remote.get q) = w.remote.get q)
        ∨ ((deployBody cfg tpl env dir appName image w).1
            = (NewToolResultText ("Successfully deployed " ++ appName ++ ". Git updated."), none)
          ∧ (∀ q, (deployBody cfg tpl env dir appName image w).2.remote.get q
              = overlay R q (w.remote.get q))
          ∧ (deployBody cfg tpl env dir appName image w).2.commits
              = ("Deploy application " ++ appName ++ " with image " ++ image) :: w.commits
          ∧ ¬ ∀ q, overlay R q (w.remote.get q) = w.remote.get q)) := by
  unfold deployBody at h ⊢
  unfold gitPlainClone repoWorktree osMkdirAll at h ⊢
  cases hc : env.faults.plainClone with
  | some e => simp [hc, NewToolResultError] at h
  | none =>
    simp only [hc] at h ⊢
    cases hwt : env.faults.worktree with
    | some e => simp [hwt, NewToolResultError] at h
    | none =>
      simp only [hwt] at h ⊢
      cases hm1 : env.faults.mkdirAll (filepath.Join [cfg.manifestPath, appName]) with
      | some e => simp [hm1, NewToolResultError] at h
      | none =>
        simp only [hm1] at h ⊢
        cases hm2 : env.faults.mkdirAll (filepath.Join [cfg.argocdAppPath]) with
        | some e => simp [hm2, NewToolResultError] at h
        | none =>
          simp only [hm2] at h ⊢
          generalize hrm : renderManifests cfg tpl env
            (filepath.Join [dir, cfg.manifestPath, appName])
            (filepath.Join [cfg.manifestPath, appName])
            (templateData cfg appName image) appName manifests
            { head := w.remote, index := w.remote, files := w.remote, commits := [] } _
              = rm at h ⊢
          obtain ⟨rmr, rmw⟩ := rm
          cases rmr with
          | error res =>
            have := renderManifests_error _ _ _ _ _ _ _ _ _ _ _ _ hrm
            simp only [] at h
            rw [this] at h
            exact Bool.noConfusion h
          | ok ws' =>
            simp only [] at h ⊢
            obtain ⟨Rm, hRm, hhead, hcommits, hsync, hfiles, evs, d, hw'⟩ :=
              renderManifests_ok _ _ _ _ _ _ _ _ _ _ _ hrm
            have hs' : ws'.Synced := hsync (fun _ => rfl)
            obtain ⟨text, htext, hcases⟩ :=
              deployPublish_ok cfg tpl env _ appName image ws' rmw hs' h
            refine ⟨Rm ++ [(filepath.Join [cfg.argocdAppPath, appName ++ ".yaml"], text)], ?_, ?_⟩
            · simp [desiredState, hRm, htext]
            · have hrem : rmw.remote = w.remote := by rw [hw']; simp
              have hcom : rmw.commits = w.commits := by rw [hw']; simp
              simp only [overlay_snoc]
              simp only [hhead, hcommits, hfiles, hrem, hcom] at hcases
              rcases hcases with ⟨h1, h2, h3, h4⟩ | ⟨h1, h2, h3, h4⟩
              · exact Or.inl ⟨h1, h2, h3, h4⟩
              · exact Or.inr ⟨h1, h2, by simpa using h3, h4⟩

/-- What a call of `deploy` that does not report an error has done: the templates rendered,
and either the rendered files were those of the remote HEAD and nothing was published, or
one commit holding them went to the remote. -/
theorem deploy_ok (cfg : Config) (tpl : Templates) (env : Env) (w : World)
    (appName image : String) (h : (deploy cfg tpl env w appName image).1.1.isError = false) :
    ∃ R, desiredState cfg tpl appName image = some R ∧
      (((deploy cfg tpl env w appName image).1
            = (NewToolResultText "No changes to deploy", none)
          ∧ (deploy cfg tpl env w appName image).2.remote = w.remote
          ∧ (deploy cfg tpl env w appName image).2.commits = w.commits
          ∧ ∀ q, overlay R q (w.remote.get q) = w.remote.get q)
        ∨ ((deploy cfg tpl env w appName image).1
            = (NewToolResultText ("Successfully deployed " ++ appName ++ ". Git updated."), none)
          ∧ (∀ q, (deploy cfg tpl env w appName image).2.remote.get q
              = overlay R q (w.remote.get q))
          ∧ (deploy cfg tpl env w appName image).2.commits
              = ("Deploy application " ++ appName ++ " with image " ++ image) :: w.commits
          ∧ ¬ ∀ q, overlay R q (w.remote.get q) = w.remote.get q)) := by
  unfold deploy osMkdirTemp at h ⊢
  cases hm : env.faults.mkdirTemp with
  | some e => simp [hm, NewToolResultError] at h
  | none =>
    simp only [hm, osRemoveAllTemp_remote, osRemoveAllTemp_commits] at h ⊢
    exact deployBody_ok cfg tpl env _ appName image _ h

theorem desiredState_some (cfg : Config) (tpl : Templates) (appName image : String)
    (R : List (String × String)) (h : desiredState cfg tpl appName image = some R) :
    ∃ Rm text, desiredManifests cfg tpl appName image manifests = some Rm
      ∧ renderFile tpl (templateData cfg appName image) "application.yaml" = some text
      ∧ R = Rm ++ [(filepath.Join [cfg.argocdAppPath, appName ++ ".yaml"], text)] := by
  unfold desiredState at h
  cases h1 : desiredManifests cfg tpl appName image manifests with
  | none => simp [h1] at h
  | some Rm =>
    cases h2 : renderFile tpl (templateData cfg appName image) "application.yaml" with
    | none => simp [h1, h2] at h
    | some text =>
      simp only [h1, h2, Option.some.injEq] at h
      exact ⟨Rm, text, rfl, rfl, h.symm⟩

theorem deployBody_noFaults (cfg : Config) (tpl : Templates) (env : Env) (w : World)
    (dir appName image : String) (R : List (String × String))
    (hf : env.faults = Faults.none) (hR : desiredState cfg tpl appName image = some R) :
    ((∀ q, overlay R q (w.remote.get q) = w.remote.get q) →
      deployBody cfg tpl env dir appName image w
        = ((NewToolResultText "No changes to deploy", none),
            (w.emitAll (deployBodyCalls cfg dir appName)).onDisk
              (deployBody cfg tpl env dir appName image w).2.disk))
    ∧ ((¬ ∀ q, overlay R q (w.remote.get q) = w.remote.get q) →
      ∃ t', (∀ q, Tree.get t' q = overlay R q (w.remote.get q))
        ∧ deployBody cfg tpl env dir appName image w
          = ((NewToolResultText ("Successfully deployed " ++ appName ++ ". Git updated."), none),
            World.onDisk { w.emitAll (deployBodyCalls cfg dir appName
                ++ [Event.commit ("Deploy application " ++ appName ++ " with image " ++ image),
                    Event.push]) with
              remote := t',
              commits := ("Deploy application " ++ appName ++ " with image " ++ image)
                :: w.commits }
              (deployBody cfg tpl env dir appName image w).2.disk)) := by
  obtain ⟨Rm, text, hRm, htext, rfl⟩ := desiredState_some cfg tpl appName image R hR
  obtain ⟨ws', d, hrm⟩ := renderManifests_noFaults cfg tpl env
    (filepath.Join [dir, cfg.manifestPath, appName]) appName image hf manifests Rm
    { head := w.remote, index := w.remote, files := w.remote, commits := [] }
    ((w.emitAll [Event.plainClone dir cfg.githubURL,
        Event.worktree, Event.mkdirAll (filepath.Join [cfg.manifestPath, appName]),
        Event.mkdirAll (filepath.Join [cfg.argocdAppPath])]).onDisk
      (Disk.mkdirAll (Disk.mkdirAll w.disk (filepath.Join [dir, cfg.manifestPath, appName]))
        (filepath.Join [dir, cfg.argocdAppPath]))) hRm
  obtain ⟨Rm', hRm', hhead, hcommits, hsync, hfiles, -⟩ :=
    renderManifests_ok _ _ _ _ _ _ _ _ _ _ _ hrm
  have hRmeq : Rm' = Rm := by
    rw [hRm] at hRm'
    exact (Option.some.inj hRm').symm
  subst hRmeq
  have hs' : ws'.Synced := hsync (fun _ => rfl)
  have hpub := deployPublish_noFaults cfg tpl env (filepath.Join [dir, cfg.argocdAppPath])
    appName image ws'
    (((w.emitAll [Event.plainClone dir cfg.githubURL,
        Event.worktree, Event.mkdirAll (filepath.Join [cfg.manifestPath, appName]),
        Event.mkdirAll (filepath.Join [cfg.argocdAppPath])]).emitAll
      (manifestCalls cfg appName manifests)).onDisk d) text hf hs' htext
  simp only [hhead, hfiles, hcommits] at hpub
  have hbody : deployBody cfg tpl env dir appName image w
      = deployPublish cfg tpl env (filepath.Join [dir, cfg.argocdAppPath])
          (filepath.Join [cfg.argocdAppPath])
          (templateData cfg appName image) appName image ws'
          (((w.emitAll [Event.plainClone dir cfg.githubURL,
              Event.worktree, Event.mkdirAll (filepath.Join [cfg.manifestPath, appName]),
              Event.mkdirAll (filepath.Join [cfg.argocdAppPath])]).emitAll
            (manifestCalls cfg appName manifests)).onDisk d) := by
    unfold deployBody gitPlainClone repoWorktree osMkdirAll
    simp only [hf, Faults.none, World.emit_eq, World.emitAll_emitAll, World.onDisk_emitAll,
      World.onDisk_onDisk, World.emitAll_disk, World.onDisk_disk, List.singleton_append,
      List.cons_append, List.nil_append]
    rw [hrm]
    simp
  rw [hbody]
  simp only [overlay_snoc]
  constructor
  · intro hclean
    rw [hpub.1 hclean]
    simp [deployBodyCalls]
  · intro hdirty
    obtain ⟨t', ht', heq⟩ := hpub.2 hdirty
    rw [heq]
    refine ⟨t', ht', ?_⟩
    simp [World.emitAll, World.onDisk, deployBodyCalls]

/-- What `deploy` does when no external call fails and the templates render. -/
theorem deploy_noFaults (cfg : Config) (tpl : Templates) (env : Env) (w : World)
    (appName image : String) (R : List (String × String))
    (hf : env.faults = Faults.none) (hR : desiredState cfg tpl appName image = some R) :
    ((∀ q, overlay R q (w.remote.get q) = w.remote.get q) →
      (deploy cfg tpl env w appName image).1 = (NewToolResultText "No changes to deploy", none)
      ∧ (deploy cfg tpl env w appName image).2.remote = w.remote
      ∧ (deploy cfg tpl env w appName image).2.commits = w.commits
      ∧ (deploy cfg tpl env w appName image).2.trace
          = w.trace ++ deployCalls cfg env appName
            ++ [Event.removeAllTemp (env.osTempDir ++ "/" ++ "mcp-deployer-" ++ env.suffix)])
    ∧ ((¬ ∀ q, overlay R q (w.remote.get q) = w.remote.get q) →
      (deploy cfg tpl env w appName image).1
          = (NewToolResultText ("Successfully deployed " ++ appName ++ ". Git updated."), none)
      ∧ (∀ q, (deploy cfg tpl env w appName image).2.remote.get q
          = overlay R q (w.remote.get q))
      ∧ (deploy cfg tpl env w appName image).2.commits
          = ("Deploy application " ++ appName ++ " with image " ++ image) :: w.commits
      ∧ (deploy cfg tpl env w appName image).2.trace
          = w.trace ++ deployCalls cfg env appName
            ++ [Event.commit ("Deploy application " ++ appName ++ " with image " ++ image),
                Event.push,
                Event.removeAllTemp (env.osTempDir ++ "/" ++ "mcp-deployer-" ++ env.suffix)]) := by
  have hb := deployBody_noFaults cfg tpl env
    { w.emit (Event.mkdirTemp (env.osTempDir ++ "/" ++ "mcp-deployer-" ++ env.suffix)) with
      disk := (env.osTempDir ++ "/" ++ "mcp-deployer-" ++ env.suffix) :: w.disk }
    (env.osTempDir ++ "/" ++ "mcp-deployer-" ++ env.suffix) appName image R hf hR
  unfold deploy osMkdirTemp
  simp only [hf, Faults.none]
  constructor
  · intro hclean
    rw [hb.1 hclean]
    simp [osRemoveAllTemp, hf, Faults.none, World.emitAll, World.emit, World.onDisk, deployCalls]
  · intro hdirty
    obtain ⟨t', ht', heq⟩ := hb.2 hdirty
    rw [heq]
    refine ⟨rfl, ?_, ?_, ?_⟩
    · simpa [osRemoveAllTemp, hf, Faults.none, World.emitAll, World.emit, World.onDisk] using ht'
    · simp [osRemoveAllTemp, hf, Faults.none, World.emitAll, World.emit, World.onDisk]
    · simp [osRemoveAllTemp, hf, Faults.none, World.emitAll, World.emit, World.onDisk,
        deployCalls]

/-! ## C2: deploying twice -/

theorem manifestCalls_committed (cfg : Config) (appName : String) (names : List String) :
    (manifestCalls cfg appName names).filterMap Event.committed = []
      ∧ (manifestCalls cfg appName names).filter Event.isPush = [] := by
  induction names with
  | nil => exact ⟨rfl, rfl⟩
  | cons t rest ih =>
    simp [manifestCalls, Event.committed, Event.isPush, ih.1, ih.2]

theorem deployCalls_committed (cfg : Config) (env : Env) (appName : String) :
    (deployCalls cfg env appName).filterMap Event.committed = []
      ∧ (deployCalls cfg env appName).filter Event.isPush = [] := by
  have h := manifestCalls_committed cfg appName manifests
  simp [deployCalls, deployBodyCalls, Event.committed, Event.isPush, h.1, h.2]

/-- C2. Two calls of `deploy` in a row with the same application name and image, the second
starting in the world the first left (no other writer): when the first call does not report
an error and no external call of the second fails, the second call finds a clean working
tree and returns the non-error text `No changes to deploy`; it leaves the remote tree and the
remote commits as they were, and the external calls it makes hold no commit and no push.  The
first call made exactly one commit, with the deploy message, when the rendered files differ
from the remote HEAD (the remote then holds the rendered files), and none when they do not:
one commit at most over the two calls. -/
theorem deploy_twice_one_commit (cfg : Config) (tpl : Templates) (env1 env2 : Env) (w : World)
    (appName image : String)
    (h1 : (deploy cfg tpl env1 w appName image).1.1.isError = false)
    (h2 : env2.faults = Faults.none) :
    (deploy cfg tpl env2 (deploy cfg tpl env1 w appName image).2 appName image).1
        = (NewToolResultText "No changes to deploy", none)
      ∧ (deploy cfg tpl env2 (deploy cfg tpl env1 w appName image).2 appName image).2.remote
        = (deploy cfg tpl env1 w appName image).2.remote
      ∧ (deploy cfg tpl env2 (deploy cfg tpl env1 w appName image).2 appName image).2.commits
        = (deploy cfg tpl env1 w appName image).2.commits
      ∧ (∃ calls,
          (deploy cfg tpl env2 (deploy cfg tpl env1 w appName image).2 appName image).2.trace
            = (deploy cfg tpl env1 w appName image).2.trace ++ calls
          ∧ calls.filterMap Event.committed = [] ∧ calls.filter Event.isPush = [])
      ∧ ∃ R, desiredState cfg tpl appName image = some R
        ∧ (Tree.same (Tree.writeAll R w.remote) w.remote = true →
            (deploy cfg tpl env1 w appName image).2.commits = w.commits
            ∧ (deploy cfg tpl env1 w appName image).2.remote = w.remote)
        ∧ (Tree.same (Tree.writeAll R w.remote) w.remote = false →
            (deploy cfg tpl env1 w appName image).2.commits
              = ("Deploy application " ++ appName ++ " with image " ++ image) :: w.commits
            ∧ Tree.same (deploy cfg tpl env1 w appName image).2.remote
                (Tree.writeAll R w.remote) = true) := by
  obtain ⟨R, hR, hfirst⟩ := deploy_ok cfg tpl env1 w appName image h1
  have hclean2 : ∀ q, overlay R q ((deploy cfg tpl env1 w appName image).2.remote.get q)
      = (deploy cfg tpl env1 w appName image).2.remote.get q := by
    intro q
    rcases hfirst with ⟨-, hrem, -, hc⟩ | ⟨-, hrem, -, -⟩
    · rw [hrem]; exact hc q
    · rw [hrem q]; exact overlay_idem R q _
  obtain ⟨hres, hrem2, hcom2, htr2⟩ :=
    (deploy_noFaults cfg tpl env2 (deploy cfg tpl env1 w appName image).2 appName image R h2
      hR).1 hclean2
  have hsame : Tree.same (Tree.writeAll R w.remote) w.remote = true
      ↔ ∀ q, overlay R q (w.remote.get q) = w.remote.get q := by
    rw [Tree.same_iff]
    constructor
    · intro h q; rw [← Tree.get_writeAll]; exact h q
    · intro h q; rw [Tree.get_writeAll]; exact h q
  refine ⟨hres, hrem2, hcom2, ?_, R, hR, ?_, ?_⟩
  · refine ⟨deployCalls cfg env2 appName
      ++ [Event.removeAllTemp (env2.osTempDir ++ "/" ++ "mcp-deployer-" ++ env2.suffix)], ?_, ?_, ?_⟩
    · rw [htr2, List.append_assoc]
    · simp [(deployCalls_committed cfg env2 appName).1, Event.committed]
    · simp [(deployCalls_committed cfg env2 appName).2, Event.isPush]
  · intro hs
    rcases hfirst with ⟨-, hrem, hcom, -⟩ | ⟨-, -, -, hd⟩
    · exact ⟨hcom, hrem⟩
    · exact absurd (hsame.1 hs) hd
  · intro hs
    rcases hfirst with ⟨-, -, -, hc⟩ | ⟨-, hrem, hcom, -⟩
    · rw [hsame.2 hc] at hs
      exact Bool.noConfusion hs
    · refine ⟨hcom, ?_⟩
      rw [Tree.same_iff]
      intro q
      rw [hrem q, Tree.get_writeAll]

/-- C2, on an example: the first `deploy` of `x` commits, the second changes nothing. -/
theorem deploy_twice_one_commit_witness :
    (deploy sampleConfig sampleTemplates sampleEnv sampleWorld "x" "img:1").1.1.isError = false
      ∧ sampleEnv.faults = Faults.none
      ∧ (deploy sampleConfig sampleTemplates sampleEnv
          (deploy sampleConfig sampleTemplates sampleEnv sampleWorld "x" "img:1").2
          "x" "img:1").1 = (NewToolResultText "No changes to deploy", none)
      ∧ (deploy sampleConfig sampleTemplates sampleEnv
          (deploy sampleConfig sampleTemplates sampleEnv sampleWorld "x" "img:1").2
          "x" "img:1").2.commits = ["Deploy application x with image img:1", "init"] :=
  ⟨by decide, rfl,
    (deploy_twice_one_commit sampleConfig sampleTemplates sampleEnv sampleEnv sampleWorld
      "x" "img:1" (by decide) rfl).1,
    by decide⟩

/-! ## C3: destroying what is not there -/

theorem removeUnder_absent (t : Tree) (d : String) (h : t.existsAt d = false) :
    t.removeUnder d = t := by
  unfold Tree.existsAt at h
  simp only [Bool.or_eq_false_iff, List.any_eq_false] at h
  unfold Tree.removeUnder
  rw [List.filter_eq_self]
  intro e he
  simpa using h.1.1 e he

theorem stage_root (dst src : Tree) : Tree.stage dst src "." = src := by
  simp [Tree.stage, Tree.under]

/-- C3. For every app name for which nothing exists in the repository at the manifest
directory `filepath.Join(manifestPath, name)` and at the descriptor
`filepath.Join(argocdAppPath, name+".yaml")`: when the external calls `destroy` makes on
this path succeed (temporary directory, clone, worktree, the two removals from disk, staging,
status), `destroy` returns the result that is not error-flagged with text
`App <name> does not exist or already destroyed`; its external calls are exactly the listed
ones, with no commit and no push among them; and the remote tree and commits are
unchanged. -/
theorem destroy_absent_noop (cfg : Config) (env : Env) (w : World) (appName : String)
    (hdir : w.remote.existsAt (filepath.Join [cfg.manifestPath, appName]) = false)
    (hfile : w.remote.existsAt (filepath.Join [cfg.argocdAppPath, appName ++ ".yaml"]) = false)
    (hmk : env.faults.mkdirTemp = none) (hcl : env.faults.plainClone = none)
    (hwt : env.faults.worktree = none)
    (hra : env.faults.removeAll (filepath.Join [cfg.manifestPath, appName]) = none)
    (hrm : env.faults.remove (filepath.Join [cfg.argocdAppPath, appName ++ ".yaml"]) = none)
    (hadd : env.faults.add "." = none) (hst : env.faults.status = none) :
    (destroy cfg env w appName).1
        = (NewToolResultText ("App " ++ appName ++ " does not exist or already destroyed"), none)
      ∧ (destroy cfg env w appName).1.1.isError = false
      ∧ (destroy cfg env w appName).2.trace
        = w.trace ++
          [Event.mkdirTemp (env.osTempDir ++ "/" ++ "mcp-destroyer-" ++ env.suffix),
            Event.plainClone (env.osTempDir ++ "/" ++ "mcp-destroyer-" ++ env.suffix)
              cfg.githubURL,
            Event.worktree,
            Event.stat (filepath.Join [cfg.manifestPath, appName]),
            Event.removeAll (filepath.Join [cfg.manifestPath, appName]),
            Event.remove (filepath.Join [cfg.argocdAppPath, appName ++ ".yaml"]),
            Event.add ".",
            Event.status,
            Event.removeAllTemp (env.osTempDir ++ "/" ++ "mcp-destroyer-" ++ env.suffix)]
      ∧ (destroy cfg env w appName).2.remote = w.remote
      ∧ (destroy cfg env w appName).2.commits = w.commits := by
  have hj1 : filepath.Join [filepath.Join [cfg.manifestPath, appName]]
      = filepath.Join [cfg.manifestPath, appName] :=
    filepath.Join_Join [cfg.manifestPath, appName] []
  have hj2 : filepath.Join [filepath.Join [cfg.argocdAppPath, appName ++ ".yaml"]]
      = filepath.Join [cfg.argocdAppPath, appName ++ ".yaml"] :=
    filepath.Join_Join [cfg.argocdAppPath, appName ++ ".yaml"] []
  have hget : w.remote.get (filepath.Join [cfg.argocdAppPath, appName ++ ".yaml"]) = none :=
    Tree.existsAt_false _ _ hfile _ (under_self _)
  have heq : ∃ d, destroy cfg env w appName
      = ((NewToolResultText ("App " ++ appName ++ " does not exist or already destroyed"), none),
          osRemoveAllTemp env
            (({ w.emit (Event.mkdirTemp (env.osTempDir ++ "/" ++ "mcp-destroyer-" ++ env.suffix))
                with disk := (env.osTempDir ++ "/" ++ "mcp-destroyer-" ++ env.suffix)
                  :: w.disk }.emitAll
              [Event.plainClone (env.osTempDir ++ "/" ++ "mcp-destroyer-" ++ env.suffix)
                  cfg.githubURL,
                Event.worktree,
                Event.stat (filepath.Join [cfg.manifestPath, appName]),
                Event.removeAll (filepath.Join [cfg.manifestPath, appName]),
                Event.remove (filepath.Join [cfg.argocdAppPath, appName ++ ".yaml"]),
                Event.add ".",
                Event.status]).onDisk d)
            (env.osTempDir ++ "/" ++ "mcp-destroyer-" ++ env.suffix)) := by
    unfold destroy osMkdirTemp destroyBody gitPlainClone repoWorktree destroyRemoveManifests
      worktreeStat destroyPublish osRemoveAll osRemove worktreeAdd worktreeStatus
    simp only [hmk, hcl, hwt, hj1, hj2, hra, hrm, hadd, hst, hdir, hfile, hget,
      removeUnder_absent _ _ hdir, stage_root, Tree.same_refl, Bool.and_self,
      World.emit_eq, World.emitAll_emitAll, World.onDisk_emitAll, World.onDisk_onDisk,
      World.emitAll_disk, World.onDisk_disk, List.singleton_append, List.cons_append,
      List.nil_append, World.emitAll_remote, World.onDisk_remote]
    by_cases hmem : filepath.Join [env.osTempDir ++ "/" ++ "mcp-destroyer-" ++ env.suffix,
        filepath.Join [cfg.argocdAppPath, appName ++ ".yaml"]]
        ∈ Disk.removeAll ((env.osTempDir ++ "/" ++ "mcp-destroyer-" ++ env.suffix) :: w.disk)
          (filepath.Join [env.osTempDir ++ "/" ++ "mcp-destroyer-" ++ env.suffix,
            filepath.Join [cfg.manifestPath, appName]])
    · exact ⟨Disk.remove
          (Disk.removeAll ((env.osTempDir ++ "/" ++ "mcp-destroyer-" ++ env.suffix) :: w.disk)
            (filepath.Join [env.osTempDir ++ "/" ++ "mcp-destroyer-" ++ env.suffix,
              filepath.Join [cfg.manifestPath, appName]]))
          (filepath.Join [env.osTempDir ++ "/" ++ "mcp-destroyer-" ++ env.suffix,
            filepath.Join [cfg.argocdAppPath, appName ++ ".yaml"]]),
        by simp [hmem, RemoveError.isNotExist, World.emitAll, World.onDisk, Tree.same_refl]⟩
    · exact ⟨Disk.removeAll
          ((env.osTempDir ++ "/" ++ "mcp-destroyer-" ++ env.suffix) :: w.disk)
          (filepath.Join [env.osTempDir ++ "/" ++ "mcp-destroyer-" ++ env.suffix,
            filepath.Join [cfg.manifestPath, appName]]),
        by simp [hmem, RemoveError.isNotExist, World.emitAll, World.onDisk, Tree.same_refl]⟩
  obtain ⟨d, heq⟩ := heq
  rw [heq]
  refine ⟨rfl, rfl, ?_, ?_, ?_⟩ <;> simp [World.emitAll, World.emit]

/-- C3, on an example: destroying an application that was never deployed. -/
theorem destroy_absent_noop_witness :
    sampleWorld.remote.existsAt (filepath.Join [sampleConfig.manifestPath, "ghost"]) = false
      ∧ sampleWorld.remote.existsAt
          (filepath.Join [sampleConfig.argocdAppPath, "ghost" ++ ".yaml"]) = false
      ∧ sampleEnv.faults.mkdirTemp = none ∧ sampleEnv.faults.plainClone = none
      ∧ sampleEnv.faults.worktree = none
      ∧ sampleEnv.faults.removeAll (filepath.Join [sampleConfig.manifestPath, "ghost"]) = none
      ∧ sampleEnv.faults.remove
          (filepath.Join [sampleConfig.argocdAppPath, "ghost" ++ ".yaml"]) = none
      ∧ sampleEnv.faults.add "." = none ∧ sampleEnv.faults.status = none
      ∧ (destroy sampleConfig sampleEnv sampleWorld "ghost").1
          = (NewToolResultText "App ghost does not exist or already destroyed", none) :=
  ⟨by decide, by decide, rfl, rfl, rfl, rfl, rfl, rfl, rfl,
    (destroy_absent_noop sampleConfig sampleEnv sampleWorld "ghost" (by decide) (by decide)
      rfl rfl rfl rfl rfl rfl rfl).1⟩

/-! ## C4: the reachability probe -/

/-- C4. For every URL, `checkReachability` returns true exactly when the HTTP GET yields a
response whose status code `c` satisfies `200 <= c < 400`; it returns false for every
transport error and for every response with `c < 200` or `c >= 400`, 404 among them.  Its
result is a plain boolean: there is no error to return. -/
theorem checkReachability_iff (env : Env) (w : World) (url : String) :
    ((checkReachability env w url).1 = true
        ↔ ∃ c, env.httpGet url = .ok c ∧ 200 ≤ c ∧ c < 400)
      ∧ (∀ err, env.httpGet url = .error err → (checkReachability env w url).1 = false)
      ∧ (∀ c, env.httpGet url = .ok c → (c < 200 ∨ 400 ≤ c) →
          (checkReachability env w url).1 = false)
      ∧ (env.httpGet url = .ok 404 → (checkReachability env w url).1 = false) := by
  unfold checkReachability
  cases h : env.httpGet url with
  | error e => simp
  | ok c =>
    simp only [ge_iff_le, Bool.and_eq_true, decide_eq_true_eq, Except.ok.injEq, exists_eq_left',
      reduceCtorEq, false_implies, implies_true, true_and, forall_eq']
    refine ⟨?_, ?_⟩
    · intro hc
      rcases hc with hc | hc
      · simp [Int.not_le.2 hc]
      · simp [Int.not_lt.2 hc]
    · intro hc
      subst hc
      decide

/-! ## C10: the ArgoCD finding of a fetched Application -/

theorem NestedFieldNoCopy_some (fields : List String) :
    ∀ (v x : JVal), v.fieldAt fields = some x → NestedFieldNoCopy v fields = (x, true, none) := by
  induction fields with
  | nil =>
    intro v x h
    cases v <;> simp_all [JVal.fieldAt, NestedFieldNoCopy]
  | cons f rest ih =>
    intro v x h
    cases v with
    | obj m =>
      simp only [JVal.fieldAt] at h
      simp only [NestedFieldNoCopy]
      cases hf : JVal.field m f with
      | none => simp [hf] at h
      | some v' =>
        simp only [hf] at h ⊢
        exact ih v' x h
    | null => simp [JVal.fieldAt] at h
    | bool b => simp [JVal.fieldAt] at h
    | num n => simp [JVal.fieldAt] at h
    | str s => simp [JVal.fieldAt] at h
    | arr xs => simp [JVal.fieldAt] at h

theorem NestedFieldNoCopy_none (fields : List String) :
    ∀ (v : JVal), v.fieldAt fields = none → (NestedFieldNoCopy v fields).2.1 = false := by
  induction fields with
  | nil =>
    intro v h
    cases v <;> simp [JVal.fieldAt] at h
  | cons f rest ih =>
    intro v h
    cases v with
    | obj m =>
      simp only [JVal.fieldAt] at h
      simp only [NestedFieldNoCopy]
      cases hf : JVal.field m f with
      | none => rfl
      | some v' =>
        simp only [hf] at h ⊢
        exact ih v' h
    | null => rfl
    | bool b => rfl
    | num n => rfl
    | str s => rfl
    | arr xs => rfl

theorem NestedString_found (v : JVal) (fields : List String) (s : String)
    (h : v.fieldAt fields = some (.str s)) : NestedString v fields = (s, true, none) := by
  unfold NestedString
  rw [NestedFieldNoCopy_some fields v _ h]
  rfl

theorem NestedString_absent (v : JVal) (fields : List String) (h : v.fieldAt fields = none) :
    (NestedString v fields).2.1 = false := by
  have h1 := NestedFieldNoCopy_none fields v h
  unfold NestedString
  generalize NestedFieldNoCopy v fields = r at h1
  obtain ⟨val, found, err⟩ := r
  simp only at h1
  subst h1
  rfl

theorem NestedString_value (v : JVal) (fields : List String) :
    (NestedString v fields).1 = v.stringAt fields := by
  unfold JVal.stringAt
  cases h : v.fieldAt fields with
  | none =>
    have h1 := NestedFieldNoCopy_none fields v h
    unfold NestedString
    generalize NestedFieldNoCopy v fields = r at h1
    obtain ⟨val, found, err⟩ := r
    simp only at h1
    subst h1
    rfl
  | some x =>
    unfold NestedString
    rw [NestedFieldNoCopy_some fields v x h]
    cases x <;> rfl

/-- C10. For every `Application` object fetched successfully (the kubeconfig loads, the
client is built, the `Get` call does not fail and the resource `appName` exists in the
namespace `argocd`), `checkArgoStatus` returns no error, and: when the nested field
`status.health.status` holds a string `h`, the finding is
`✅ ArgoCD App found. Health: h, Sync: s`, `s` being the string at `status.sync.status`
(the empty string when that field is absent); when `status.health.status` is absent, the
finding is `⚠️ ArgoCD App found but status unknown`. -/
theorem checkArgoStatus_fetched (cfg : Config) (env : Env) (w : World) (appName : String)
    (app : List (String × JVal))
    (hb : env.faults.buildConfig = none) (hn : env.faults.newClient = none)
    (hg : env.faults.getApplication = none)
    (happ : w.applications.lookup ("argocd", appName) = some app) :
    (checkArgoStatus cfg env w appName).1.2 = none
      ∧ (∀ h, (JVal.obj app).fieldAt ["status", "health", "status"] = some (.str h) →
          (checkArgoStatus cfg env w appName).1.1
            = "✅ ArgoCD App found. Health: " ++ h ++ ", Sync: "
              ++ (JVal.obj app).stringAt ["status", "sync", "status"])
      ∧ ((JVal.obj app).fieldAt ["status", "health", "status"] = none →
          (checkArgoStatus cfg env w appName).1.1 = "⚠️ ArgoCD App found but status unknown")
      ∧ ((JVal.obj app).fieldAt ["status", "sync", "status"] = none →
          (JVal.obj app).stringAt ["status", "sync", "status"] = "") := by
  have heq : (checkArgoStatus cfg env w appName).1
      = if (NestedString (.obj app) ["status", "health", "status"]).2.1 then
          ("✅ ArgoCD App found. Health: "
              ++ (NestedString (.obj app) ["status", "health", "status"]).1
              ++ ", Sync: " ++ (NestedString (.obj app) ["status", "sync", "status"]).1, none)
        else ("⚠️ ArgoCD App found but status unknown", none) := by
    unfold checkArgoStatus buildConfigFromFlags newForConfig getApplication
    simp only [hb, hn, hg, World.emit_eq, World.emitAll_emitAll, World.emitAll_applications, happ]
    split <;> rfl
  refine ⟨?_, ?_, ?_, ?_⟩
  · rw [heq]; split <;> rfl
  · intro h hh
    rw [heq, NestedString_found _ _ h hh, NestedString_value]
    rfl
  · intro hh
    rw [heq, NestedString_absent _ _ hh]
    rfl
  · intro hs
    simp [JVal.stringAt, hs]

/-- C10, on an example: a healthy, synced application. -/
theorem checkArgoStatus_fetched_witness :
    sampleEnv.faults.buildConfig = none ∧ sampleEnv.faults.newClient = none
      ∧ sampleEnv.faults.getApplication = none
      ∧ sampleCluster.applications.lookup ("argocd", "x") = some sampleApplication
      ∧ (checkArgoStatus sampleConfig sampleEnv sampleCluster "x").1
        = ("✅ ArgoCD App found. Health: Healthy, Sync: Synced", none) :=
  ⟨rfl, rfl, rfl, rfl,
    Prod.ext
      ((checkArgoStatus_fetched sampleConfig sampleEnv sampleCluster "x"
        sampleApplication rfl rfl rfl rfl).2.1 "Healthy" rfl)
      ((checkArgoStatus_fetched sampleConfig sampleEnv sampleCluster "x"
        sampleApplication rfl rfl rfl rfl).1)⟩

/-! ## C8: deploying an application the repository does not hold -/

theorem Join_eq_Clean (x : String) (rest : List String) (hx : x ≠ "") :
    filepath.Join (x :: rest)
      = ⟨filepath.cleanChars (filepath.joinSlash ((x :: rest).map String.data))⟩ := by
  apply filepath.Join_of_dropWhile
  have : x.data ≠ [] := fun e => hx (String.ext e)
  simp [List.dropWhile_cons, this]

theorem desiredManifests_paths (cfg : Config) (tpl : Templates) (appName image : String)
    (names : List String) :
    ∀ R, desiredManifests cfg tpl appName image names = some R →
      R.map Prod.fst = names.map (fun t => filepath.Join [cfg.manifestPath, appName, t]) := by
  induction names with
  | nil => intro R h; simp only [desiredManifests, Option.some.injEq] at h; subst h; rfl
  | cons t rest ih =>
    intro R h
    simp only [desiredManifests] at h
    cases h1 : renderFile tpl (templateData cfg appName image) t with
    | none => simp [h1] at h
    | some text =>
      cases h2 : desiredManifests cfg tpl appName image rest with
      | none => simp [h1, h2] at h
      | some R' =>
        simp only [h1, h2, Option.some.injEq] at h
        subst h
        simp [ih R' h2]

theorem manifestCalls_paths (cfg : Config) (appName : String) (names : List String) :
    (manifestCalls cfg appName names).filterMap Event.created
        = names.map (fun t => filepath.Join [cfg.manifestPath, appName, t])
      ∧ (manifestCalls cfg appName names).filterMap Event.staged
        = names.map (fun t => filepath.Join [cfg.manifestPath, appName, t]) := by
  induction names with
  | nil => exact ⟨rfl, rfl⟩
  | cons t rest ih =>
    simp [manifestCalls, Event.created, Event.staged, ih.1, ih.2]

/-- C8. For every app name and image: when no external call fails, every template parses
and executes (the desired state `R` exists), and the repository holds nothing at the four
paths of the application, `deploy` returns the result that is not error-flagged with text
`Successfully deployed <name>. Git updated.`; the files it creates and the paths it stages
are exactly the four paths `filepath.Join(manifestPath, name, "deployment.yaml")`,
`.../service.yaml`, `.../ingress.yaml` and `filepath.Join(argocdAppPath, name+".yaml")`,
which are the clean forms of `<manifestPath>/<name>/deployment.yaml`, ... and
`<argocdAppPath>/<name>.yaml` when the two configured prefixes are not empty; exactly one
commit is created, with message `Deploy application <name> with image <image>`, and pushed
once; the remote gains this commit and then holds the rendered files at the four paths and
what it held before elsewhere. -/
theorem deploy_fresh_application (cfg : Config) (tpl : Templates) (env : Env) (w : World)
    (appName image : String) (R : List (String × String))
    (hf : env.faults = Faults.none) (hR : desiredState cfg tpl appName image = some R)
    (hnew : ∀ p ∈ deployPaths cfg appName, w.remote.get p = none) :
    (deploy cfg tpl env w appName image).1
        = (NewToolResultText ("Successfully deployed " ++ appName ++ ". Git updated."), none)
      ∧ (deploy cfg tpl env w appName image).1.1.isError = false
      ∧ (((deploy cfg tpl env w appName image).2.trace.drop w.trace.length).filterMap
          Event.created = deployPaths cfg appName)
      ∧ (((deploy cfg tpl env w appName image).2.trace.drop w.trace.length).filterMap
          Event.staged = deployPaths cfg appName)
      ∧ (((deploy cfg tpl env w appName image).2.trace.drop w.trace.length).filterMap
          Event.committed = ["Deploy application " ++ appName ++ " with image " ++ image])
      ∧ (((deploy cfg tpl env w appName image).2.trace.drop w.trace.length).filter
          Event.isPush = [Event.push])
      ∧ (deploy cfg tpl env w appName image).2.commits
          = ("Deploy application " ++ appName ++ " with image " ++ image) :: w.commits
      ∧ R.map Prod.fst = deployPaths cfg appName
      ∧ (∀ q, (deploy cfg tpl env w appName image).2.remote.get q
          = overlay R q (w.remote.get q))
      ∧ (cfg.manifestPath ≠ "" → cfg.argocdAppPath ≠ "" →
          deployPaths cfg appName
            = [filepath.Clean (cfg.manifestPath ++ "/" ++ appName ++ "/" ++ "deployment.yaml"),
                filepath.Clean (cfg.manifestPath ++ "/" ++ appName ++ "/" ++ "service.yaml"),
                filepath.Clean (cfg.manifestPath ++ "/" ++ appName ++ "/" ++ "ingress.yaml"),
                filepath.Clean (cfg.argocdAppPath ++ "/" ++ appName ++ ".yaml")]) := by
  obtain ⟨Rm, text, hRm, htext, hReq⟩ := desiredState_some cfg tpl appName image R hR
  have hpaths : R.map Prod.fst = deployPaths cfg appName := by
    rw [hReq, List.map_append, desiredManifests_paths cfg tpl appName image manifests Rm hRm]
    rfl
  have hdirty : ¬ ∀ q, overlay R q (w.remote.get q) = w.remote.get q := by
    intro hall
    have h4 := hall (filepath.Join [cfg.argocdAppPath, appName ++ ".yaml"])
    rw [hnew _ (by simp [deployPaths]), hReq, overlay_snoc] at h4
    simp at h4
  obtain ⟨hres, hrem, hcom, htr⟩ := (deploy_noFaults cfg tpl env w appName image R hf hR).2 hdirty
  have hdrop : (deploy cfg tpl env w appName image).2.trace.drop w.trace.length
      = deployCalls cfg env appName
        ++ [Event.commit ("Deploy application " ++ appName ++ " with image " ++ image),
            Event.push,
            Event.removeAllTemp (env.osTempDir ++ "/" ++ "mcp-deployer-" ++ env.suffix)] := by
    rw [htr, List.append_assoc, List.drop_left]
  have hmc := manifestCalls_paths cfg appName manifests
  have hmk := manifestCalls_committed cfg appName manifests
  refine ⟨hres, by rw [hres]; rfl, ?_, ?_, ?_, ?_, hcom, hpaths, hrem, ?_⟩
  · rw [hdrop]
    simp [deployCalls, deployBodyCalls, Event.created, hmc.1, deployPaths]
    simp [manifests]
  · rw [hdrop]
    simp [deployCalls, deployBodyCalls, Event.staged, hmc.2, deployPaths]
    simp [manifests]
  · rw [hdrop]
    simp [deployCalls, deployBodyCalls, Event.committed, hmk.1]
  · rw [hdrop]
    simp [deployCalls, deployBodyCalls, Event.isPush, hmk.2]
  · intro hm ha
    simp only [deployPaths, Join_eq_Clean _ _ hm, Join_eq_Clean _ _ ha, filepath.Clean,
      List.map_cons, List.map_nil, filepath.joinSlash, String.data_append]
    simp

/-- C8, on the scenario of the specification: `deploy("checkout-svc",
"registry/checkout:1.2")` on a repository without the application. -/
theorem deploy_fresh_application_witness :
    sampleEnv.faults = Faults.none
      ∧ desiredState sampleConfig sampleTemplates "checkout-svc" "registry/checkout:1.2"
          = some sampleDesired
      ∧ (∀ p ∈ deployPaths sampleConfig "checkout-svc", sampleWorld.remote.get p = none)
      ∧ (deploy sampleConfig sampleTemplates sampleEnv sampleWorld "checkout-svc"
          "registry/checkout:1.2").1
        = (NewToolResultText "Successfully deployed checkout-svc. Git updated.", none)
      ∧ deployPaths sampleConfig "checkout-svc"
        = ["manifests/checkout-svc/deployment.yaml", "manifests/checkout-svc/service.yaml",
            "manifests/checkout-svc/ingress.yaml", "argocd-apps/checkout-svc.yaml"] :=
  ⟨rfl, by decide, by decide,
    (deploy_fresh_application sampleConfig sampleTemplates sampleEnv sampleWorld "checkout-svc"
      "registry/checkout:1.2" sampleDesired rfl (by decide) (by decide)).1,
    by decide⟩

/-! ## C5, C6, C7: where the code departs from the specification -/

/-- Whatever makes the `Get` of the `Application` fail, `checkArgoStatus` reports the
not-found finding with the cause, and no error. -/
theorem checkArgoStatus_get_fails (cfg : Config) (env : Env) (w : World) (appName cause : String)
    (hb : env.faults.buildConfig = none) (hn : env.faults.newClient = none)
    (hg : env.faults.getApplication = some cause) :
    (checkArgoStatus cfg env w appName).1
      = ("❌ ArgoCD Application not found: " ++ cause, none) := by
  unfold checkArgoStatus buildConfigFromFlags newForConfig getApplication
  simp only [hb, hn, hg]

/-- C5 fails on the code. With the cluster unreachable (the `Get` of the `Application` fails
with `connection refused`, which is no not-found), `checkArgoStatus` returns the not-found
finding and no error, so the ArgoCD line of the report reads
`❌ ArgoCD Application not found: <cause>` and not `Error checking ArgoCD: <cause>`. -/
theorem unreachable_cluster_reported_not_found :
    (checkArgoStatus sampleConfig unreachableEnv sampleWorld "x").1
        = ("❌ ArgoCD Application not found: dial tcp 10.0.0.1:6443: connect: connection refused",
            none)
      ∧ argoLine (checkArgoStatus sampleConfig unreachableEnv sampleWorld "x").1
        ≠ "Error checking ArgoCD: dial tcp 10.0.0.1:6443: connect: connection refused"
      ∧ (status sampleConfig unreachableEnv sampleWorld "x").1.1.text
        = "Status for application: x\n❌ Manifests NOT found in Git\n"
          ++ "❌ ArgoCD Application not found: "
          ++ "dial tcp 10.0.0.1:6443: connect: connection refused\n"
          ++ "✅ Ingress reachable: http://x.tykus.net" := by
  refine ⟨by rfl, by decide, by rfl⟩

/-- The part of C6 the code keeps: when the lookup of the file cannot fail but by absence,
`checkGitStatus` returns an error exactly when the clone or the read of HEAD, of the commit
or of the tree fails (the error is that failure), and otherwise returns whether the
descriptor is in the tree of the remote HEAD. -/
theorem checkGitStatus_without_lookup_failure (cfg : Config) (env : Env) (w : World)
    (appName : String)
    (hfile : env.faults.file (cfg.argocdAppPath ++ "/" ++ appName ++ ".yaml") = none) :
    (checkGitStatus cfg env w appName).1
      = match env.faults.cloneMemory, env.faults.head, env.faults.commitObject,
          env.faults.tree with
        | some err, _, _, _ => (false, some err)
        | none, some err, _, _ => (false, some err)
        | none, none, some err, _ => (false, some err)
        | none, none, none, some err => (false, some err)
        | none, none, none, none =>
          ((w.remote.get (cfg.argocdAppPath ++ "/" ++ appName ++ ".yaml")).isSome, none) := by
  unfold checkGitStatus gitCloneMemory repoHead repoCommitObject commitTree treeFile
  cases env.faults.cloneMemory with
  | some e => rfl
  | none =>
    cases env.faults.head with
    | some e => rfl
    | none =>
      cases env.faults.commitObject with
      | some e => rfl
      | none =>
        cases env.faults.tree with
        | some e => rfl
        | none =>
          simp only [hfile, World.emit_eq, World.emitAll_emitAll, World.emitAll_remote]
          cases w.remote.get (cfg.argocdAppPath ++ "/" ++ appName ++ ".yaml") <;> rfl

/-- C6 fails on the code. The repository holds the descriptor of `x`, the clone and the
reads of HEAD, commit and tree succeed, and the lookup of the file fails for a reason other
than absence (`unexpected EOF`): `checkGitStatus` returns `(false, nil)`, and the Git line
of the report reads `❌ Manifests NOT found in Git` and not `Error checking git: <cause>`. -/
theorem lookup_failure_reported_absent :
    deployedWorld.remote.get (sampleConfig.argocdAppPath ++ "/" ++ "x" ++ ".yaml")
        = some "kind: Application"
      ∧ (checkGitStatus sampleConfig unreadableEnv deployedWorld "x").1 = (false, none)
      ∧ gitLine (checkGitStatus sampleConfig unreadableEnv deployedWorld "x").1
        = "❌ Manifests NOT found in Git"
      ∧ gitLine (checkGitStatus sampleConfig unreadableEnv deployedWorld "x").1
        ≠ "Error checking git: unexpected EOF"
      ∧ (checkGitStatus sampleConfig sampleEnv deployedWorld "x").1 = (true, none) := by
  refine ⟨by rfl, by rfl, by rfl, by decide, by rfl⟩

/-- The part of C7 the code keeps: when the descriptor prefix is not empty and
`<argocdAppPath>/<name>.yaml` is a clean path, the path `deploy` and `destroy` build with
`filepath.Join` is the path `checkGitStatus` looks up. -/
theorem descriptor_paths_agree_when_clean (cfg : Config) (appName : String)
    (hne : cfg.argocdAppPath ≠ "")
    (hclean : filepath.Clean (cfg.argocdAppPath ++ "/" ++ appName ++ ".yaml")
      = cfg.argocdAppPath ++ "/" ++ appName ++ ".yaml") :
    filepath.Join [cfg.argocdAppPath, appName ++ ".yaml"]
      = cfg.argocdAppPath ++ "/" ++ appName ++ ".yaml" := by
  rw [← hclean, Join_eq_Clean _ _ hne]
  simp [filepath.Clean, filepath.joinSlash, String.data_append]

/-- C7 fails on the code. With the descriptor prefix `argocd-apps/` and the name `x`,
`deploy` writes and stages the descriptor at `argocd-apps/x.yaml` (and `destroy` removes this
path), while `checkGitStatus` looks up `argocd-apps//x.yaml`: after a successful `deploy` the
remote holds the descriptor, and `checkGitStatus` still answers `(false, nil)`. -/
theorem descriptor_path_differs_with_trailing_slash :
    filepath.Join [slashConfig.argocdAppPath, "x" ++ ".yaml"] = "argocd-apps/x.yaml"
      ∧ slashConfig.argocdAppPath ++ "/" ++ "x" ++ ".yaml" = "argocd-apps//x.yaml"
      ∧ filepath.Join [slashConfig.argocdAppPath, "x" ++ ".yaml"]
        ≠ slashConfig.argocdAppPath ++ "/" ++ "x" ++ ".yaml"
      ∧ (deploy slashConfig sampleTemplates sampleEnv sampleWorld "x" "img:1").1
        = (NewToolResultText "Successfully deployed x. Git updated.", none)
      ∧ ((deploy slashConfig sampleTemplates sampleEnv sampleWorld "x" "img:1").2.remote.get
          "argocd-apps/x.yaml").isSome = true
      ∧ (checkGitStatus slashConfig sampleEnv
          (deploy slashConfig sampleTemplates sampleEnv sampleWorld "x" "img:1").2 "x").1
        = (false, none) := by
  refine ⟨by decide, by decide, by decide, by rfl, by rfl, by rfl⟩

/-! ## C9: what the handlers check -/

theorem stringArg_some (request : CallToolRequest) (key s : String)
    (h : request.stringArg key = some s) :
    ∃ args, request.arguments = .obj args ∧ JVal.field args key = some (.str s) := by
  unfold CallToolRequest.stringArg at h
  cases hr : request.arguments with
  | obj args =>
    simp only [hr] at h
    cases hf : JVal.field args key with
    | none => simp [hf] at h
    | some v =>
      cases v <;> simp_all
  | null => simp [hr] at h
  | bool b => simp [hr] at h
  | num n => simp [hr] at h
  | str s => simp [hr] at h
  | arr xs => simp [hr] at h

theorem stringArg_none (request : CallToolRequest) (key : String)
    (h : request.stringArg key = none) :
    (∀ args, request.arguments ≠ .obj args)
      ∨ ∃ args, request.arguments = .obj args ∧ ∀ s, JVal.field args key ≠ some (.str s) := by
  unfold CallToolRequest.stringArg at h
  cases hr : request.arguments with
  | obj args =>
    right
    refine ⟨args, rfl, ?_⟩
    simp only [hr] at h
    intro s hs
    simp [hs] at h
  | null => left; intro args; simp
  | bool b => left; intro args; simp
  | num n => left; intro args; simp
  | str s => left; intro args; simp
  | arr xs => left; intro args; simp

/-- C9 fails on the code. The name `Bad Name` (an upper-case letter, a blank) is no DNS
label, and no handler rejects it: `deploy` clones, commits, pushes and reports success,
`destroy` and `status` run and return results that are not error-flagged, and `update`
answers only after it called the cluster. -/
theorem invalid_name_is_not_rejected :
    (deployHandler sampleConfig sampleTemplates sampleEnv sampleWorld badNameRequest).1
        = (NewToolResultText "Successfully deployed Bad Name. Git updated.", none)
      ∧ (deployHandler sampleConfig sampleTemplates sampleEnv sampleWorld
          badNameRequest).2.commits = ["Deploy application Bad Name with image img:1", "init"]
      ∧ (destroyHandler sampleConfig sampleEnv sampleWorld badNameRequest).1.1.isError = false
      ∧ (destroyHandler sampleConfig sampleEnv sampleWorld badNameRequest).2.trace ≠ []
      ∧ (statusHandler sampleConfig sampleEnv sampleWorld badNameRequest).1.1.isError = false
      ∧ (statusHandler sampleConfig sampleEnv sampleWorld badNameRequest).2.trace ≠ []
      ∧ (updateHandler sampleConfig sampleEnv sampleWorld badNameRequest).2.trace
        = [Event.buildConfig "/home/bot/.kube/config", Event.newClient,
            Event.getDeployment "applications" "Bad Name"] := by
  refine ⟨by rfl, by rfl, by rfl, by decide, by rfl, by decide, by rfl⟩

/-- C9 as the code has it. The handlers check the types of the arguments and nothing else.
When the arguments are not a map or `app_name` is no string (for `deploy` also when `image`
is no string), each handler returns an error-flagged result and leaves the world as it
was, its trace included: no Git, filesystem or cluster operation took place.  When
`app_name` is a string, whatever it is, each handler returns what its operation returns for
that very name. -/
theorem handlers_check_argument_types_only (cfg : Config) (tpl : Templates) (env : Env)
    (w : World) (request : CallToolRequest) :
    (request.stringArg "app_name" = none →
        (deployHandler cfg tpl env w request).1.1.isError = true
        ∧ (deployHandler cfg tpl env w request).2 = w
        ∧ (destroyHandler cfg env w request).1.1.isError = true
        ∧ (destroyHandler cfg env w request).2 = w
        ∧ (statusHandler cfg env w request).1.1.isError = true
        ∧ (statusHandler cfg env w request).2 = w
        ∧ (updateHandler cfg env w request).1.1.isError = true
        ∧ (updateHandler cfg env w request).2 = w)
      ∧ (∀ appName, request.stringArg "app_name" = some appName →
        (request.stringArg "image" = none →
          (deployHandler cfg tpl env w request).1.1.isError = true
          ∧ (deployHandler cfg tpl env w request).2 = w)
        ∧ (∀ image, request.stringArg "image" = some image →
          deployHandler cfg tpl env w request = deploy cfg tpl env w appName image)
        ∧ destroyHandler cfg env w request = destroy cfg env w appName
        ∧ statusHandler cfg env w request = status cfg env w appName
        ∧ updateHandler cfg env w request = update cfg env w appName) := by
  constructor
  · intro h
    rcases stringArg_none request "app_name" h with hno | ⟨args, hargs, hf⟩
    · unfold deployHandler destroyHandler statusHandler updateHandler
      cases hr : request.arguments with
      | obj args => exact absurd hr (hno args)
      | null => exact ⟨rfl, rfl, rfl, rfl, rfl, rfl, rfl, rfl⟩
      | bool b => exact ⟨rfl, rfl, rfl, rfl, rfl, rfl, rfl, rfl⟩
      | num n => exact ⟨rfl, rfl, rfl, rfl, rfl, rfl, rfl, rfl⟩
      | str s => exact ⟨rfl, rfl, rfl, rfl, rfl, rfl, rfl, rfl⟩
      | arr xs => exact ⟨rfl, rfl, rfl, rfl, rfl, rfl, rfl, rfl⟩
    · unfold deployHandler destroyHandler statusHandler updateHandler
      rw [hargs]
      dsimp only
      cases hv : JVal.field args "app_name" with
      | none => exact ⟨rfl, rfl, rfl, rfl, rfl, rfl, rfl, rfl⟩
      | some v =>
        cases v with
        | str s => exact absurd hv (hf s)
        | null => exact ⟨rfl, rfl, rfl, rfl, rfl, rfl, rfl, rfl⟩
        | bool b => exact ⟨rfl, rfl, rfl, rfl, rfl, rfl, rfl, rfl⟩
        | num n => exact ⟨rfl, rfl, rfl, rfl, rfl, rfl, rfl, rfl⟩
        | arr xs => exact ⟨rfl, rfl, rfl, rfl, rfl, rfl, rfl, rfl⟩
        | obj m => exact ⟨rfl, rfl, rfl, rfl, rfl, rfl, rfl, rfl⟩
  · intro appName h
    obtain ⟨args, hargs, hf⟩ := stringArg_some request "app_name" appName h
    unfold deployHandler destroyHandler statusHandler updateHandler
    rw [hargs]
    dsimp only
    rw [hf]
    dsimp only
    refine ⟨?_, ?_, rfl, rfl, rfl⟩
    · intro hi
      rcases stringArg_none request "image" hi with hno | ⟨args', hargs', hf'⟩
      · exact absurd hargs (hno args)
      · rw [hargs] at hargs'
        cases hargs'
        cases hv : JVal.field args "image" with
        | none => exact ⟨rfl, rfl⟩
        | some v =>
          cases v with
          | str s => exact absurd hv (hf' s)
          | null => exact ⟨rfl, rfl⟩
          | bool b => exact ⟨rfl, rfl⟩
          | num n => exact ⟨rfl, rfl⟩
          | arr xs => exact ⟨rfl, rfl⟩
          | obj m => exact ⟨rfl, rfl⟩
    · intro image hi
      obtain ⟨args', hargs', hf'⟩ := stringArg_some request "image" image hi
      rw [hargs] at hargs'
      cases hargs'
      simp only [hf']

/-! ## C13: the rolling restart -/

theorem mapSet_lookup_self (m : List (String × String)) (key value : String) :
    (mapSet m key value).lookup key = some value := by
  simp [mapSet, List.lookup]

theorem lookup_filter_ne (m : List (String × String)) (key k : String) (hk : k ≠ key) :
    (m.filter (fun e => decide (e.1 ≠ key))).lookup k = m.lookup k := by
  induction m with
  | nil => rfl
  | cons e m ih =>
    obtain ⟨a, b⟩ := e
    have ih' := ih
    simp only [ne_eq, decide_not] at ih'
    by_cases ha : a = key
    · subst ha
      have hne : (k == a) = false := by simpa using hk
      simp [List.filter_cons, List.lookup, hne, ih']
    · by_cases hka : k = a
      · subst hka
        simp [List.filter_cons, ha, List.lookup]
      · have hne : (k == a) = false := by simpa using hka
        simp [List.filter_cons, ha, List.lookup, hne, ih']

theorem mapSet_lookup_other (m : List (String × String)) (key value k : String)
    (hk : k ≠ key) : (mapSet m key value).lookup k = m.lookup k := by
  have hne : (k == key) = false := by simpa using hk
  simp only [mapSet, List.lookup, hne]
  exact lookup_filter_ne m key k hk

theorem getDeployment_result (env : Env) (w : World) (evs : List Event) (ns name : String) :
    (getDeployment env (w.emitAll evs) ns name).1 = (getDeployment env w ns name).1 := by
  unfold getDeployment
  cases env.faults.getDeployment with
  | some e => rfl
  | none =>
    simp only [World.emitAll_deployments]
    cases w.deployments.lookup (ns, name) <;> rfl

/-- C13. For every app name, when the kubeconfig loads and the client is built: if fetching
the `Deployment` named `appName` in the configured namespace succeeds with `d`, then what
`update` submits to the cluster (the argument of its `Update` call) is `d.restarted now`,
that is `d` with the pod-template annotation `kubectl.kubernetes.io/restartedAt` set to the
current time (created in a fresh map when the annotation map was nil, overwritten when
present), every other annotation and every other field as fetched; when that `Update`
succeeds the result is not error-flagged and the cluster holds the submitted object.  If the
fetch fails with a cause (not found among them), no `Update` is issued, the cluster is
unchanged, and the result is error-flagged with text
`Failed to get deployment <appName>: <cause>`. -/
theorem update_sets_restartedAt (cfg : Config) (env : Env) (w : World) (appName : String)
    (hb : env.faults.buildConfig = none) (hn : env.faults.newClient = none) :
    (∀ d, (getDeployment env w cfg.kubeNamespace appName).1 = .ok d →
        update cfg env w appName
            = (match updateDeployment env
                (w.emitAll [Event.buildConfig cfg.kubeconfigPath, Event.newClient,
                  Event.getDeployment cfg.kubeNamespace appName])
                cfg.kubeNamespace appName (d.restarted env.now) with
              | (some err, w') =>
                ((NewToolResultError ("Failed to update deployment " ++ appName ++ ": " ++ err),
                  none), w')
              | (none, w') =>
                ((NewToolResultText ("Successfully triggered rolling restart for deployment "
                  ++ appName ++ " in namespace " ++ cfg.kubeNamespace), none), w'))
          ∧ (d.restarted env.now).rest = d.rest
          ∧ (∃ m, (d.restarted env.now).annotations = some m
              ∧ m.lookup restartedAtKey = some env.now
              ∧ ∀ k, k ≠ restartedAtKey → m.lookup k = (d.annotations.getD []).lookup k)
          ∧ (env.faults.updateDeployment = none →
              (update cfg env w appName).1.1.isError = false
              ∧ (update cfg env w appName).2.deployments.lookup (cfg.kubeNamespace, appName)
                = some (d.restarted env.now)
              ∧ (update cfg env w appName).2.trace
                = w.trace ++ [Event.buildConfig cfg.kubeconfigPath, Event.newClient,
                    Event.getDeployment cfg.kubeNamespace appName,
                    Event.updateDeployment cfg.kubeNamespace appName]))
      ∧ (∀ cause, (getDeployment env w cfg.kubeNamespace appName).1 = .error cause →
          (update cfg env w appName).1
            = (NewToolResultError ("Failed to get deployment " ++ appName ++ ": " ++ cause), none)
          ∧ (update cfg env w appName).1.1.isError = true
          ∧ (update cfg env w appName).2.trace
            = w.trace ++ [Event.buildConfig cfg.kubeconfigPath, Event.newClient,
                Event.getDeployment cfg.kubeNamespace appName]
          ∧ (update cfg env w appName).2.deployments = w.deployments) := by
  have hget := getDeployment_result env w
    [Event.buildConfig cfg.kubeconfigPath, Event.newClient] cfg.kubeNamespace appName
  have hgw : ∀ w0 : World, (getDeployment env w0 cfg.kubeNamespace appName).2
      = w0.emitAll [Event.getDeployment cfg.kubeNamespace appName] := by
    intro w0
    unfold getDeployment
    cases env.faults.getDeployment with
    | some e => rfl
    | none => cases w0.deployments.lookup (cfg.kubeNamespace, appName) <;> rfl
  have hupd : update cfg env w appName
      = match (getDeployment env w cfg.kubeNamespace appName).1 with
        | .error err =>
          ((NewToolResultError ("Failed to get deployment " ++ appName ++ ": " ++ err), none),
            w.emitAll [Event.buildConfig cfg.kubeconfigPath, Event.newClient,
              Event.getDeployment cfg.kubeNamespace appName])
        | .ok d =>
          match updateDeployment env
              (w.emitAll [Event.buildConfig cfg.kubeconfigPath, Event.newClient,
                Event.getDeployment cfg.kubeNamespace appName])
              cfg.kubeNamespace appName (d.restarted env.now) with
          | (some err, w') =>
            ((NewToolResultError ("Failed to update deployment " ++ appName ++ ": " ++ err),
              none), w')
          | (none, w') =>
            ((NewToolResultText ("Successfully triggered rolling restart for deployment "
              ++ appName ++ " in namespace " ++ cfg.kubeNamespace), none), w') := by
    unfold update buildConfigFromFlags newForConfig
    simp only [hb, hn, World.emit_eq, World.emitAll_emitAll, List.singleton_append,
      List.cons_append, List.nil_append]
    rw [← hget]
    generalize hg : getDeployment env
      (w.emitAll [Event.buildConfig cfg.kubeconfigPath, Event.newClient])
      cfg.kubeNamespace appName = g
    have hg2 := hgw (w.emitAll [Event.buildConfig cfg.kubeconfigPath, Event.newClient])
    rw [hg] at hg2
    obtain ⟨gr, gw⟩ := g
    simp only at hg2
    subst hg2
    cases gr with
    | error e => simp
    | ok d =>
      simp only [World.emitAll_emitAll, List.cons_append, List.nil_append]
      cases hd : d.annotations <;> simp [Deployment.restarted, hd, restartedAtKey]
  constructor
  · intro d hd
    rw [hupd, hd]
    refine ⟨rfl, rfl, ⟨_, rfl, mapSet_lookup_self _ _ _,
      fun k hk => mapSet_lookup_other _ _ _ k hk⟩, ?_⟩
    intro hu
    unfold updateDeployment
    simp only [hu]
    refine ⟨rfl, ?_, ?_⟩
    · simp [List.lookup]
    · simp
  · intro cause hc
    rw [hupd, hc]
    exact ⟨rfl, rfl, by simp, rfl⟩

/-- C13, on an example: restarting `checkout-svc` keeps the annotation `team` and adds the
restart annotation; restarting a `Deployment` that does not exist fails with the cause. -/
theorem update_sets_restartedAt_witness :
    sampleEnv.faults.buildConfig = none ∧ sampleEnv.faults.newClient = none
      ∧ (update sampleConfig sampleEnv sampleDeployed "checkout-svc").1.1.isError = false
      ∧ ((update sampleConfig sampleEnv sampleDeployed "checkout-svc").2.deployments.lookup
          ("applications", "checkout-svc")).map Deployment.annotations
        = some (some [("kubectl.kubernetes.io/restartedAt", "2024-05-01T10:00:00Z"),
            ("team", "checkout")])
      ∧ (update sampleConfig sampleEnv sampleWorld "ghost").1
        = (NewToolResultError
            "Failed to get deployment ghost: deployments.apps \"ghost\" not found", none) :=
  ⟨rfl, rfl,
    (((update_sets_restartedAt sampleConfig sampleEnv sampleDeployed "checkout-svc"
      rfl rfl).1 sampleDeployment (by rfl)).2.2.2 rfl).1,
    by rfl,
    ((update_sets_restartedAt sampleConfig sampleEnv sampleWorld "ghost" rfl rfl).2
      "deployments.apps \"ghost\" not found" (by rfl)).1⟩

/-! ## Steps and outcomes of deploy -/

theorem World.emitAll_nil (w : World) : w.emitAll [] = w := by
  cases w
  simp [World.emitAll]

theorem quiet_append (a b : List Event) : quiet (a ++ b) = (quiet a && quiet b) := by
  simp [quiet, List.all_append]

theorem quiet_manifestCalls (cfg : Config) (appName : String) (names : List String) :
    quiet (manifestCalls cfg appName names) = true := by
  induction names with
  | nil => rfl
  | cons t rest ih =>
    simp only [quiet, List.all_eq_true] at ih ⊢
    intro e he
    simp only [manifestCalls, List.mem_cons] at he
    rcases he with rfl | rfl | rfl | he
    · rfl
    · rfl
    · rfl
    · exact ih e he

theorem quiet_filters (evs : List Event) (h : quiet evs = true) :
    evs.filter Event.isPush = [] ∧ evs.filter Event.isClone = []
      ∧ evs.filterMap Event.committed = [] := by
  simp only [quiet, List.all_eq_true, Bool.and_eq_true, Bool.not_eq_true',
    Option.isNone_iff_eq_none] at h
  refine ⟨?_, ?_, ?_⟩
  · rw [List.filter_eq_nil_iff]
    intro e he
    simp [(h e he).1.1]
  · rw [List.filter_eq_nil_iff]
    intro e he
    simp [(h e he).1.2]
  · rw [List.filterMap_eq_nil_iff]
    intro e he
    exact (h e he).2

/-- The loop of `deploy`: the first step that fails ends it with that step's error text,
after calls that hold no clone, commit or push; when no step fails it makes the calls of the
success path. -/
theorem renderManifests_outcome (cfg : Config) (tpl : Templates) (env : Env)
    (diskDir appName image : String) (names : List String) :
    ∀ (ws : Workspace) (w : World),
      (∀ msg, firstFailure (manifestSteps cfg tpl env appName image names) = some msg →
        ∃ evs d, renderManifests cfg tpl env diskDir (filepath.Join [cfg.manifestPath, appName])
            (templateData cfg appName image) appName names ws w
              = (.error (NewToolResultError msg), (w.emitAll evs).onDisk d)
          ∧ quiet evs = true)
      ∧ (firstFailure (manifestSteps cfg tpl env appName image names) = none →
        ∃ ws' d, renderManifests cfg tpl env diskDir (filepath.Join [cfg.manifestPath, appName])
            (templateData cfg appName image) appName names ws w
              = (.ok ws', (w.emitAll (manifestCalls cfg appName names)).onDisk d)) := by
  induction names with
  | nil =>
    intro ws w
    refine ⟨fun msg h => ?_, fun _ => ⟨ws, w.disk, ?_⟩⟩
    · simp [manifestSteps, firstFailure] at h
    · simp [renderManifests, manifestCalls, World.emitAll_nil, World.onDisk_self]
  | cons t rest ih =>
    intro ws w
    have hj : filepath.Join [filepath.Join [cfg.manifestPath, appName], t]
        = filepath.Join [cfg.manifestPath, appName, t] :=
      filepath.Join_Join [cfg.manifestPath, appName] [t]
    unfold renderManifests
    unfold osCreate templateExecute worktreeAdd
    rw [hj]
    simp only [manifestSteps, parseCause, executeCause]
    cases hp : tpl.parseFS ("templates/" ++ t) with
    | error e =>
      simp only [firstFailure, Option.some.injEq, reduceCtorEq, false_implies, and_true]
      intro msg hmsg
      subst hmsg
      exact ⟨[], w.disk, by rw [World.emitAll_nil, World.onDisk_self], rfl⟩
    | ok tmpl =>
      simp only [firstFailure]
      cases hc : env.faults.create (filepath.Join [cfg.manifestPath, appName, t]) with
      | some e =>
        simp only [firstFailure, Option.some.injEq, reduceCtorEq, false_implies, and_true]
        intro msg hmsg
        subst hmsg
        exact ⟨[Event.create (filepath.Join [cfg.manifestPath, appName, t])], w.disk, rfl, rfl⟩
      | none =>
        simp only [firstFailure]
        cases he : tmpl (templateData cfg appName image) with
        | error e =>
          simp only [firstFailure, Option.some.injEq, reduceCtorEq, false_implies, and_true]
          intro msg hmsg
          subst hmsg
          exact ⟨[Event.create (filepath.Join [cfg.manifestPath, appName, t]),
            Event.execute t (filepath.Join [cfg.manifestPath, appName, t])],
            Disk.create w.disk (filepath.Join [diskDir, t]), by simp, rfl⟩
        | ok text =>
          simp only []
          cases hw : env.faults.write (filepath.Join [cfg.manifestPath, appName, t]) with
          | some e =>
            simp only [firstFailure, Option.some.injEq, reduceCtorEq, false_implies, and_true]
            intro msg hmsg
            subst hmsg
            exact ⟨[Event.create (filepath.Join [cfg.manifestPath, appName, t]),
              Event.execute t (filepath.Join [cfg.manifestPath, appName, t])],
              Disk.create w.disk (filepath.Join [diskDir, t]), by simp, rfl⟩
          | none =>
            simp only [firstFailure]
            cases ha : env.faults.add (filepath.Join [cfg.manifestPath, appName, t]) with
            | some e =>
              simp only [firstFailure, Option.some.injEq, reduceCtorEq, false_implies,
                and_true]
              intro msg hmsg
              subst hmsg
              exact ⟨[Event.create (filepath.Join [cfg.manifestPath, appName, t]),
                Event.execute t (filepath.Join [cfg.manifestPath, appName, t]),
                Event.add (filepath.Join [cfg.manifestPath, appName, t])],
                Disk.create w.disk (filepath.Join [diskDir, t]), by simp, rfl⟩
            | none =>
              simp only [firstFailure, World.emit_eq, World.emitAll_emitAll,
                World.onDisk_emitAll, List.singleton_append, List.cons_append, List.nil_append]
              obtain ⟨ihf, iho⟩ := ih
                { head := ws.head,
                  index := Tree.stage ws.index
                    ((ws.files.set (filepath.Join [cfg.manifestPath, appName, t]) "").set
                      (filepath.Join [cfg.manifestPath, appName, t]) text)
                    (filepath.Join [cfg.manifestPath, appName, t]),
                  files := (ws.files.set (filepath.Join [cfg.manifestPath, appName, t]) "").set
                    (filepath.Join [cfg.manifestPath, appName, t]) text,
                  commits := ws.commits }
                ((w.emitAll [Event.create (filepath.Join [cfg.manifestPath, appName, t]),
                  Event.execute t (filepath.Join [cfg.manifestPath, appName, t]),
                  Event.add (filepath.Join [cfg.manifestPath, appName, t])]).onDisk
                  (Disk.create w.disk (filepath.Join [diskDir, t])))
              constructor
              · intro msg hmsg
                obtain ⟨evs, d, heq, hq⟩ := ihf msg hmsg
                refine ⟨[Event.create (filepath.Join [cfg.manifestPath, appName, t]),
                  Event.execute t (filepath.Join [cfg.manifestPath, appName, t]),
                  Event.add (filepath.Join [cfg.manifestPath, appName, t])] ++ evs, d, ?_, ?_⟩
                · rw [heq, World.onDisk_emitAll, World.onDisk_onDisk, World.emitAll_emitAll]
                · rw [quiet_append, hq]; rfl
              · intro hnone
                obtain ⟨ws', d, heq⟩ := iho hnone
                refine ⟨ws', d, ?_⟩
                rw [heq, World.onDisk_emitAll, World.onDisk_onDisk, World.emitAll_emitAll]
                rfl

theorem deployPublish_outcome (cfg : Config) (tpl : Templates) (env : Env)
    (diskDir appName image : String) (ws : Workspace) (w : World) (hs : ws.Synced) :
    (∀ msg, firstFailure (publishSteps cfg tpl env appName image) = some msg →
      ∃ evs d, deployPublish cfg tpl env diskDir (filepath.Join [cfg.argocdAppPath])
          (templateData cfg appName image) appName image ws w
            = ((NewToolResultError msg, none), (w.emitAll evs).onDisk d)
        ∧ quiet evs = true)
    ∧ (firstFailure (publishSteps cfg tpl env appName image) = none →
      ∃ text, renderFile tpl (templateData cfg appName image) "application.yaml" = some text
        ∧ ((∀ q, (if filepath.Join [cfg.argocdAppPath, appName ++ ".yaml"] = q then some text
              else ws.files.get q) = ws.head.get q) →
            deployPublish cfg tpl env diskDir (filepath.Join [cfg.argocdAppPath])
              (templateData cfg appName image) appName image ws w
              = ((NewToolResultText "No changes to deploy", none),
                  (w.emitAll (publishCalls cfg appName)).onDisk
                    (Disk.create w.disk (filepath.Join [diskDir, appName ++ ".yaml"]))))
        ∧ ((¬ ∀ q, (if filepath.Join [cfg.argocdAppPath, appName ++ ".yaml"] = q then some text
              else ws.files.get q) = ws.head.get q) →
            (∀ c, env.faults.commit = some c →
              deployPublish cfg tpl env diskDir (filepath.Join [cfg.argocdAppPath])
                (templateData cfg appName image) appName image ws w
                = ((NewToolResultError ("Failed to commit changes: " ++ c), none),
                    (w.emitAll (publishCalls cfg appName
                      ++ [Event.commit (deployMessage appName image)])).onDisk
                      (Disk.create w.disk (filepath.Join [diskDir, appName ++ ".yaml"]))))
            ∧ (env.faults.commit = none →
              (∀ c, env.faults.push = some c →
                deployPublish cfg tpl env diskDir (filepath.Join [cfg.argocdAppPath])
                  (templateData cfg appName image) appName image ws w
                  = ((NewToolResultError ("Failed to push changes: " ++ c), none),
                      (w.emitAll (publishCalls cfg appName
                        ++ [Event.commit (deployMessage appName image), Event.push])).onDisk
                        (Disk.create w.disk (filepath.Join [diskDir, appName ++ ".yaml"]))))
              ∧ (env.faults.push = none →
                ∃ t', (∀ q, Tree.get t' q
                    = if filepath.Join [cfg.argocdAppPath, appName ++ ".yaml"] = q
                      then some text else ws.files.get q)
                  ∧ deployPublish cfg tpl env diskDir (filepath.Join [cfg.argocdAppPath])
                    (templateData cfg appName image) appName image ws w
                    = ((NewToolResultText
                        ("Successfully deployed " ++ appName ++ ". Git updated."), none),
                      World.onDisk { w.emitAll (publishCalls cfg appName
                          ++ [Event.commit (deployMessage appName image), Event.push]) with
                        remote := t',
                        commits := deployMessage appName image :: ws.commits
                          ++ w.commits }
                        (Disk.create w.disk (filepath.Join [diskDir, appName ++ ".yaml"]))))))) := by
  have hj : filepath.Join [filepath.Join [cfg.argocdAppPath], appName ++ ".yaml"]
      = filepath.Join [cfg.argocdAppPath, appName ++ ".yaml"] :=
    filepath.Join_Join [cfg.argocdAppPath] [appName ++ ".yaml"]
  unfold deployPublish
  unfold osCreate templateExecute worktreeAdd worktreeStatus worktreeCommit repoPush
  rw [hj]
  simp only [publishSteps, parseCause, executeCause, renderFile, publishCalls, deployMessage]
  cases hp : tpl.parseFS "templates/application.yaml" with
  | error e =>
    have hp' : tpl.parseFS ("templates/" ++ "application.yaml") = Except.error e := hp
    simp only [hp', firstFailure, Option.some.injEq, reduceCtorEq, false_implies, and_true]
    intro msg hmsg
    subst hmsg
    exact ⟨[], w.disk, by rw [World.emitAll_nil, World.onDisk_self], rfl⟩
  | ok tmpl =>
    have hp' : tpl.parseFS ("templates/" ++ "application.yaml") = Except.ok tmpl := hp
    simp only [hp', firstFailure]
    cases hc : env.faults.create (filepath.Join [cfg.argocdAppPath, appName ++ ".yaml"]) with
    | some e =>
      simp only [firstFailure, Option.some.injEq, reduceCtorEq, false_implies, and_true]
      intro msg hmsg
      subst hmsg
      exact ⟨[Event.create (filepath.Join [cfg.argocdAppPath, appName ++ ".yaml"])], w.disk,
        rfl, rfl⟩
    | none =>
      simp only [firstFailure]
      cases he : tmpl (templateData cfg appName image) with
      | error e =>
        simp only [firstFailure, Option.some.injEq, reduceCtorEq, false_implies, and_true]
        intro msg hmsg
        subst hmsg
        exact ⟨[Event.create (filepath.Join [cfg.argocdAppPath, appName ++ ".yaml"]),
          Event.execute "application.yaml"
            (filepath.Join [cfg.argocdAppPath, appName ++ ".yaml"])],
          (Disk.create w.disk (filepath.Join [diskDir, appName ++ ".yaml"])), by simp, rfl⟩
      | ok text =>
        simp only []
        cases hw : env.faults.write (filepath.Join [cfg.argocdAppPath, appName ++ ".yaml"]) with
        | some e =>
          simp only [firstFailure, Option.some.injEq, reduceCtorEq, false_implies, and_true]
          intro msg hmsg
          subst hmsg
          exact ⟨[Event.create (filepath.Join [cfg.argocdAppPath, appName ++ ".yaml"]),
            Event.execute "application.yaml"
              (filepath.Join [cfg.argocdAppPath, appName ++ ".yaml"])],
          (Disk.create w.disk (filepath.Join [diskDir, appName ++ ".yaml"])), by simp, rfl⟩
        | none =>
          simp only [firstFailure]
          cases ha : env.faults.add (filepath.Join [cfg.argocdAppPath, appName ++ ".yaml"]) with
          | some e =>
            simp only [firstFailure, Option.some.injEq, reduceCtorEq, false_implies, and_true]
            intro msg hmsg
            subst hmsg
            exact ⟨[Event.create (filepath.Join [cfg.argocdAppPath, appName ++ ".yaml"]),
              Event.execute "application.yaml"
                (filepath.Join [cfg.argocdAppPath, appName ++ ".yaml"]),
              Event.add (filepath.Join [cfg.argocdAppPath, appName ++ ".yaml"])],
              (Disk.create w.disk (filepath.Join [diskDir, appName ++ ".yaml"])), by simp, rfl⟩
          | none =>
            simp only [firstFailure]
            cases hst : env.faults.status with
            | some e =>
              simp only [firstFailure, Option.some.injEq, reduceCtorEq, false_implies,
                and_true]
              intro msg hmsg
              subst hmsg
              exact ⟨[Event.create (filepath.Join [cfg.argocdAppPath, appName ++ ".yaml"]),
                Event.execute "application.yaml"
                  (filepath.Join [cfg.argocdAppPath, appName ++ ".yaml"]),
                Event.add (filepath.Join [cfg.argocdAppPath, appName ++ ".yaml"]),
                Event.status],
          (Disk.create w.disk (filepath.Join [diskDir, appName ++ ".yaml"])), by simp, rfl⟩
            | none =>
              have hsync := synced_write_add ws.files ws.index
                (filepath.Join [cfg.argocdAppPath, appName ++ ".yaml"]) text hs
              have hfiles : ∀ q, ((ws.files.set (filepath.Join [cfg.argocdAppPath,
                  appName ++ ".yaml"]) "").set (filepath.Join [cfg.argocdAppPath,
                  appName ++ ".yaml"]) text).get q
                  = if filepath.Join [cfg.argocdAppPath, appName ++ ".yaml"] = q then some text
                    else ws.files.get q := by
                intro q
                simp only [Tree.get_set]
                by_cases hq : filepath.Join [cfg.argocdAppPath, appName ++ ".yaml"] = q <;>
                  simp [hq]
              have h2 : Tree.same ((ws.files.set (filepath.Join [cfg.argocdAppPath,
                  appName ++ ".yaml"]) "").set (filepath.Join [cfg.argocdAppPath,
                  appName ++ ".yaml"]) text)
                  (Tree.stage ws.index ((ws.files.set (filepath.Join [cfg.argocdAppPath,
                  appName ++ ".yaml"]) "").set (filepath.Join [cfg.argocdAppPath,
                  appName ++ ".yaml"]) text)
                  (filepath.Join [cfg.argocdAppPath, appName ++ ".yaml"])) = true :=
                (Tree.same_iff _ _).2 hsync
              simp only [firstFailure, reduceCtorEq, false_implies, implies_true, true_and,
                forall_const, h2, Bool.and_true, World.emit_eq, World.emitAll_emitAll,
                World.onDisk_emitAll, List.singleton_append, List.cons_append,
                List.nil_append]
              refine ⟨text, rfl, ?_, ?_⟩
              · intro hall
                have hcl : Tree.same (Tree.stage ws.index ((ws.files.set
                    (filepath.Join [cfg.argocdAppPath, appName ++ ".yaml"]) "").set
                    (filepath.Join [cfg.argocdAppPath, appName ++ ".yaml"]) text)
                    (filepath.Join [cfg.argocdAppPath, appName ++ ".yaml"])) ws.head = true :=
                  (Tree.same_iff _ _).2 (fun q => by rw [← hsync q, hfiles q]; exact hall q)
                simp only [hcl]
              · intro hdirty
                have hcl : Tree.same (Tree.stage ws.index ((ws.files.set
                    (filepath.Join [cfg.argocdAppPath, appName ++ ".yaml"]) "").set
                    (filepath.Join [cfg.argocdAppPath, appName ++ ".yaml"]) text)
                    (filepath.Join [cfg.argocdAppPath, appName ++ ".yaml"])) ws.head = false := by
                  cases hcc : Tree.same (Tree.stage ws.index ((ws.files.set
                    (filepath.Join [cfg.argocdAppPath, appName ++ ".yaml"]) "").set
                    (filepath.Join [cfg.argocdAppPath, appName ++ ".yaml"]) text)
                    (filepath.Join [cfg.argocdAppPath, appName ++ ".yaml"])) ws.head with
                  | false => rfl
                  | true =>
                    exact absurd (fun q => by
                      rw [← hfiles q, hsync q]; exact (Tree.same_iff _ _).1 hcc q) hdirty
                simp only [hcl]
                constructor
                · intro c hcm
                  simp [hcm]
                · intro hcm
                  simp only [hcm]
                  constructor
                  · intro c hpu
                    simp [hpu]
                  · intro hpu
                    simp only [hpu]
                    refine ⟨_, fun q => by rw [← hsync q, hfiles q], ?_⟩
                    simp [World.emitAll, World.onDisk]

theorem firstFailure_append (a b : List Step) :
    firstFailure (a ++ b) = match firstFailure a with
      | some msg => some msg
      | none => firstFailure b := by
  induction a with
  | nil => rfl
  | cons s a ih =>
    obtain ⟨label, cause⟩ := s
    cases cause with
    | some c => rfl
    | none => simpa [firstFailure] using ih

/-- The body of `deploy`: the first step that fails ends it with that step's error text,
after the clone and calls that hold no further clone, no commit and no push; when no step
fails up to the status computation, the body ends as the status, the commit and the push
decide. -/
theorem deployBody_outcome (cfg : Config) (tpl : Templates) (env : Env) (w : World)
    (dir appName image : String) :
    (∀ msg, firstFailure (deployBodySteps cfg tpl env appName image) = some msg →
      ∃ evs d, deployBody cfg tpl env dir appName image w
          = ((NewToolResultError msg, none),
              (w.emitAll (Event.plainClone dir cfg.githubURL :: evs)).onDisk d)
        ∧ quiet evs = true)
    ∧ (firstFailure (deployBodySteps cfg tpl env appName image) = none →
      ∃ R, desiredState cfg tpl appName image = some R
        ∧ ((∀ q, overlay R q (w.remote.get q) = w.remote.get q) →
            ∃ d, deployBody cfg tpl env dir appName image w
              = ((NewToolResultText "No changes to deploy", none),
                  (w.emitAll (deployBodyCalls cfg dir appName)).onDisk d))
        ∧ ((¬ ∀ q, overlay R q (w.remote.get q) = w.remote.get q) →
            (∀ c, env.faults.commit = some c →
              ∃ d, deployBody cfg tpl env dir appName image w
                = ((NewToolResultError ("Failed to commit changes: " ++ c), none),
                    (w.emitAll (deployBodyCalls cfg dir appName
                      ++ [Event.commit (deployMessage appName image)])).onDisk d))
            ∧ (env.faults.commit = none →
              (∀ c, env.faults.push = some c →
                ∃ d, deployBody cfg tpl env dir appName image w
                  = ((NewToolResultError ("Failed to push changes: " ++ c), none),
                      (w.emitAll (deployBodyCalls cfg dir appName
                        ++ [Event.commit (deployMessage appName image), Event.push])).onDisk
                        d))
              ∧ (env.faults.push = none →
                ∃ t' d, (∀ q, Tree.get t' q = overlay R q (w.remote.get q))
                  ∧ deployBody cfg tpl env dir appName image w
                    = ((NewToolResultText
                        ("Successfully deployed " ++ appName ++ ". Git updated."), none),
                      World.onDisk { w.emitAll (deployBodyCalls cfg dir appName
                          ++ [Event.commit (deployMessage appName image), Event.push]) with
                        remote := t',
                        commits := deployMessage appName image :: w.commits } d))))) := by
  unfold deployBody gitPlainClone repoWorktree osMkdirAll
  simp only [deployBodySteps, List.cons_append, List.nil_append]
  cases hc : env.faults.plainClone with
  | some e =>
    simp only [firstFailure, Option.some.injEq, reduceCtorEq, false_implies, and_true]
    intro msg hmsg
    subst hmsg
    exact ⟨[], w.disk, rfl, rfl⟩
  | none =>
    simp only [firstFailure]
    cases hwt : env.faults.worktree with
    | some e =>
      simp only [firstFailure, Option.some.injEq, reduceCtorEq, false_implies, and_true]
      intro msg hmsg
      subst hmsg
      exact ⟨[Event.worktree], w.disk, by simp, rfl⟩
    | none =>
      simp only [firstFailure]
      cases hm1 : env.faults.mkdirAll (filepath.Join [cfg.manifestPath, appName]) with
      | some e =>
        simp only [firstFailure, Option.some.injEq, reduceCtorEq, false_implies, and_true]
        intro msg hmsg
        subst hmsg
        exact ⟨[Event.worktree, Event.mkdirAll (filepath.Join [cfg.manifestPath, appName])],
          w.disk, by simp, rfl⟩
      | none =>
        simp only [firstFailure]
        cases hm2 : env.faults.mkdirAll (filepath.Join [cfg.argocdAppPath]) with
        | some e =>
          simp only [firstFailure, Option.some.injEq, reduceCtorEq, false_implies, and_true]
          intro msg hmsg
          subst hmsg
          exact ⟨[Event.worktree, Event.mkdirAll (filepath.Join [cfg.manifestPath, appName]),
            Event.mkdirAll (filepath.Join [cfg.argocdAppPath])],
            Disk.mkdirAll w.disk (filepath.Join [dir, cfg.manifestPath, appName]),
            by simp, rfl⟩
        | none =>
          simp only [firstFailure, World.emit_eq, World.emitAll_emitAll, World.onDisk_emitAll,
            World.onDisk_onDisk, World.emitAll_disk, World.onDisk_disk,
            List.singleton_append, List.cons_append, List.nil_append, World.emitAll_remote]
          rw [firstFailure_append]
          obtain ⟨hmf, hmo⟩ := renderManifests_outcome cfg tpl env
            (filepath.Join [dir, cfg.manifestPath, appName]) appName image manifests
            { head := w.remote, index := w.remote, files := w.remote, commits := [] }
            ((w.emitAll [Event.plainClone dir cfg.githubURL, Event.worktree,
              Event.mkdirAll (filepath.Join [cfg.manifestPath, appName]),
              Event.mkdirAll (filepath.Join [cfg.argocdAppPath])]).onDisk
              (Disk.mkdirAll
                (Disk.mkdirAll w.disk (filepath.Join [dir, cfg.manifestPath, appName]))
                (filepath.Join [dir, cfg.argocdAppPath])))
          cases hff : firstFailure (manifestSteps cfg tpl env appName image manifests) with
          | some m =>
            simp only [Option.some.injEq, reduceCtorEq, false_implies, and_true]
            intro msg hmsg
            subst hmsg
            obtain ⟨evs, d, heq, hq⟩ := hmf m hff
            refine ⟨[Event.worktree, Event.mkdirAll (filepath.Join [cfg.manifestPath, appName]),
              Event.mkdirAll (filepath.Join [cfg.argocdAppPath])] ++ evs, d, ?_, ?_⟩
            · rw [heq]
              simp
            · rw [quiet_append, hq]
              rfl
          | none =>
            simp only []
            obtain ⟨ws', d, heq⟩ := hmo hff
            rw [heq]
            simp only []
            obtain ⟨Rm, hRm, hhead, hcommits, hsync, hfiles, -⟩ :=
              renderManifests_ok _ _ _ _ _ _ _ _ _ _ _ heq
            have hs' : ws'.Synced := hsync (fun _ => rfl)
            obtain ⟨hpf, hpo⟩ := deployPublish_outcome cfg tpl env
              (filepath.Join [dir, cfg.argocdAppPath]) appName image ws'
              ((((w.emitAll [Event.plainClone dir cfg.githubURL, Event.worktree,
                Event.mkdirAll (filepath.Join [cfg.manifestPath, appName]),
                Event.mkdirAll (filepath.Join [cfg.argocdAppPath])]).onDisk
                (Disk.mkdirAll
                  (Disk.mkdirAll w.disk (filepath.Join [dir, cfg.manifestPath, appName]))
                  (filepath.Join [dir, cfg.argocdAppPath]))).emitAll
                (manifestCalls cfg appName manifests)).onDisk d) hs'
            constructor
            · intro msg hmsg
              obtain ⟨evs, d2, heq2, hq⟩ := hpf msg hmsg
              refine ⟨[Event.worktree,
                Event.mkdirAll (filepath.Join [cfg.manifestPath, appName]),
                Event.mkdirAll (filepath.Join [cfg.argocdAppPath])]
                ++ manifestCalls cfg appName manifests ++ evs, d2, ?_, ?_⟩
              · rw [heq2]
                simp
              · rw [quiet_append, quiet_append, hq, quiet_manifestCalls]
                rfl
            · intro hnone
              obtain ⟨text, htext, hclean, hdirty⟩ := hpo hnone
              simp only [hhead, hfiles, hcommits] at hclean hdirty
              refine ⟨Rm ++ [(filepath.Join [cfg.argocdAppPath, appName ++ ".yaml"], text)],
                by simp [desiredState, hRm, htext], ?_, ?_⟩
              · intro hc'
                simp only [overlay_snoc] at hc'
                rw [hclean hc']
                exact ⟨Disk.create d (filepath.Join [filepath.Join [dir, cfg.argocdAppPath],
                  appName ++ ".yaml"]), by simp [deployBodyCalls, publishCalls]⟩
              · intro hd'
                simp only [overlay_snoc] at hd' ⊢
                obtain ⟨hcm, hrest⟩ := hdirty hd'
                refine ⟨fun c hc' => ?_, fun hc' => ⟨fun c hp' => ?_, fun hp' => ?_⟩⟩
                · rw [hcm c hc']
                  exact ⟨Disk.create d (filepath.Join [filepath.Join [dir, cfg.argocdAppPath],
                    appName ++ ".yaml"]), by simp [deployBodyCalls, publishCalls]⟩
                · rw [(hrest hc').1 c hp']
                  exact ⟨Disk.create d (filepath.Join [filepath.Join [dir, cfg.argocdAppPath],
                    appName ++ ".yaml"]), by simp [deployBodyCalls, publishCalls]⟩
                · obtain ⟨t', ht', heq3⟩ := (hrest hc').2 hp'
                  refine ⟨t', Disk.create d (filepath.Join [filepath.Join
                    [dir, cfg.argocdAppPath], appName ++ ".yaml"]), ht', ?_⟩
                  rw [heq3]
                  simp [World.emitAll, World.onDisk, deployBodyCalls, publishCalls]

/-! ## Steps and outcomes of destroy -/

theorem removeUnder_idem (t : Tree) (d : String) :
    (t.removeUnder d).removeUnder d = t.removeUnder d := by
  simp [Tree.removeUnder, List.filter_filter]

theorem filter_key_absent (t : Tree) (p : String) (h : t.get p = none) :
    t.filter (fun e => decide (e.1 ≠ p)) = t := by
  rw [List.filter_eq_self]
  intro e he
  induction t with
  | nil => simp at he
  | cons x t ih =>
    obtain ⟨k, v⟩ := x
    by_cases hk : k = p
    · simp [Tree.get, hk] at h
    · simp only [Tree.get, hk, if_false] at h
      simp only [List.mem_cons] at he
      rcases he with rfl | he
      · simpa using hk
      · exact ih h he

theorem destroyPublish_outcome (cfg : Config) (env : Env) (w0 : World) (dir appName : String)
    (ws : Workspace) (w : World)
    (hfiles : ws.files.removeUnder (manifestDirOf cfg appName)
      = w0.remote.removeUnder (manifestDirOf cfg appName))
    (hhead : ws.head = w0.remote) (hcommits : ws.commits = []) :
    (∀ msg, firstFailure (destroyPublishSteps cfg env w0 appName) = some msg →
      ∃ evs, destroyPublish cfg env dir (manifestDirOf cfg appName) appName ws w
          = ((NewToolResultError msg, none),
              (w.emitAll evs).onDisk
                (destroyPublish cfg env dir (manifestDirOf cfg appName) appName ws w).2.disk)
        ∧ quiet evs = true)
    ∧ (firstFailure (destroyPublishSteps cfg env w0 appName) = none →
      (destroyDirty cfg w0 appName = false →
        destroyPublish cfg env dir (manifestDirOf cfg appName) appName ws w
          = ((NewToolResultText ("App " ++ appName ++ " does not exist or already destroyed"),
              none), (w.emitAll (destroyPublishCalls cfg appName)).onDisk
                (destroyPublish cfg env dir (manifestDirOf cfg appName) appName ws w).2.disk))
      ∧ (destroyDirty cfg w0 appName = true →
        (∀ c, env.faults.commit = some c →
          destroyPublish cfg env dir (manifestDirOf cfg appName) appName ws w
            = ((NewToolResultError ("Failed to commit changes: " ++ c), none),
                (w.emitAll (destroyPublishCalls cfg appName
                  ++ [Event.commit (destroyMessage appName)])).onDisk
                  (destroyPublish cfg env dir (manifestDirOf cfg appName) appName ws w).2.disk))
        ∧ (env.faults.commit = none →
          (∀ c, env.faults.push = some c →
            destroyPublish cfg env dir (manifestDirOf cfg appName) appName ws w
              = ((NewToolResultError ("Failed to push changes: " ++ c), none),
                  (w.emitAll (destroyPublishCalls cfg appName
                    ++ [Event.commit (destroyMessage appName), Event.push])).onDisk
                    (destroyPublish cfg env dir (manifestDirOf cfg appName) appName ws w).2.disk))
          ∧ (env.faults.push = none →
            destroyPublish cfg env dir (manifestDirOf cfg appName) appName ws w
              = ((NewToolResultText
                  ("Successfully destroyed " ++ appName ++ " (manifests removed)."), none),
                World.onDisk { w.emitAll (destroyPublishCalls cfg appName
                    ++ [Event.commit (destroyMessage appName), Event.push]) with
                  remote := destroyFiles cfg w0 appName,
                  commits := destroyMessage appName :: w.commits }
                  (destroyPublish cfg env dir (manifestDirOf cfg appName) appName ws w).2.disk))))) := by
  have hj1 : filepath.Join [filepath.Join [cfg.manifestPath, appName]]
      = filepath.Join [cfg.manifestPath, appName] :=
    filepath.Join_Join [cfg.manifestPath, appName] []
  have hj2 : filepath.Join [filepath.Join [cfg.argocdAppPath, appName ++ ".yaml"]]
      = filepath.Join [cfg.argocdAppPath, appName ++ ".yaml"] :=
    filepath.Join_Join [cfg.argocdAppPath, appName ++ ".yaml"] []
  unfold destroyPublish
  unfold osRemoveAll osRemove worktreeAdd worktreeStatus worktreeCommit repoPush
  simp only [manifestDirOf, descriptorOf] at hfiles
  simp only [destroyPublishSteps, destroyRemoveCause, destroyPublishCalls, destroyMessage,
    destroyDirty, destroyFiles, manifestDirOf, descriptorOf, hj1, hj2, hfiles, hhead,
    hcommits]
  cases hra : env.faults.removeAll (filepath.Join [cfg.manifestPath, appName]) with
  | some e =>
    simp only [firstFailure, Option.some.injEq, reduceCtorEq, false_implies, and_true]
    intro msg hmsg
    subst hmsg
    exact ⟨[Event.removeAll (filepath.Join [cfg.manifestPath, appName])], rfl, rfl⟩
  | none =>
    simp only [firstFailure]
    cases hrm : env.faults.remove (filepath.Join [cfg.argocdAppPath, appName ++ ".yaml"]) with
    | some e =>
      simp only [firstFailure, Option.some.injEq, reduceCtorEq, false_implies, and_true,
        RemoveError.isNotExist, RemoveError.text, Bool.not_false, if_true]
      intro msg hmsg
      subst hmsg
      exact ⟨[Event.removeAll (filepath.Join [cfg.manifestPath, appName]),
        Event.remove (filepath.Join [cfg.argocdAppPath, appName ++ ".yaml"])], by simp, rfl⟩
    | none =>
      simp only []
      cases hget : (w0.remote.removeUnder (filepath.Join [cfg.manifestPath, appName])).get
          (filepath.Join [cfg.argocdAppPath, appName ++ ".yaml"]) with
      | none =>
        simp only []
        have hflt := filter_key_absent _ _ hget
        simp only [ne_eq, decide_not] at hflt
        cases hex : (w0.remote.removeUnder (filepath.Join [cfg.manifestPath, appName])).existsAt
            (filepath.Join [cfg.argocdAppPath, appName ++ ".yaml"]) with
        | true =>
          simp only [if_true, firstFailure, Option.some.injEq, reduceCtorEq, false_implies,
            and_true, RemoveError.isNotExist, RemoveError.text, Bool.not_false]
          intro msg hmsg
          subst hmsg
          exact ⟨[Event.removeAll (filepath.Join [cfg.manifestPath, appName]),
            Event.remove (filepath.Join [cfg.argocdAppPath, appName ++ ".yaml"])], by simp, rfl⟩
        | false =>
          simp only [Bool.false_eq_true, if_false, firstFailure, RemoveError.isNotExist,
            Bool.not_true, World.emit_eq, World.onDisk_disk, World.emitAll_disk,
            World.onDisk_emitAll, World.emitAll_emitAll, List.singleton_append,
            List.cons_append, List.nil_append]
          by_cases hmem : filepath.Join [dir, filepath.Join [cfg.argocdAppPath, appName ++ ".yaml"]]
              ∈ Disk.removeAll w.disk
                (filepath.Join [dir, filepath.Join [cfg.manifestPath, appName]])
          · simp only [hmem, if_true, if_false, RemoveError.isNotExist, Bool.not_true,
              Bool.true_eq_false]
            cases hadd : env.faults.add "." with
            | some e =>
              simp only [firstFailure, Option.some.injEq, reduceCtorEq, false_implies, and_true]
              intro msg hmsg
              subst hmsg
              exact ⟨[Event.removeAll (filepath.Join [cfg.manifestPath, appName]),
                Event.remove (filepath.Join [cfg.argocdAppPath, appName ++ ".yaml"]), Event.add "."], by simp, rfl⟩
            | none =>
              simp only [firstFailure]
              cases hst : env.faults.status with
              | some e =>
                simp only [firstFailure, Option.some.injEq, reduceCtorEq, false_implies,
                  and_true]
                intro msg hmsg
                subst hmsg
                exact ⟨[Event.removeAll (filepath.Join [cfg.manifestPath, appName]),
                  Event.remove (filepath.Join [cfg.argocdAppPath, appName ++ ".yaml"]), Event.add ".", Event.status],
                  by simp, rfl⟩
              | none =>
                simp only [firstFailure, reduceCtorEq, false_implies, implies_true, true_and,
                  forall_const, stage_root, Tree.same_refl, Bool.and_true, ne_eq, decide_not,
                  hflt, World.emit_eq, World.emitAll_emitAll, List.singleton_append,
                  List.cons_append, List.nil_append]
                cases hsame : Tree.same (w0.remote.removeUnder (filepath.Join [cfg.manifestPath, appName]))
                    w0.remote with
                | true => simp
                | false =>
                  simp only [Bool.not_false, reduceCtorEq, false_implies, forall_const,
                    true_and]
                  refine ⟨fun c hc => ?_, fun hc => ⟨fun c hp => ?_, fun hp => ?_⟩⟩
                  · simp [hc]
                  · simp [hc, hp]
                  · simp [hc, hp, World.emitAll, World.onDisk]
          · simp only [hmem, if_true, if_false, RemoveError.isNotExist, Bool.not_true,
              Bool.true_eq_false]
            cases hadd : env.faults.add "." with
            | some e =>
              simp only [firstFailure, Option.some.injEq, reduceCtorEq, false_implies, and_true]
              intro msg hmsg
              subst hmsg
              exact ⟨[Event.removeAll (filepath.Join [cfg.manifestPath, appName]),
                Event.remove (filepath.Join [cfg.argocdAppPath, appName ++ ".yaml"]), Event.add "."], by simp, rfl⟩
            | none =>
              simp only [firstFailure]
              cases hst : env.faults.status with
              | some e =>
                simp only [firstFailure, Option.some.injEq, reduceCtorEq, false_implies,
                  and_true]
                intro msg hmsg
                subst hmsg
                exact ⟨[Event.removeAll (filepath.Join [cfg.manifestPath, appName]),
                  Event.remove (filepath.Join [cfg.argocdAppPath, appName ++ ".yaml"]), Event.add ".", Event.status],
                  by simp, rfl⟩
              | none =>
                simp only [firstFailure, reduceCtorEq, false_implies, implies_true, true_and,
                  forall_const, stage_root, Tree.same_refl, Bool.and_true, ne_eq, decide_not,
                  hflt, World.emit_eq, World.emitAll_emitAll, List.singleton_append,
                  List.cons_append, List.nil_append]
                cases hsame : Tree.same (w0.remote.removeUnder (filepath.Join [cfg.manifestPath, appName]))
                    w0.remote with
                | true => simp [hsame]
                | false =>
                  simp only [Bool.not_false, reduceCtorEq, false_implies, forall_const,
                    true_and]
                  refine ⟨fun c hc => ?_, fun hc => ⟨fun c hp => ?_, fun hp => ?_⟩⟩
                  · simp [hc, hsame]
                  · simp [hc, hp, hsame]
                  · simp [hc, hp, hsame, World.emitAll, World.onDisk]
      | some v =>
        simp only [firstFailure]
        cases hadd : env.faults.add "." with
        | some e =>
          simp only [firstFailure, Option.some.injEq, reduceCtorEq, false_implies, and_true]
          intro msg hmsg
          subst hmsg
          exact ⟨[Event.removeAll (filepath.Join [cfg.manifestPath, appName]),
            Event.remove (filepath.Join [cfg.argocdAppPath, appName ++ ".yaml"]), Event.add "."], by simp, rfl⟩
        | none =>
          simp only [firstFailure]
          cases hst : env.faults.status with
          | some e =>
            simp only [firstFailure, Option.some.injEq, reduceCtorEq, false_implies,
              and_true]
            intro msg hmsg
            subst hmsg
            exact ⟨[Event.removeAll (filepath.Join [cfg.manifestPath, appName]),
              Event.remove (filepath.Join [cfg.argocdAppPath, appName ++ ".yaml"]), Event.add ".", Event.status],
              by simp, rfl⟩
          | none =>
            simp only [firstFailure, reduceCtorEq, false_implies, implies_true, true_and,
              forall_const, stage_root, Tree.same_refl, Bool.and_true, ne_eq, decide_not,
              World.emit_eq, World.emitAll_emitAll, List.singleton_append,
              List.cons_append, List.nil_append]
            cases hsame : Tree.same ((w0.remote.removeUnder (filepath.Join [cfg.manifestPath, appName])).filter
                (fun e => !decide (e.1 = filepath.Join [cfg.argocdAppPath, appName ++ ".yaml"]))) w0.remote with
            | true => simp
            | false =>
              simp only [Bool.not_false, reduceCtorEq, false_implies, forall_const,
                true_and]
              refine ⟨fun c hc => ?_, fun hc => ⟨fun c hp => ?_, fun hp => ?_⟩⟩
              · simp [hc]
              · simp [hc, hp]
              · simp [hc, hp, World.emitAll, World.onDisk]

theorem destroyRemoveManifests_outcome (cfg : Config) (env : Env) (dir appName : String)
    (ws : Workspace) (w : World) :
    (∀ c, (if ws.files.existsAt (manifestDirOf cfg appName)
            && (env.faults.gitRemove (manifestDirOf cfg appName)).isSome
          then env.faults.removeAll (manifestDirOf cfg appName) else none) = some c →
      ∃ evs d, destroyRemoveManifests cfg env dir (manifestDirOf cfg appName) ws w
          = (.error (NewToolResultError ("Failed to remove manifest dir: " ++ c)),
              (w.emitAll evs).onDisk d)
        ∧ quiet evs = true)
    ∧ ((if ws.files.existsAt (manifestDirOf cfg appName)
            && (env.faults.gitRemove (manifestDirOf cfg appName)).isSome
          then env.faults.removeAll (manifestDirOf cfg appName) else none) = none →
      ∃ ws' evs d, destroyRemoveManifests cfg env dir (manifestDirOf cfg appName) ws w
          = (.ok ws', (w.emitAll evs).onDisk d)
        ∧ quiet evs = true ∧ ws'.head = ws.head ∧ ws'.commits = ws.commits
        ∧ ws'.files.removeUnder (manifestDirOf cfg appName)
          = ws.files.removeUnder (manifestDirOf cfg appName)) := by
  have hj1 : filepath.Join [filepath.Join [cfg.manifestPath, appName]]
      = filepath.Join [cfg.manifestPath, appName] :=
    filepath.Join_Join [cfg.manifestPath, appName] []
  unfold destroyRemoveManifests
  unfold worktreeStat worktreeRemove osRemoveAll worktreeAdd
  simp only [manifestDirOf, hj1]
  cases hex : ws.files.existsAt (filepath.Join [cfg.manifestPath, appName]) with
  | false =>
    simp only [Bool.false_and, Bool.false_eq_true, if_false, reduceCtorEq, false_implies,
      implies_true, true_and, forall_const]
    exact ⟨ws, [Event.stat (filepath.Join [cfg.manifestPath, appName])], w.disk, rfl, rfl,
      rfl, rfl, rfl⟩
  | true =>
    simp only [Bool.true_and]
    cases hgr : env.faults.gitRemove (filepath.Join [cfg.manifestPath, appName]) with
    | none =>
      simp only [Option.isSome_none, Bool.false_eq_true, if_false, reduceCtorEq,
        false_implies, implies_true, true_and, forall_const]
      refine ⟨{ ws with index := ws.index.removeUnder (filepath.Join [cfg.manifestPath, appName]),
                        files := ws.files.removeUnder (filepath.Join [cfg.manifestPath, appName]) },
        [Event.stat (filepath.Join [cfg.manifestPath, appName]),
        Event.gitRemove (filepath.Join [cfg.manifestPath, appName])], w.disk, by simp, rfl,
        rfl, rfl, ?_⟩
      exact removeUnder_idem _ _
    | some e =>
      simp only [Option.isSome_some, if_true]
      cases hra : env.faults.removeAll (filepath.Join [cfg.manifestPath, appName]) with
      | some c =>
        simp only [Option.some.injEq, reduceCtorEq, false_implies, and_true]
        intro c' hc'
        subst hc'
        exact ⟨[Event.stat (filepath.Join [cfg.manifestPath, appName]),
          Event.gitRemove (filepath.Join [cfg.manifestPath, appName]),
          Event.removeAll (filepath.Join [cfg.manifestPath, appName])], w.disk, by simp,
          rfl⟩
      | none =>
        simp only [reduceCtorEq, false_implies, implies_true, true_and, forall_const]
        cases hadd : env.faults.add cfg.manifestPath with
        | some c =>
          refine ⟨{ ws with
              files := ws.files.removeUnder (filepath.Join [cfg.manifestPath, appName]) },
            [Event.stat (filepath.Join [cfg.manifestPath, appName]),
            Event.gitRemove (filepath.Join [cfg.manifestPath, appName]),
            Event.removeAll (filepath.Join [cfg.manifestPath, appName]),
            Event.add cfg.manifestPath],
            Disk.removeAll w.disk (filepath.Join [dir, filepath.Join [cfg.manifestPath,
              appName]]), by simp, rfl, rfl, rfl, ?_⟩
          exact removeUnder_idem _ _
        | none =>
          refine ⟨{ ws with
              files := ws.files.removeUnder (filepath.Join [cfg.manifestPath, appName]),
              index := Tree.stage ws.index
                (ws.files.removeUnder (filepath.Join [cfg.manifestPath, appName]))
                cfg.manifestPath },
            [Event.stat (filepath.Join [cfg.manifestPath, appName]),
            Event.gitRemove (filepath.Join [cfg.manifestPath, appName]),
            Event.removeAll (filepath.Join [cfg.manifestPath, appName]),
            Event.add cfg.manifestPath],
            Disk.removeAll w.disk (filepath.Join [dir, filepath.Join [cfg.manifestPath,
              appName]]), by simp, rfl, rfl, rfl, ?_⟩
          exact removeUnder_idem _ _

/-- The body of `destroy`: the first checked step that fails ends it with that step's error
text, after the clone and calls that hold no further clone, no commit and no push; when
none fails up to the status computation, the body ends as the status, the commit and the
push decide. -/
theorem destroyBody_outcome (cfg : Config) (env : Env) (w : World) (dir appName : String) :
    (∀ msg, firstFailure (destroyBodySteps cfg env w appName) = some msg →
      ∃ evs d, destroyBody cfg env dir appName w
          = ((NewToolResultError msg, none),
              (w.emitAll (Event.plainClone dir cfg.githubURL :: evs)).onDisk d)
        ∧ quiet evs = true)
    ∧ (firstFailure (destroyBodySteps cfg env w appName) = none →
      ∃ evs, quiet evs = true
        ∧ (destroyDirty cfg w appName = false →
          ∃ d, destroyBody cfg env dir appName w
            = ((NewToolResultText ("App " ++ appName ++ " does not exist or already destroyed"),
                none), (w.emitAll (Event.plainClone dir cfg.githubURL :: evs)).onDisk d))
        ∧ (destroyDirty cfg w appName = true →
          (∀ c, env.faults.commit = some c →
            ∃ d, destroyBody cfg env dir appName w
              = ((NewToolResultError ("Failed to commit changes: " ++ c), none),
                  (w.emitAll (Event.plainClone dir cfg.githubURL :: evs
                    ++ [Event.commit (destroyMessage appName)])).onDisk d))
          ∧ (env.faults.commit = none →
            (∀ c, env.faults.push = some c →
              ∃ d, destroyBody cfg env dir appName w
                = ((NewToolResultError ("Failed to push changes: " ++ c), none),
                    (w.emitAll (Event.plainClone dir cfg.githubURL :: evs
                      ++ [Event.commit (destroyMessage appName), Event.push])).onDisk d))
            ∧ (env.faults.push = none →
              ∃ d, destroyBody cfg env dir appName w
                = ((NewToolResultText
                    ("Successfully destroyed " ++ appName ++ " (manifests removed)."), none),
                  World.onDisk { w.emitAll (Event.plainClone dir cfg.githubURL :: evs
                      ++ [Event.commit (destroyMessage appName), Event.push]) with
                    remote := destroyFiles cfg w appName,
                    commits := destroyMessage appName :: w.commits } d))))) := by
  unfold destroyBody gitPlainClone repoWorktree
  simp only [destroyBodySteps, List.cons_append, List.nil_append]
  cases hc : env.faults.plainClone with
  | some e =>
    simp only [firstFailure, Option.some.injEq, reduceCtorEq, false_implies, and_true]
    intro msg hmsg
    subst hmsg
    exact ⟨[], w.disk, rfl, rfl⟩
  | none =>
    simp only [firstFailure]
    cases hwt : env.faults.worktree with
    | some e =>
      simp only [firstFailure, Option.some.injEq, reduceCtorEq, false_implies, and_true]
      intro msg hmsg
      subst hmsg
      exact ⟨[Event.worktree], w.disk, by simp, rfl⟩
    | none =>
      simp only [firstFailure, World.emit_eq, World.emitAll_emitAll, List.singleton_append,
        List.cons_append, List.nil_append]
      obtain ⟨hrf, hro⟩ := destroyRemoveManifests_outcome cfg env dir appName
        { head := w.remote, index := w.remote, files := w.remote, commits := [] }
        (w.emitAll [Event.plainClone dir cfg.githubURL, Event.worktree])
      simp only [] at hrf hro
      change (∀ msg, firstFailure (("Failed to remove manifest dir: ",
          if w.remote.existsAt (manifestDirOf cfg appName)
              && (env.faults.gitRemove (manifestDirOf cfg appName)).isSome
          then env.faults.removeAll (manifestDirOf cfg appName) else none)
          :: destroyPublishSteps cfg env w appName) = some msg → _) ∧ _
      cases hfb : (if w.remote.existsAt (manifestDirOf cfg appName)
              && (env.faults.gitRemove (manifestDirOf cfg appName)).isSome
          then env.faults.removeAll (manifestDirOf cfg appName) else none) with
      | some c =>
        simp only [firstFailure, Option.some.injEq, reduceCtorEq, false_implies, and_true]
        intro msg hmsg
        subst hmsg
        obtain ⟨evs, d, heq, hq⟩ := hrf c hfb
        refine ⟨Event.worktree :: evs, d, ?_, ?_⟩
        · show (match destroyRemoveManifests cfg env dir (manifestDirOf cfg appName) _ _ with
            | (Except.error res, w) => ((res, none), w)
            | (Except.ok ws, w) =>
              destroyPublish cfg env dir (manifestDirOf cfg appName) appName ws w)
            = _
          rw [heq]
          simp
        · have : quiet (Event.worktree :: evs) = (quiet [Event.worktree] && quiet evs) :=
            quiet_append [Event.worktree] evs
          rw [this, hq]
          rfl
      | none =>
        simp only [firstFailure]
        obtain ⟨ws', evs, d, heq, hq, hhead, hcommits, hfiles⟩ := hro hfb
        obtain ⟨hpf, hpo⟩ := destroyPublish_outcome cfg env w dir appName ws'
          (((w.emitAll [Event.plainClone dir cfg.githubURL, Event.worktree]).emitAll
            evs).onDisk d)
          hfiles hhead hcommits
        have hbody : (match destroyRemoveManifests cfg env dir (filepath.Join
            [cfg.manifestPath, appName])
            { head := w.remote, index := w.remote, files := w.remote, commits := [] }
            (w.emitAll [Event.plainClone dir cfg.githubURL, Event.worktree]) with
            | (Except.error res, w) => ((res, none), w)
            | (Except.ok ws, w) =>
              destroyPublish cfg env dir (filepath.Join [cfg.manifestPath, appName]) appName
                ws w)
            = destroyPublish cfg env dir (manifestDirOf cfg appName) appName ws'
              (((w.emitAll [Event.plainClone dir cfg.githubURL, Event.worktree]).emitAll
                evs).onDisk d) := by
          show (match destroyRemoveManifests cfg env dir (manifestDirOf cfg appName) _ _ with
            | (Except.error res, w) => ((res, none), w)
            | (Except.ok ws, w) =>
              destroyPublish cfg env dir (manifestDirOf cfg appName) appName ws w)
            = _
          rw [heq]
        rw [hbody]
        have hq1 : quiet (Event.worktree :: evs) = true := by
          have : quiet (Event.worktree :: evs) = (quiet [Event.worktree] && quiet evs) :=
            quiet_append [Event.worktree] evs
          rw [this, hq]
          rfl
        constructor
        · intro msg hmsg
          obtain ⟨evs2, heq2, hq2⟩ := hpf msg hmsg
          obtain ⟨d2, hd2⟩ := exists_onDisk_of_eq _ _ _
            (w.emitAll (Event.plainClone dir cfg.githubURL :: Event.worktree :: evs ++ evs2)) _
            heq2 (fun e => by simp)
          refine ⟨Event.worktree :: evs ++ evs2, d2, ?_, ?_⟩
          · exact hd2
          · have : quiet (Event.worktree :: evs ++ evs2)
                = (quiet (Event.worktree :: evs) && quiet evs2) :=
              quiet_append (Event.worktree :: evs) evs2
            rw [this, hq1, hq2]
            rfl
        · intro hnone
          obtain ⟨hclean, hdirty⟩ := hpo hnone
          refine ⟨Event.worktree :: evs ++ destroyPublishCalls cfg appName, ?_, ?_, ?_⟩
          · have : quiet (Event.worktree :: evs ++ destroyPublishCalls cfg appName)
                = (quiet (Event.worktree :: evs) && quiet (destroyPublishCalls cfg appName)) :=
              quiet_append (Event.worktree :: evs) _
            rw [this, hq1]
            rfl
          · intro hd
            exact exists_onDisk_of_eq _ _ _ _ _ (hclean hd) (fun e => by simp)
          · intro hd
            obtain ⟨hcm, hrest⟩ := hdirty hd
            refine ⟨fun c hc' => ?_, fun hc' => ⟨fun c hp' => ?_, fun hp' => ?_⟩⟩
            · exact exists_onDisk_of_eq _ _ _ _ _ (hcm c hc') (fun e => by simp)
            · exact exists_onDisk_of_eq _ _ _ _ _ ((hrest hc').1 c hp') (fun e => by simp)
            · exact exists_onDisk_of_eq _ _ _ _ _ ((hrest hc').2 hp')
                (fun e => by simp [World.emitAll, World.onDisk])

/-! ## Outcomes of the bodies of deploy and destroy -/

theorem deployDirty_iff (cfg : Config) (tpl : Templates) (w : World) (appName image : String)
    (R : List (String × String)) (hR : desiredState cfg tpl appName image = some R) :
    deployDirty cfg tpl w appName image = true
      ↔ ¬ ∀ q, overlay R q (w.remote.get q) = w.remote.get q := by
  have hsame : Tree.same (Tree.writeAll R w.remote) w.remote = true
      ↔ ∀ q, overlay R q (w.remote.get q) = w.remote.get q := by
    rw [Tree.same_iff]
    constructor
    · intro h q; rw [← Tree.get_writeAll]; exact h q
    · intro h q; rw [Tree.get_writeAll]; exact h q
  simp only [deployDirty, hR, Bool.not_eq_true', ← hsame]
  cases Tree.same (Tree.writeAll R w.remote) w.remote <;> simp

theorem quiet_deployBodyCalls_tail (cfg : Config) (appName : String) :
    quiet ([Event.worktree,
        Event.mkdirAll (filepath.Join [cfg.manifestPath, appName]),
        Event.mkdirAll (filepath.Join [cfg.argocdAppPath])]
      ++ manifestCalls cfg appName manifests ++ publishCalls cfg appName) = true := by
  rw [quiet_append, quiet_append, quiet_manifestCalls]
  rfl

theorem deployBody_cases (cfg : Config) (tpl : Templates) (env : Env) (w : World)
    (dir appName image : String) :
    BodyOutcome (deployBodySteps cfg tpl env appName image)
      (deployDirty cfg tpl w appName image) env (Event.plainClone dir cfg.githubURL) w
      (deployBody cfg tpl env dir appName image w) := by
  obtain ⟨hf, ho⟩ := deployBody_outcome cfg tpl env w dir appName image
  have hcalls : deployBodyCalls cfg dir appName
      = Event.plainClone dir cfg.githubURL :: ([Event.worktree,
        Event.mkdirAll (filepath.Join [cfg.manifestPath, appName]),
        Event.mkdirAll (filepath.Join [cfg.argocdAppPath])]
      ++ manifestCalls cfg appName manifests ++ publishCalls cfg appName) := by
    simp [deployBodyCalls, publishCalls]
  cases hff : firstFailure (deployBodySteps cfg tpl env appName image) with
  | some msg =>
    obtain ⟨evs, d, heq, hq⟩ := hf msg hff
    exact ⟨evs, hq, Or.inl ⟨msg, d, hff, heq⟩⟩
  | none =>
    obtain ⟨R, hR, hclean, hdirty⟩ := ho hff
    refine ⟨_, quiet_deployBodyCalls_tail cfg appName, Or.inr ?_⟩
    by_cases hc : ∀ q, overlay R q (w.remote.get q) = w.remote.get q
    · have hd : deployDirty cfg tpl w appName image = false := by
        cases hdd : deployDirty cfg tpl w appName image with
        | false => rfl
        | true => exact absurd hc ((deployDirty_iff cfg tpl w appName image R hR).1 hdd)
      left
      obtain ⟨d, h⟩ := hclean hc
      rw [h, hcalls]
      exact ⟨hff, hd, rfl, rfl, d, rfl⟩
    · have hd : deployDirty cfg tpl w appName image = true :=
        (deployDirty_iff cfg tpl w appName image R hR).2 hc
      right
      obtain ⟨hcm, hrest⟩ := hdirty hc
      cases hcf : env.faults.commit with
      | some c =>
        left
        obtain ⟨d, h⟩ := hcm c hcf
        refine ⟨hff, hd, deployMessage appName image, c, d, rfl, ?_⟩
        rw [h, hcalls]
      | none =>
        right
        cases hpf : env.faults.push with
        | some c =>
          left
          obtain ⟨d, h⟩ := (hrest hcf).1 c hpf
          refine ⟨hff, hd, rfl, deployMessage appName image, c, d, rfl, ?_⟩
          rw [h, hcalls]
        | none =>
          right
          obtain ⟨t', d, -, heq⟩ := (hrest hcf).2 hpf
          refine ⟨hff, hd, rfl, rfl, deployMessage appName image, t',
            deployMessage appName image :: w.commits, d, ?_⟩
          rw [heq, hcalls]
          exact ⟨rfl, rfl, rfl⟩

theorem destroyBody_cases (cfg : Config) (env : Env) (w : World) (dir appName : String) :
    BodyOutcome (destroyBodySteps cfg env w appName) (destroyDirty cfg w appName) env
      (Event.plainClone dir cfg.githubURL) w (destroyBody cfg env dir appName w) := by
  obtain ⟨hf, ho⟩ := destroyBody_outcome cfg env w dir appName
  cases hff : firstFailure (destroyBodySteps cfg env w appName) with
  | some msg =>
    obtain ⟨evs, d, heq, hq⟩ := hf msg hff
    exact ⟨evs, hq, Or.inl ⟨msg, d, hff, heq⟩⟩
  | none =>
    obtain ⟨evs, hq, hclean, hdirty⟩ := ho hff
    refine ⟨evs, hq, Or.inr ?_⟩
    cases hd : destroyDirty cfg w appName with
    | false =>
      left
      obtain ⟨d, h⟩ := hclean hd
      rw [h]
      exact ⟨hff, rfl, rfl, rfl, d, rfl⟩
    | true =>
      right
      obtain ⟨hcm, hrest⟩ := hdirty hd
      cases hcf : env.faults.commit with
      | some c =>
        left
        obtain ⟨d, h⟩ := hcm c hcf
        exact ⟨hff, rfl, destroyMessage appName, c, d, rfl, h⟩
      | none =>
        right
        cases hpf : env.faults.push with
        | some c =>
          left
          obtain ⟨d, h⟩ := (hrest hcf).1 c hpf
          exact ⟨hff, rfl, rfl, destroyMessage appName, c, d, rfl, h⟩
        | none =>
          right
          obtain ⟨d, h⟩ := (hrest hcf).2 hpf
          refine ⟨hff, rfl, rfl, rfl, destroyMessage appName, destroyFiles cfg w appName,
            destroyMessage appName :: w.commits, d, ?_⟩
          rw [h]
          exact ⟨rfl, rfl, rfl⟩

/-! ## The push discipline -/

theorem callsOf_append (w : World) (res : ToolReturn) (w2 : World) (evs : List Event)
    (h : w2.trace = w.trace ++ evs) : callsOf w (res, w2) = evs := by
  simp [callsOf, h]

/-- The calls of an operation whose body ran in the temporary directory `dir`. -/
theorem wrapped_trace (env : Env) (w : World) (dir : String) (evs : List Event)
    (d : List String) (tree : Tree) (log : List String) :
    (osRemoveAllTemp env (({ w.emit (Event.mkdirTemp dir) with
        disk := dir :: w.disk }.emitAll evs).onDisk d) dir).trace
        = w.trace ++ (Event.mkdirTemp dir :: evs ++ [Event.removeAllTemp dir])
    ∧ (osRemoveAllTemp env (World.onDisk { ({ w.emit (Event.mkdirTemp dir) with
        disk := dir :: w.disk }.emitAll evs) with remote := tree, commits := log } d)
        dir).trace
        = w.trace ++ (Event.mkdirTemp dir :: evs ++ [Event.removeAllTemp dir]) := by
  simp [World.emit, World.emitAll, World.onDisk]

theorem filter_quiet_calls (dir url : String) (evs tail : List Event)
    (hq : quiet evs = true) :
    (Event.mkdirTemp dir :: (Event.plainClone dir url :: evs ++ tail)
        ++ [Event.removeAllTemp dir]).filter Event.isPush = tail.filter Event.isPush
    ∧ (Event.mkdirTemp dir :: (Event.plainClone dir url :: evs ++ tail)
        ++ [Event.removeAllTemp dir]).filter Event.isClone
        = Event.plainClone dir url :: tail.filter Event.isClone := by
  obtain ⟨hp, hc, -⟩ := quiet_filters evs hq
  constructor
  · simp [List.filter_cons, List.filter_append, Event.isPush, hp]
  · simp [List.filter_cons, List.filter_append, Event.isClone, hc]

theorem push_mem_iff_filter (evs : List Event) :
    Event.push ∈ evs ↔ evs.filter Event.isPush ≠ [] := by
  rw [Ne, List.filter_eq_nil_iff]
  constructor
  · intro h hall
    exact hall Event.push h rfl
  · intro h
    by_contra hn
    apply h
    intro e he hpe
    cases e <;> first | exact hn he | cases hpe

theorem firstFailure_stepsBeforePush (steps : List Step) (dirty : Bool) (env : Env)
    (hmk : env.faults.mkdirTemp = none) :
    firstFailure (stepsBeforePush steps dirty env) = match firstFailure steps with
      | some msg => some msg
      | none => if dirty then env.faults.commit.map (fun c => "Failed to commit changes: " ++ c)
          else none := by
  rw [stepsBeforePush, hmk]
  show firstFailure (steps ++ _) = _
  rw [firstFailure_append]
  cases firstFailure steps with
  | some msg => rfl
  | none =>
    cases dirty with
    | false => rfl
    | true =>
      cases env.faults.commit with
      | none => rfl
      | some c => rfl

theorem pushDiscipline_of_mkdirTemp_failure (steps : List Step) (dirty : Bool) (env : Env)
    (w : World) (dir c : String) (hmk : env.faults.mkdirTemp = some c) :
    PushDiscipline (stepsBeforePush steps dirty env) dirty env w
      ((NewToolResultError ("Failed to create temp dir: " ++ c), none),
        w.emit (Event.mkdirTemp dir)) := by
  have hcalls : callsOf w ((NewToolResultError ("Failed to create temp dir: " ++ c), none),
      w.emit (Event.mkdirTemp dir)) = [Event.mkdirTemp dir] :=
    callsOf_append w _ _ _ rfl
  have hff : firstFailure (stepsBeforePush steps dirty env)
      = some ("Failed to create temp dir: " ++ c) := by
    rw [stepsBeforePush, hmk]; rfl
  simp only [PushDiscipline, hcalls, hff]
  refine ⟨?_, ?_, ?_, ?_, ?_, ?_⟩
  · intro msg h
    cases h
    exact ⟨rfl, by simp, rfl, rfl⟩
  · intro h; simp at h
  · intro c h; simp at h
  · intro _; exact ⟨rfl, rfl⟩
  · simp [List.filter_cons, Event.isPush]
  · simp [List.filter_cons, Event.isClone]

theorem pushDiscipline_of_bodyOutcome (steps : List Step) (dirty : Bool) (env : Env)
    (w : World) (dir url : String) (body : ToolReturn × World)
    (hmk : env.faults.mkdirTemp = none)
    (hout : BodyOutcome steps dirty env (Event.plainClone dir url)
      { w.emit (Event.mkdirTemp dir) with disk := dir :: w.disk } body) :
    PushDiscipline (stepsBeforePush steps dirty env) dirty env w
      (body.1, osRemoveAllTemp env body.2 dir) := by
  have hsteps := firstFailure_stepsBeforePush steps dirty env hmk
  obtain ⟨evs, hq, h⟩ := hout
  rcases h with ⟨msg, d, hff, hb⟩ | ⟨hff, hd, herr, -, d, hb⟩
    | ⟨hff, hd, message, c, d, hcf, hb⟩ | ⟨hff, hd, hcf, message, c, d, hpf, hb⟩
    | ⟨hff, hd, hcf, hpf, message, tree, log, d, herr, -, hb⟩
  · -- a step of the body failed
    have hcalls : callsOf w (body.1, osRemoveAllTemp env body.2 dir)
        = Event.mkdirTemp dir :: (Event.plainClone dir url :: evs ++ [])
          ++ [Event.removeAllTemp dir] := by
      apply callsOf_append
      rw [hb, List.append_nil]
      exact (wrapped_trace env w dir _ d [] []).1
    obtain ⟨hfp, hfc⟩ := filter_quiet_calls dir url evs [] hq
    rw [← hcalls] at hfp hfc
    have hnp : Event.push ∉ callsOf w (body.1, osRemoveAllTemp env body.2 dir) := by
      rw [push_mem_iff_filter, hfp]; simp
    rw [hff] at hsteps
    refine ⟨?_, fun h => absurd h hnp, fun c h => absurd h hnp, ?_, ?_, ?_⟩
    · intro m hm
      rw [hsteps] at hm
      cases hm
      refine ⟨?_, hnp, ?_, ?_⟩ <;> rw [hb] <;>
        first | rfl | simp [World.emit, World.emitAll, World.onDisk]
    · intro _; constructor <;> rw [hb] <;>
        first | rfl | simp [World.emit, World.emitAll, World.onDisk]
    · rw [hfp]; simp
    · rw [hfc]; simp
  · -- the working tree was clean
    have hcalls : callsOf w (body.1, osRemoveAllTemp env body.2 dir)
        = Event.mkdirTemp dir :: (Event.plainClone dir url :: evs ++ [])
          ++ [Event.removeAllTemp dir] := by
      apply callsOf_append
      rw [hb, List.append_nil]
      exact (wrapped_trace env w dir _ d [] []).1
    obtain ⟨hfp, hfc⟩ := filter_quiet_calls dir url evs [] hq
    rw [← hcalls] at hfp hfc
    have hnp : Event.push ∉ callsOf w (body.1, osRemoveAllTemp env body.2 dir) := by
      rw [push_mem_iff_filter, hfp]; simp
    subst hd
    rw [hff] at hsteps
    refine ⟨?_, fun h => absurd h hnp, fun c h => absurd h hnp, ?_, ?_, ?_⟩
    · intro m hm
      rw [hsteps] at hm
      simp at hm
    · intro _; constructor <;> rw [hb] <;>
        first | rfl | simp [World.emit, World.emitAll, World.onDisk]
    · rw [hfp]; simp
    · rw [hfc]; simp
  · -- the commit failed
    have hcalls : callsOf w (body.1, osRemoveAllTemp env body.2 dir)
        = Event.mkdirTemp dir :: (Event.plainClone dir url :: evs ++ [Event.commit message])
          ++ [Event.removeAllTemp dir] := by
      apply callsOf_append
      rw [hb]
      exact (wrapped_trace env w dir _ d [] []).1
    obtain ⟨hfp, hfc⟩ := filter_quiet_calls dir url evs [Event.commit message] hq
    rw [← hcalls] at hfp hfc
    have hnp : Event.push ∉ callsOf w (body.1, osRemoveAllTemp env body.2 dir) := by
      rw [push_mem_iff_filter, hfp]; simp [List.filter_cons, Event.isPush]
    subst hd
    rw [hff, hcf] at hsteps
    refine ⟨?_, fun h => absurd h hnp, fun c h => absurd h hnp, ?_, ?_, ?_⟩
    · intro m hm
      rw [hsteps] at hm
      simp only [if_true, Option.map_some', Option.some.injEq] at hm
      subst hm
      refine ⟨?_, hnp, ?_, ?_⟩ <;> rw [hb] <;>
        first | rfl | simp [World.emit, World.emitAll, World.onDisk]
    · intro _; constructor <;> rw [hb] <;>
        first | rfl | simp [World.emit, World.emitAll, World.onDisk]
    · rw [hfp]; simp [List.filter_cons, Event.isPush]
    · rw [hfc]; simp [List.filter_cons, Event.isClone]
  · -- the push failed
    have hcalls : callsOf w (body.1, osRemoveAllTemp env body.2 dir)
        = Event.mkdirTemp dir
          :: (Event.plainClone dir url :: evs ++ [Event.commit message, Event.push])
          ++ [Event.removeAllTemp dir] := by
      apply callsOf_append
      rw [hb]
      exact (wrapped_trace env w dir _ d [] []).1
    obtain ⟨hfp, hfc⟩ := filter_quiet_calls dir url evs [Event.commit message, Event.push] hq
    rw [← hcalls] at hfp hfc
    subst hd
    rw [hff, hcf] at hsteps
    refine ⟨?_, fun _ => ⟨?_, rfl⟩, ?_, ?_, ?_, ?_⟩
    · intro m hm
      rw [hsteps] at hm
      simp at hm
    · rw [hsteps]; rfl
    · intro c2 _ hc2
      rw [hpf] at hc2
      cases hc2
      refine ⟨?_, ?_, ?_⟩ <;> rw [hb] <;>
        first | rfl | simp [World.emit, World.emitAll, World.onDisk]
    · intro _; constructor <;> rw [hb] <;>
        first | rfl | simp [World.emit, World.emitAll, World.onDisk]
    · rw [hfp]; simp [List.filter_cons, Event.isPush]
    · rw [hfc]; simp [List.filter_cons, Event.isClone]
  · -- the push went through
    have hcalls : callsOf w (body.1, osRemoveAllTemp env body.2 dir)
        = Event.mkdirTemp dir
          :: (Event.plainClone dir url :: evs ++ [Event.commit message, Event.push])
          ++ [Event.removeAllTemp dir] := by
      apply callsOf_append
      rw [hb]
      exact (wrapped_trace env w dir _ d tree log).2
    obtain ⟨hfp, hfc⟩ := filter_quiet_calls dir url evs [Event.commit message, Event.push] hq
    rw [← hcalls] at hfp hfc
    subst hd
    rw [hff, hcf] at hsteps
    refine ⟨?_, fun _ => ⟨?_, rfl⟩, ?_, ?_, ?_, ?_⟩
    · intro m hm
      rw [hsteps] at hm
      simp at hm
    · rw [hsteps]; rfl
    · intro c2 _ hc2
      rw [hpf] at hc2
      cases hc2
    · intro h
      rw [herr] at h
      cases h
    · rw [hfp]; simp [List.filter_cons, Event.isPush]
    · rw [hfc]; simp [List.filter_cons, Event.isClone]

/-- The body of `deploy` or `destroy` only appends to the trace, starting with the clone. -/
theorem bodyOutcome_trace (steps : List Step) (dirty : Bool) (env : Env) (clone : Event)
    (w : World) (r : ToolReturn × World) (h : BodyOutcome steps dirty env clone w r) :
    ∃ evs, r.2.trace = w.trace ++ clone :: evs := by
  obtain ⟨evs, -, h⟩ := h
  rcases h with ⟨msg, d, -, hb⟩ | ⟨-, -, -, -, d, hb⟩ | ⟨-, -, message, c, d, -, hb⟩
    | ⟨-, -, -, message, c, d, -, hb⟩ | ⟨-, -, -, -, message, tree, log, d, -, -, hb⟩
  · exact ⟨evs, by rw [hb]; rfl⟩
  · exact ⟨evs, by rw [hb]; rfl⟩
  · exact ⟨evs ++ [Event.commit message], by rw [hb]; rfl⟩
  · exact ⟨evs ++ [Event.commit message, Event.push], by rw [hb]; rfl⟩
  · exact ⟨evs ++ [Event.commit message, Event.push], by rw [hb]; rfl⟩

/-- An operation that created its temporary directory `dir`, ran a body there and called
`os.RemoveAll(dir)` on the way out: its calls start with the creation and end with the
removal of `dir`. -/
theorem removal_last_of_bodyOutcome (steps : List Step) (dirty : Bool) (env : Env) (w : World)
    (dir url : String) (body : ToolReturn × World)
    (hout : BodyOutcome steps dirty env (Event.plainClone dir url)
      { w.emit (Event.mkdirTemp dir) with disk := dir :: w.disk } body) :
    ∃ mid, callsOf w (body.1, osRemoveAllTemp env body.2 dir)
        = Event.mkdirTemp dir :: mid ++ [Event.removeAllTemp dir] := by
  obtain ⟨evs, htr⟩ := bodyOutcome_trace _ _ _ _ _ _ hout
  refine ⟨Event.plainClone dir url :: evs, ?_⟩
  apply callsOf_append
  simp [World.emit, htr]

/-! ## C11: a push comes only after every step before it -/

/-- C11, amended: `deploy` and `destroy` keep the push discipline for the steps whose failure
ends them.  For `deploy` these are the temporary directory, the clone, the worktree, the two
directories, the parse, creation, execution and staging of each of the four files, the status
and the commit.  For `destroy` they are the temporary directory, the clone, the worktree, the
removal of the manifest directory from disk (the fallback taken when `w.Remove` fails, and
the clean-up after it), the removal of the descriptor unless it does not exist, the staging
of `.`, the status and the commit; a failing `w.Remove`, a failing `w.Add(manifestPath)` and
a descriptor that does not exist are tolerated.  When one of these steps fails the result is
the error result with the text and cause of that step, no push is attempted and the remote
is unchanged; a push is attempted only when none failed and the working tree was not clean;
a failing push gives the error result with its cause and leaves the remote unchanged; the
push and the clone are each attempted at most once. -/
theorem push_only_after_every_step (cfg : Config) (tpl : Templates) (env : Env) (w : World)
    (appName image : String) :
    PushDiscipline
        (stepsBeforePush (deployBodySteps cfg tpl env appName image)
          (deployDirty cfg tpl w appName image) env)
        (deployDirty cfg tpl w appName image) env w (deploy cfg tpl env w appName image)
      ∧ PushDiscipline
        (stepsBeforePush (destroyBodySteps cfg env w appName) (destroyDirty cfg w appName) env)
        (destroyDirty cfg w appName) env w (destroy cfg env w appName) := by
  constructor
  · cases hmk : env.faults.mkdirTemp with
    | some c =>
      have hop : deploy cfg tpl env w appName image
          = ((NewToolResultError ("Failed to create temp dir: " ++ c), none),
            w.emit (Event.mkdirTemp (env.osTempDir ++ "/" ++ "mcp-deployer-" ++ env.suffix))) := by
        simp only [deploy, osMkdirTemp, hmk]
      rw [hop]
      exact pushDiscipline_of_mkdirTemp_failure _ _ env w _ c hmk
    | none =>
      have hop : deploy cfg tpl env w appName image
          = ((deployBody cfg tpl env (env.osTempDir ++ "/" ++ "mcp-deployer-" ++ env.suffix)
                appName image
                { w.emit (Event.mkdirTemp (env.osTempDir ++ "/" ++ "mcp-deployer-" ++ env.suffix))
                  with disk :=
                    (env.osTempDir ++ "/" ++ "mcp-deployer-" ++ env.suffix) :: w.disk }).1,
              osRemoveAllTemp env
                (deployBody cfg tpl env (env.osTempDir ++ "/" ++ "mcp-deployer-" ++ env.suffix)
                  appName image
                  { w.emit
                      (Event.mkdirTemp (env.osTempDir ++ "/" ++ "mcp-deployer-" ++ env.suffix))
                    with disk :=
                      (env.osTempDir ++ "/" ++ "mcp-deployer-" ++ env.suffix) :: w.disk }).2
                (env.osTempDir ++ "/" ++ "mcp-deployer-" ++ env.suffix)) := by
        simp only [deploy, osMkdirTemp, hmk]
      rw [hop]
      exact pushDiscipline_of_bodyOutcome _ _ env w _ cfg.githubURL _ hmk
        (deployBody_cases cfg tpl env _ _ appName image)
  · cases hmk : env.faults.mkdirTemp with
    | some c =>
      have hop : destroy cfg env w appName
          = ((NewToolResultError ("Failed to create temp dir: " ++ c), none),
            w.emit
              (Event.mkdirTemp (env.osTempDir ++ "/" ++ "mcp-destroyer-" ++ env.suffix))) := by
        simp only [destroy, osMkdirTemp, hmk]
      rw [hop]
      exact pushDiscipline_of_mkdirTemp_failure _ _ env w _ c hmk
    | none =>
      have hop : destroy cfg env w appName
          = ((destroyBody cfg env (env.osTempDir ++ "/" ++ "mcp-destroyer-" ++ env.suffix)
                appName
                { w.emit
                    (Event.mkdirTemp (env.osTempDir ++ "/" ++ "mcp-destroyer-" ++ env.suffix))
                  with disk :=
                    (env.osTempDir ++ "/" ++ "mcp-destroyer-" ++ env.suffix) :: w.disk }).1,
              osRemoveAllTemp env
                (destroyBody cfg env (env.osTempDir ++ "/" ++ "mcp-destroyer-" ++ env.suffix)
                  appName
                  { w.emit
                      (Event.mkdirTemp (env.osTempDir ++ "/" ++ "mcp-destroyer-" ++ env.suffix))
                    with disk :=
                      (env.osTempDir ++ "/" ++ "mcp-destroyer-" ++ env.suffix) :: w.disk }).2
                (env.osTempDir ++ "/" ++ "mcp-destroyer-" ++ env.suffix)) := by
        simp only [destroy, osMkdirTemp, hmk]
      rw [hop]
      exact pushDiscipline_of_bodyOutcome _ _ env w _ cfg.githubURL _ hmk
        (destroyBody_cases cfg env
          { w.emit (Event.mkdirTemp (env.osTempDir ++ "/" ++ "mcp-destroyer-" ++ env.suffix))
            with disk := (env.osTempDir ++ "/" ++ "mcp-destroyer-" ++ env.suffix) :: w.disk }
          (env.osTempDir ++ "/" ++ "mcp-destroyer-" ++ env.suffix) appName)

/-- C11, counterexample: in `destroy` of a deployed application a removal step before the
push fails, `w.Remove` of the manifest directory, and yet the result is the success text,
not error-flagged; the push is attempted and the remote loses the files of the
application. -/
theorem destroy_pushes_after_failed_index_removal :
    publishedWorld.remote.existsAt (manifestDirOf sampleConfig "shop") = true
      ∧ noIndexRemovalEnv.faults.gitRemove (manifestDirOf sampleConfig "shop")
        = some "entry not found"
      ∧ (destroy sampleConfig noIndexRemovalEnv publishedWorld "shop").1
        = (NewToolResultText "Successfully destroyed shop (manifests removed).", none)
      ∧ (destroy sampleConfig noIndexRemovalEnv publishedWorld "shop").1.1.isError = false
      ∧ (destroy sampleConfig noIndexRemovalEnv publishedWorld "shop").2.trace
        = [Event.mkdirTemp "/tmp/mcp-destroyer-123",
          Event.plainClone "/tmp/mcp-destroyer-123" "https://git.example/ops.git",
          Event.worktree, Event.stat "manifests/shop", Event.gitRemove "manifests/shop",
          Event.removeAll "manifests/shop", Event.add "manifests",
          Event.removeAll "manifests/shop", Event.remove "argocd-apps/shop.yaml",
          Event.add ".", Event.status, Event.commit "Destroy application shop", Event.push,
          Event.removeAllTemp "/tmp/mcp-destroyer-123"]
      ∧ (destroy sampleConfig noIndexRemovalEnv publishedWorld "shop").2.remote
        = [("README.md", "ops")]
      ∧ (destroy sampleConfig noIndexRemovalEnv publishedWorld "shop").2.remote
        ≠ publishedWorld.remote :=
  ⟨by rfl, by rfl, by rfl, by rfl, by rfl, by rfl, by decide⟩

/-! ## The local disk -/

theorem inDir_self (d : String) : inDir d d = true := by
  simp [inDir]

theorem inDir_iff (d p : String) :
    inDir d p = true ↔ p = d ∨ (d.data ++ ['/']) <+: p.data := by
  simp [inDir, List.isPrefixOf_iff_prefix]

theorem inDir_trans (a b c : String) (hab : inDir a b = true) (hbc : inDir b c = true) :
    inDir a c = true := by
  rw [inDir_iff] at hab hbc ⊢
  rcases hbc with rfl | hbc
  · exact hab
  · rcases hab with rfl | hab
    · exact Or.inr hbc
    · right
      exact hab.trans ((List.prefix_append _ _).trans hbc)

theorem Disk.mem_ancestors (p a : String) :
    a ∈ Disk.ancestors p ↔ a = p ∨ (a.data ≠ [] ∧ (a.data ++ ['/']) <+: p.data) := by
  simp only [Disk.ancestors, List.mem_append, List.mem_map, List.mem_filter, List.mem_inits,
    List.mem_singleton, Bool.and_eq_true, decide_eq_true_eq, List.isPrefixOf_iff_prefix]
  constructor
  · rintro (⟨q, ⟨-, hq1, hq2⟩, rfl⟩ | rfl)
    · exact Or.inr ⟨hq1, hq2⟩
    · exact Or.inl rfl
  · rintro (rfl | ⟨h1, h2⟩)
    · exact Or.inr rfl
    · exact Or.inl ⟨a.data, ⟨(List.prefix_append _ _).trans h2, h1, h2⟩, rfl⟩

/-- A directory on the way to an entry of `dir` lies in `dir` or is on the way to `dir`. -/
theorem Disk.ancestors_inDir (dir p a : String) (hp : inDir dir p = true)
    (ha : a ∈ Disk.ancestors p) : inDir dir a = true ∨ a ∈ Disk.ancestors dir := by
  rw [Disk.mem_ancestors] at ha
  rcases ha with rfl | ⟨hne, hpre⟩
  · exact Or.inl hp
  · rw [inDir_iff] at hp
    rcases hp with rfl | hp
    · exact Or.inr ((Disk.mem_ancestors _ _).2 (Or.inr ⟨hne, hpre⟩))
    · rcases List.prefix_or_prefix_of_prefix hpre hp with h | h
      · rcases List.prefix_concat_iff.1 h with h | h
        · left
          rw [inDir_iff]
          left
          have := List.append_cancel_right h
          exact String.ext this
        · exact Or.inr ((Disk.mem_ancestors _ _).2 (Or.inr ⟨hne, h⟩))
      · rcases List.prefix_concat_iff.1 h with h | h
        · left
          rw [inDir_iff]
          left
          have := List.append_cancel_right h
          exact String.ext this.symm
        · left
          rw [inDir_iff]
          exact Or.inr h

theorem Disk.sameOutside_refl (dir : String) (a : List String) : Disk.sameOutside dir a a :=
  rfl

theorem Disk.sameOutside_trans (dir : String) (a b c : List String)
    (hab : Disk.sameOutside dir a b) (hbc : Disk.sameOutside dir b c) :
    Disk.sameOutside dir a c := by
  unfold Disk.sameOutside at *
  rw [hbc, hab]

theorem Disk.holdsAbove_of_sameOutside (dir : String) (a b : List String)
    (h : Disk.sameOutside dir a b) (ha : Disk.holdsAbove dir a) : Disk.holdsAbove dir b := by
  intro x hx hout
  have hxa : x ∈ a.filter (fun p => !inDir dir p) := by
    rw [List.mem_filter]
    exact ⟨ha x hx hout, by simp [hout]⟩
  rw [← h] at hxa
  exact (List.mem_filter.1 hxa).1

theorem Disk.removeAll_sameOutside (dir p : String) (disk : List String)
    (hp : inDir dir p = true) : Disk.sameOutside dir disk (Disk.removeAll disk p) := by
  unfold Disk.sameOutside Disk.removeAll
  rw [List.filter_filter]
  apply List.filter_congr
  intro x _
  cases hx : inDir dir x with
  | true => simp
  | false =>
    cases hpx : inDir p x with
    | false => simp
    | true => rw [inDir_trans dir p x hp hpx] at hx; cases hx

theorem Disk.remove_sameOutside (dir p : String) (disk : List String)
    (hp : inDir dir p = true) : Disk.sameOutside dir disk (Disk.remove disk p) := by
  unfold Disk.sameOutside Disk.remove
  rw [List.filter_filter]
  apply List.filter_congr
  intro x _
  by_cases hx : x = p
  · subst hx; simp [hp]
  · simp [hx]

theorem Disk.create_sameOutside (dir p : String) (disk : List String)
    (hp : inDir dir p = true) : Disk.sameOutside dir disk (Disk.create disk p) := by
  unfold Disk.sameOutside Disk.create
  split
  · rfl
  · simp [List.filter_append, List.filter_cons, hp]

theorem Disk.mkdirAll_sameOutside (dir p : String) (disk : List String)
    (hp : inDir dir p = true) (habove : Disk.holdsAbove dir disk) :
    Disk.sameOutside dir disk (Disk.mkdirAll disk p) := by
  unfold Disk.sameOutside Disk.mkdirAll
  rw [List.filter_append, List.filter_filter]
  have : (Disk.ancestors p).filter (fun a => (!inDir dir a) && decide (a ∉ disk)) = [] := by
    rw [List.filter_eq_nil_iff]
    intro a ha
    rcases Disk.ancestors_inDir dir p a hp ha with h | h
    · simp [h]
    · cases hin : inDir dir a with
      | true => simp
      | false => simp [habove a h hin]
  rw [this, List.append_nil]

theorem osMkdirAll_disk (dir : String) (env : Env) (w : World) (diskPath path : String)
    (r : Option String) (w' : World) (hp : inDir dir diskPath = true)
    (habove : Disk.holdsAbove dir w.disk) (h : osMkdirAll env w diskPath path = (r, w')) :
    Disk.sameOutside dir w.disk w'.disk := by
  unfold osMkdirAll at h
  split at h <;> cases h
  · exact Disk.sameOutside_refl _ _
  · exact Disk.mkdirAll_sameOutside dir diskPath w.disk hp habove

theorem osCreate_disk (dir : String) (env : Env) (ws : Workspace) (w : World)
    (diskPath path : String) (r : Except String Workspace) (w' : World)
    (hp : inDir dir diskPath = true) (h : osCreate env ws w diskPath path = (r, w')) :
    Disk.sameOutside dir w.disk w'.disk := by
  unfold osCreate at h
  split at h <;> cases h
  · exact Disk.sameOutside_refl _ _
  · exact Disk.create_sameOutside dir diskPath w.disk hp

theorem osRemoveAll_disk (dir : String) (env : Env) (ws : Workspace) (w : World)
    (diskPath path : String) (r : Except String Workspace) (w' : World)
    (hp : inDir dir diskPath = true) (h : osRemoveAll env ws w diskPath path = (r, w')) :
    Disk.sameOutside dir w.disk w'.disk := by
  unfold osRemoveAll at h
  split at h <;> cases h
  · exact Disk.sameOutside_refl _ _
  · exact Disk.removeAll_sameOutside dir diskPath w.disk hp

theorem osRemove_disk (dir : String) (env : Env) (ws : Workspace) (w : World)
    (diskPath path : String) (r : Except RemoveError Workspace) (w' : World)
    (hp : inDir dir diskPath = true) (h : osRemove env ws w diskPath path = (r, w')) :
    Disk.sameOutside dir w.disk w'.disk := by
  unfold osRemove at h
  split at h
  · cases h; exact Disk.sameOutside_refl _ _
  · split at h
    · cases h; exact Disk.remove_sameOutside dir diskPath w.disk hp
    · split at h
      · cases h; exact Disk.sameOutside_refl _ _
      · split at h
        · cases h; exact Disk.remove_sameOutside dir diskPath w.disk hp
        · cases h; exact Disk.sameOutside_refl _ _

theorem templateExecute_disk (env : Env) (tmpl : Template) (name : String) (ws : Workspace)
    (w : World) (path : String) (data : TemplateData) (r : Except String Workspace)
    (w' : World) (h : templateExecute env tmpl name ws w path data = (r, w')) :
    w'.disk = w.disk := by
  unfold templateExecute at h
  split at h
  · cases h; rfl
  · split at h <;> cases h <;> rfl

theorem worktreeAdd_disk (env : Env) (ws : Workspace) (w : World) (path : String)
    (r : Except String Workspace) (w' : World) (h : worktreeAdd env ws w path = (r, w')) :
    w'.disk = w.disk := by
  unfold worktreeAdd at h
  split at h <;> cases h <;> rfl

theorem worktreeStatus_disk (env : Env) (ws : Workspace) (w : World)
    (r : Except String Bool) (w' : World) (h : worktreeStatus env ws w = (r, w')) :
    w'.disk = w.disk := by
  unfold worktreeStatus at h
  split at h <;> cases h <;> rfl

theorem worktreeCommit_disk (env : Env) (ws : Workspace) (w : World) (message : String)
    (r : Except String Workspace) (w' : World)
    (h : worktreeCommit env ws w message = (r, w')) : w'.disk = w.disk := by
  unfold worktreeCommit at h
  split at h <;> cases h <;> rfl

theorem repoPush_disk (env : Env) (ws : Workspace) (w : World) (r : Option String)
    (w' : World) (h : repoPush env ws w = (r, w')) : w'.disk = w.disk := by
  unfold repoPush at h
  split at h <;> cases h <;> rfl

theorem gitPlainClone_disk (cfg : Config) (env : Env) (w : World) (dir : String)
    (r : Except String Workspace) (w' : World) (h : gitPlainClone cfg env w dir = (r, w')) :
    w'.disk = w.disk := by
  unfold gitPlainClone at h
  split at h <;> cases h <;> rfl

theorem repoWorktree_disk (env : Env) (w : World) (r : Option String) (w' : World)
    (h : repoWorktree env w = (r, w')) : w'.disk = w.disk := by
  unfold repoWorktree at h
  cases h; rfl

theorem worktreeStat_disk (ws : Workspace) (w : World) (path : String) (r : Bool)
    (w' : World) (h : worktreeStat ws w path = (r, w')) : w'.disk = w.disk := by
  unfold worktreeStat at h
  cases h; rfl

theorem worktreeRemove_disk (env : Env) (ws : Workspace) (w : World) (path : String)
    (r : Except String Workspace) (w' : World) (h : worktreeRemove env ws w path = (r, w')) :
    w'.disk = w.disk := by
  unfold worktreeRemove at h
  split at h <;> cases h <;> rfl

theorem renderManifests_disk (dir : String) (cfg : Config) (tpl : Templates) (env : Env)
    (diskDir rel : String) (data : TemplateData) (appName : String) (names : List String)
    (hin : ∀ t ∈ names, inDir dir (filepath.Join [diskDir, t]) = true) :
    ∀ (ws : Workspace) (w : World),
      Disk.sameOutside dir w.disk
        (renderManifests cfg tpl env diskDir rel data appName names ws w).2.disk := by
  induction names with
  | nil => intro ws w; exact Disk.sameOutside_refl _ _
  | cons t rest ih =>
    intro ws w
    have ht := hin t (List.mem_cons_self _ _)
    have ih' := ih (fun x hx => hin x (List.mem_cons_of_mem _ hx))
    unfold renderManifests
    split
    · exact Disk.sameOutside_refl _ _
    · split
      · rename_i h1
        exact osCreate_disk dir _ _ _ _ _ _ _ ht h1
      · rename_i h1
        have a1 := osCreate_disk dir _ _ _ _ _ _ _ ht h1
        split
        · rename_i h2
          rw [← templateExecute_disk _ _ _ _ _ _ _ _ _ h2] at a1
          exact a1
        · rename_i h2
          rw [← templateExecute_disk _ _ _ _ _ _ _ _ _ h2] at a1
          split
          · rename_i h3
            rw [← worktreeAdd_disk _ _ _ _ _ _ h3] at a1
            exact a1
          · rename_i h3
            rw [← worktreeAdd_disk _ _ _ _ _ _ h3] at a1
            exact Disk.sameOutside_trans _ _ _ _ a1 (ih' _ _)

theorem renderManifests_result_disk (dir : String) (cfg : Config) (tpl : Templates)
    (env : Env) (diskDir rel : String) (data : TemplateData) (appName : String)
    (names : List String)
    (hin : ∀ t ∈ names, inDir dir (filepath.Join [diskDir, t]) = true) (ws : Workspace)
    (w : World) (r : Except CallToolResult Workspace) (w' : World)
    (h : renderManifests cfg tpl env diskDir rel data appName names ws w = (r, w')) :
    Disk.sameOutside dir w.disk w'.disk := by
  have := renderManifests_disk dir cfg tpl env diskDir rel data appName names hin ws w
  rw [h] at this
  exact this

theorem deployPublish_disk (dir : String) (cfg : Config) (tpl : Templates) (env : Env)
    (diskDir rel : String) (data : TemplateData) (appName image : String) (ws : Workspace)
    (w : World) (hin : inDir dir (filepath.Join [diskDir, appName ++ ".yaml"]) = true) :
    Disk.sameOutside dir w.disk
      (deployPublish cfg tpl env diskDir rel data appName image ws w).2.disk := by
  unfold deployPublish
  split
  · exact Disk.sameOutside_refl _ _
  · try dsimp only
    split
    · rename_i h1
      exact osCreate_disk dir _ _ _ _ _ _ _ hin h1
    · rename_i h1
      have a1 := osCreate_disk dir _ _ _ _ _ _ _ hin h1
      split
      · rename_i h2
        rw [← templateExecute_disk _ _ _ _ _ _ _ _ _ h2] at a1
        exact a1
      · rename_i h2
        rw [← templateExecute_disk _ _ _ _ _ _ _ _ _ h2] at a1
        split
        · rename_i h3
          rw [← worktreeAdd_disk _ _ _ _ _ _ h3] at a1
          exact a1
        · rename_i h3
          rw [← worktreeAdd_disk _ _ _ _ _ _ h3] at a1
          split
          · rename_i h4
            rw [← worktreeStatus_disk _ _ _ _ _ h4] at a1
            exact a1
          · rename_i h4
            rw [← worktreeStatus_disk _ _ _ _ _ h4] at a1
            exact a1
          · rename_i h4
            rw [← worktreeStatus_disk _ _ _ _ _ h4] at a1
            try dsimp only
            split
            · rename_i h5
              rw [← worktreeCommit_disk _ _ _ _ _ _ h5] at a1
              exact a1
            · rename_i h5
              rw [← worktreeCommit_disk _ _ _ _ _ _ h5] at a1
              split
              · rename_i h6
                rw [← repoPush_disk _ _ _ _ _ h6] at a1
                exact a1
              · rename_i h6
                rw [← repoPush_disk _ _ _ _ _ h6] at a1
                exact a1

theorem deployBody_disk (cfg : Config) (tpl : Templates) (env : Env) (dir appName image : String)
    (w : World) (hin : ∀ p ∈ deployDiskPaths cfg dir appName, inDir dir p = true)
    (habove : Disk.holdsAbove dir w.disk) :
    Disk.sameOutside dir w.disk (deployBody cfg tpl env dir appName image w).2.disk := by
  have hin1 : inDir dir (filepath.Join [dir, cfg.manifestPath, appName]) = true :=
    hin _ (by simp [deployDiskPaths])
  have hin2 : inDir dir (filepath.Join [dir, cfg.argocdAppPath]) = true :=
    hin _ (by simp [deployDiskPaths])
  have hin3 : ∀ t ∈ manifests,
      inDir dir (filepath.Join [filepath.Join [dir, cfg.manifestPath, appName], t]) = true :=
    fun t ht => hin _ (by simp only [deployDiskPaths, List.mem_append, List.mem_map]
                          exact Or.inl (Or.inr ⟨t, ht, rfl⟩))
  have hin4 : inDir dir (filepath.Join [filepath.Join [dir, cfg.argocdAppPath],
      appName ++ ".yaml"]) = true :=
    hin _ (by simp [deployDiskPaths])
  unfold deployBody
  split
  · rename_i h1
    rw [← gitPlainClone_disk _ _ _ _ _ _ h1]
    exact Disk.sameOutside_refl _ _
  · rename_i h1
    have e1 := gitPlainClone_disk _ _ _ _ _ _ h1
    split
    · rename_i h2
      rw [← e1, ← repoWorktree_disk _ _ _ _ h2]
      exact Disk.sameOutside_refl _ _
    · rename_i h2
      have e2 := (repoWorktree_disk _ _ _ _ h2).trans e1
      try dsimp only
      split
      · rename_i h3
        have a3 := osMkdirAll_disk dir _ _ _ _ _ _ hin1 (by rw [e2]; exact habove) h3
        rw [e2] at a3
        exact a3
      · rename_i h3
        have a3 := osMkdirAll_disk dir _ _ _ _ _ _ hin1 (by rw [e2]; exact habove) h3
        rw [e2] at a3
        have b3 := Disk.holdsAbove_of_sameOutside _ _ _ a3 habove
        split
        · rename_i h4
          exact Disk.sameOutside_trans _ _ _ _ a3 (osMkdirAll_disk dir _ _ _ _ _ _ hin2 b3 h4)
        · rename_i h4
          have a4 := Disk.sameOutside_trans _ _ _ _ a3
            (osMkdirAll_disk dir _ _ _ _ _ _ hin2 b3 h4)
          split
          · rename_i h5
            have a5 := renderManifests_result_disk dir cfg tpl env _ _ _ appName manifests hin3
              _ _ _ _ h5
            exact Disk.sameOutside_trans _ _ _ _ a4 a5
          · rename_i h5
            have a5 := renderManifests_result_disk dir cfg tpl env _ _ _ appName manifests hin3
              _ _ _ _ h5
            exact Disk.sameOutside_trans _ _ _ _ (Disk.sameOutside_trans _ _ _ _ a4 a5)
              (deployPublish_disk dir cfg tpl env _ _ _ appName image _ _ hin4)

theorem destroyRemoveManifests_disk (dir : String) (cfg : Config) (env : Env)
    (tempDir manifestDir : String) (ws : Workspace) (w : World)
    (r : Except CallToolResult Workspace) (w' : World)
    (hin : inDir dir (filepath.Join [tempDir, manifestDir]) = true)
    (h : destroyRemoveManifests cfg env tempDir manifestDir ws w = (r, w')) :
    Disk.sameOutside dir w.disk w'.disk := by
  unfold destroyRemoveManifests at h
  split at h
  · rename_i h1
    have e1 := worktreeStat_disk _ _ _ _ _ h1
    split at h
    · rename_i h2
      cases h
      rw [worktreeRemove_disk _ _ _ _ _ _ h2, e1]
      exact Disk.sameOutside_refl _ _
    · rename_i h2
      have e2 := (worktreeRemove_disk _ _ _ _ _ _ h2).trans e1
      split at h
      · rename_i h3
        cases h
        have a3 := osRemoveAll_disk dir _ _ _ _ _ _ _ hin h3
        rw [e2] at a3
        exact a3
      · rename_i h3
        have a3 := osRemoveAll_disk dir _ _ _ _ _ _ _ hin h3
        rw [e2] at a3
        split at h
        · rename_i h4
          cases h
          rw [← worktreeAdd_disk _ _ _ _ _ _ h4] at a3
          exact a3
        · rename_i h4
          cases h
          rw [← worktreeAdd_disk _ _ _ _ _ _ h4] at a3
          exact a3
  · rename_i h1
    cases h
    rw [worktreeStat_disk _ _ _ _ _ h1]
    exact Disk.sameOutside_refl _ _

theorem destroyPublish_disk (dir : String) (cfg : Config) (env : Env)
    (tempDir manifestDir appName : String) (ws : Workspace) (w : World)
    (hin1 : inDir dir (filepath.Join [tempDir, manifestDir]) = true)
    (hin2 : inDir dir (filepath.Join [tempDir,
      filepath.Join [cfg.argocdAppPath, appName ++ ".yaml"]]) = true) :
    Disk.sameOutside dir w.disk
      (destroyPublish cfg env tempDir manifestDir appName ws w).2.disk := by
  unfold destroyPublish
  split
  · rename_i h1
    exact osRemoveAll_disk dir _ _ _ _ _ _ _ hin1 h1
  · rename_i h1
    have a1 := osRemoveAll_disk dir _ _ _ _ _ _ _ hin1 h1
    try dsimp only
    split
    · rename_i h2
      split at h2
      · cases h2
      · rename_i h3
        have a3 := osRemove_disk dir _ _ _ _ _ _ _ hin2 h3
        split at h2
        · cases h2
          exact Disk.sameOutside_trans _ _ _ _ a1 a3
        · cases h2
    · rename_i ws2 w2 h2
      have a2 : Disk.sameOutside dir w.disk w2.disk := by
        split at h2
        · rename_i h3
          cases h2
          exact Disk.sameOutside_trans _ _ _ _ a1 (osRemove_disk dir _ _ _ _ _ _ _ hin2 h3)
        · rename_i h3
          split at h2
          · cases h2
          · cases h2
            exact Disk.sameOutside_trans _ _ _ _ a1 (osRemove_disk dir _ _ _ _ _ _ _ hin2 h3)
      split
      · rename_i h4
        rw [← worktreeAdd_disk _ _ _ _ _ _ h4] at a2
        exact a2
      · rename_i h4
        rw [← worktreeAdd_disk _ _ _ _ _ _ h4] at a2
        split
        · rename_i h5
          rw [← worktreeStatus_disk _ _ _ _ _ h5] at a2
          exact a2
        · rename_i h5
          rw [← worktreeStatus_disk _ _ _ _ _ h5] at a2
          exact a2
        · rename_i h5
          rw [← worktreeStatus_disk _ _ _ _ _ h5] at a2
          try dsimp only
          split
          · rename_i h6
            rw [← worktreeCommit_disk _ _ _ _ _ _ h6] at a2
            exact a2
          · rename_i h6
            rw [← worktreeCommit_disk _ _ _ _ _ _ h6] at a2
            split
            · rename_i h7
              rw [← repoPush_disk _ _ _ _ _ h7] at a2
              exact a2
            · rename_i h7
              rw [← repoPush_disk _ _ _ _ _ h7] at a2
              exact a2

theorem destroyBody_disk (cfg : Config) (env : Env) (dir appName : String) (w : World)
    (hin : ∀ p ∈ destroyDiskPaths cfg dir appName, inDir dir p = true) :
    Disk.sameOutside dir w.disk (destroyBody cfg env dir appName w).2.disk := by
  have hin1 : inDir dir (filepath.Join [dir, filepath.Join [cfg.manifestPath, appName]])
      = true := hin _ (by simp [destroyDiskPaths])
  have hin2 : inDir dir (filepath.Join [dir,
      filepath.Join [cfg.argocdAppPath, appName ++ ".yaml"]]) = true :=
    hin _ (by simp [destroyDiskPaths])
  unfold destroyBody
  split
  · rename_i h1
    rw [← gitPlainClone_disk _ _ _ _ _ _ h1]
    exact Disk.sameOutside_refl _ _
  · rename_i h1
    have e1 := gitPlainClone_disk _ _ _ _ _ _ h1
    split
    · rename_i h2
      rw [← e1, ← repoWorktree_disk _ _ _ _ h2]
      exact Disk.sameOutside_refl _ _
    · rename_i h2
      have e2 := (repoWorktree_disk _ _ _ _ h2).trans e1
      try dsimp only
      split
      · rename_i h3
        have a3 := destroyRemoveManifests_disk dir _ _ _ _ _ _ _ _ hin1 h3
        rw [e2] at a3
        exact a3
      · rename_i h3
        have a3 := destroyRemoveManifests_disk dir _ _ _ _ _ _ _ _ hin1 h3
        rw [e2] at a3
        exact Disk.sameOutside_trans _ _ _ _ a3
          (destroyPublish_disk dir cfg env _ _ appName _ _ hin1 hin2)

/-! ## C12: the temporary directory on every exit path -/

/-- C12, amended: when `os.MkdirTemp` succeeds, `deploy` and `destroy` end every exit path
(each error return, the no-op return and the success return alike, whatever else fails) with
`os.RemoveAll` of the directory they created, named with the prefix `mcp-deployer-`,
respectively `mcp-destroyer-`.  When that removal goes through, nothing at or in the
directory is left on the disk; and when, in addition, every disk path the operation builds
lies in its temporary directory, the directory was fresh and, for `deploy`, the directories
above it exist, the entries of the disk after the call are those from before it. -/
theorem workspace_removal_on_every_exit (cfg : Config) (tpl : Templates) (env : Env)
    (w : World) (appName image : String) (hmk : env.faults.mkdirTemp = none) :
    ((∃ mid, callsOf w (deploy cfg tpl env w appName image)
          = Event.mkdirTemp (tempDirOf env "mcp-deployer-") :: mid
            ++ [Event.removeAllTemp (tempDirOf env "mcp-deployer-")])
      ∧ (env.faults.removeAllTemp = none →
          (∀ p ∈ (deploy cfg tpl env w appName image).2.disk,
            inDir (tempDirOf env "mcp-deployer-") p = false)
          ∧ ((∀ p ∈ deployDiskPaths cfg (tempDirOf env "mcp-deployer-") appName,
                inDir (tempDirOf env "mcp-deployer-") p = true) →
              (∀ p ∈ w.disk, inDir (tempDirOf env "mcp-deployer-") p = false) →
              Disk.holdsAbove (tempDirOf env "mcp-deployer-") w.disk →
              (deploy cfg tpl env w appName image).2.disk = w.disk)))
    ∧ ((∃ mid, callsOf w (destroy cfg env w appName)
          = Event.mkdirTemp (tempDirOf env "mcp-destroyer-") :: mid
            ++ [Event.removeAllTemp (tempDirOf env "mcp-destroyer-")])
      ∧ (env.faults.removeAllTemp = none →
          (∀ p ∈ (destroy cfg env w appName).2.disk,
            inDir (tempDirOf env "mcp-destroyer-") p = false)
          ∧ ((∀ p ∈ destroyDiskPaths cfg (tempDirOf env "mcp-destroyer-") appName,
                inDir (tempDirOf env "mcp-destroyer-") p = true) →
              (∀ p ∈ w.disk, inDir (tempDirOf env "mcp-destroyer-") p = false) →
              (destroy cfg env w appName).2.disk = w.disk))) := by
  have hfresh : ∀ (dir : String) (disk : List String),
      (∀ p ∈ disk, inDir dir p = false) →
      (dir :: disk).filter (fun p => !inDir dir p) = disk := by
    intro dir disk h
    rw [List.filter_cons, inDir_self]
    simp only [Bool.not_true, Bool.false_eq_true, if_false]
    rw [List.filter_eq_self]
    intro p hp
    simp [h p hp]
  constructor
  · have hop : deploy cfg tpl env w appName image
        = ((deployBody cfg tpl env (tempDirOf env "mcp-deployer-") appName image
              { w.emit (Event.mkdirTemp (tempDirOf env "mcp-deployer-"))
                with disk := tempDirOf env "mcp-deployer-" :: w.disk }).1,
            osRemoveAllTemp env
              (deployBody cfg tpl env (tempDirOf env "mcp-deployer-") appName image
                { w.emit (Event.mkdirTemp (tempDirOf env "mcp-deployer-"))
                  with disk := tempDirOf env "mcp-deployer-" :: w.disk }).2
              (tempDirOf env "mcp-deployer-")) := by
      simp only [deploy, osMkdirTemp, hmk, tempDirOf]
    rw [hop]
    refine ⟨removal_last_of_bodyOutcome _ _ env w _ cfg.githubURL _
      (deployBody_cases cfg tpl env
        { w.emit (Event.mkdirTemp (tempDirOf env "mcp-deployer-"))
          with disk := tempDirOf env "mcp-deployer-" :: w.disk }
        (tempDirOf env "mcp-deployer-") appName image), fun hrm => ⟨?_, ?_⟩⟩
    · intro p hp
      simp only [osRemoveAllTemp, hrm, World.onDisk_disk, Disk.removeAll,
        List.mem_filter] at hp
      simpa using hp.2
    · intro hin hfr habove
      have hab : Disk.holdsAbove (tempDirOf env "mcp-deployer-")
          (tempDirOf env "mcp-deployer-" :: w.disk) :=
        fun a ha hout => List.mem_cons_of_mem _ (habove a ha hout)
      have hs := deployBody_disk cfg tpl env (tempDirOf env "mcp-deployer-") appName image
        { w.emit (Event.mkdirTemp (tempDirOf env "mcp-deployer-"))
          with disk := tempDirOf env "mcp-deployer-" :: w.disk } hin hab
      simp only [osRemoveAllTemp, hrm, World.onDisk_disk, Disk.removeAll]
      exact hs.trans (hfresh _ _ hfr)
  · have hop : destroy cfg env w appName
        = ((destroyBody cfg env (tempDirOf env "mcp-destroyer-") appName
              { w.emit (Event.mkdirTemp (tempDirOf env "mcp-destroyer-"))
                with disk := tempDirOf env "mcp-destroyer-" :: w.disk }).1,
            osRemoveAllTemp env
              (destroyBody cfg env (tempDirOf env "mcp-destroyer-") appName
                { w.emit (Event.mkdirTemp (tempDirOf env "mcp-destroyer-"))
                  with disk := tempDirOf env "mcp-destroyer-" :: w.disk }).2
              (tempDirOf env "mcp-destroyer-")) := by
      simp only [destroy, osMkdirTemp, hmk, tempDirOf]
    rw [hop]
    refine ⟨removal_last_of_bodyOutcome _ _ env w _ cfg.githubURL _
      (destroyBody_cases cfg env
        { w.emit (Event.mkdirTemp (tempDirOf env "mcp-destroyer-"))
          with disk := tempDirOf env "mcp-destroyer-" :: w.disk }
        (tempDirOf env "mcp-destroyer-") appName), fun hrm => ⟨?_, ?_⟩⟩
    · intro p hp
      simp only [osRemoveAllTemp, hrm, World.onDisk_disk, Disk.removeAll,
        List.mem_filter] at hp
      simpa using hp.2
    · intro hin hfr
      have hs := destroyBody_disk cfg env (tempDirOf env "mcp-destroyer-") appName
        { w.emit (Event.mkdirTemp (tempDirOf env "mcp-destroyer-"))
          with disk := tempDirOf env "mcp-destroyer-" :: w.disk } hin
      simp only [osRemoveAllTemp, hrm, World.onDisk_disk, Disk.removeAll]
      exact hs.trans (hfresh _ _ hfr)

/-- C12, on an example: a deployment whose push fails and a destroy, each run next to a
directory of something else, leave the disk as it was. -/
theorem workspace_removal_on_every_exit_witness :
    pushFailsEnv.faults.mkdirTemp = none
      ∧ (deploy sampleConfig sampleTemplates pushFailsEnv crowdedWorld "shop" "nginx:1").1
        = (NewToolResultError "Failed to push changes: remote hung up", none)
      ∧ (deploy sampleConfig sampleTemplates pushFailsEnv crowdedWorld "shop" "nginx:1").2.disk
        = ["/tmp", "/tmp/other"]
      ∧ (destroy sampleConfig pushFailsEnv crowdedWorld "shop").2.disk
        = ["/tmp", "/tmp/other"] :=
  ⟨rfl, by rfl,
    ((workspace_removal_on_every_exit sampleConfig sampleTemplates pushFailsEnv crowdedWorld
      "shop" "nginx:1" rfl).1.2 rfl).2 (by decide) (by decide)
      (by unfold Disk.holdsAbove; decide),
    ((workspace_removal_on_every_exit sampleConfig sampleTemplates pushFailsEnv crowdedWorld
      "shop" "nginx:1" rfl).2.2 rfl).2 (by decide) (by decide)⟩

/-- C12, counterexample: the entries of the disk after a call are not always those from
before it.  A `destroy` of the name `../../other` removes the directory `/tmp/other`, which
is not its temporary directory, and reports the no-op; a `deploy` of the name
`../../v-escape` creates `/tmp/v-escape` and a file in it and leaves both behind; and when
the deferred `os.RemoveAll` fails, its error is dropped and the temporary directory
stays. -/
theorem workspace_entries_not_preserved :
    "/tmp/other" ∈ crowdedWorld.disk
      ∧ (destroy sampleConfig sampleEnv crowdedWorld "../../other").1
        = (NewToolResultText "App ../../other does not exist or already destroyed", none)
      ∧ (destroy sampleConfig sampleEnv crowdedWorld "../../other").2.trace
        = [Event.mkdirTemp "/tmp/mcp-destroyer-123",
          Event.plainClone "/tmp/mcp-destroyer-123" "https://git.example/ops.git",
          Event.worktree, Event.stat "../other", Event.removeAll "../other",
          Event.remove "../other.yaml", Event.add ".", Event.status,
          Event.removeAllTemp "/tmp/mcp-destroyer-123"]
      ∧ (destroy sampleConfig sampleEnv crowdedWorld "../../other").2.disk = ["/tmp"]
      ∧ (deploy sampleConfig sampleTemplates outsideAddFailsEnv crowdedWorld "../../v-escape"
          "nginx:1").1
        = (NewToolResultError "Failed to git add deployment.yaml: path is outside the worktree",
            none)
      ∧ (deploy sampleConfig sampleTemplates outsideAddFailsEnv crowdedWorld "../../v-escape"
          "nginx:1").2.disk
        = ["/tmp", "/tmp/other", "/tmp/v-escape", "/tmp/v-escape/deployment.yaml"]
      ∧ (deploy sampleConfig sampleTemplates removalFailsEnv crowdedWorld "shop" "nginx:1").1
        = (NewToolResultText "Successfully deployed shop. Git updated.", none)
      ∧ "/tmp/mcp-deployer-123"
        ∈ (deploy sampleConfig sampleTemplates removalFailsEnv crowdedWorld "shop"
            "nginx:1").2.disk :=
  ⟨by decide, by rfl, by rfl, by rfl, by rfl, by rfl, by rfl, by decide⟩

end McpAppDeployer
